import Mathlib

/-!
# Hardware topology (`src/control/lib/hardware/topology.go`)

A shallow embedding of the topology data model, of `AddDevice` / `Merge`, of the queries
(`AllDevices`, `NumCoresPerNUMA`, `Keys`, `Contains`) and of `TopologyFactory.GetTopology`.

Conventions of the embedding.

* A Go map is a `GoMap`: a list of key/value entries with pairwise distinct keys.  The order
  of the entries is the order in which `range` visits them; since every statement below is
  about all maps, it covers every iteration order.  A map that may be `nil` is an
  `Option (GoMap K V)`, `none` being the `nil` map: reading it yields no entry, `range`
  visits nothing.
* A pointer that a method tests against `nil` is an `Option`; `none` is `nil`.  Slices and
  maps hold non-nil pointers.
* Objects are values.  The receiver of a mutating method is passed in and the mutated
  receiver is returned; receiver and incoming topology are taken to share no object.
* In Go the flat index of a node and the index of a bus hold the same `*PCIDevice`
  (`NUMANode.AddDevice`, lines 281 and 216), so the `Type` and `LinkSpeed` that `Merge`
  fills in (lines 149-155) are seen through both.  Here a bus index holds the device as it
  was when attached and `Merge` rewrites the flat index only: which devices a bus indexes,
  by `Name` and `PCIAddr` (fields that no operation writes), is as in Go, their `Type` and
  `LinkSpeed` may be those of an earlier moment.  Statements about a bus index after `Merge`
  are therefore made by device name and address (`PCIDevice.ident`, `PCIBus.alike`).
* The back-references `CPUCore.NUMANode`, `PCIDevice.NUMANode`, `PCIDevice.Bus` and
  `PCIBus.NUMANode` (all `json:"-"`, written but never read in this file) are left out.
* `uint` is `Nat`.  A `float64` is its IEEE 754 bit pattern; the only operations on
  `LinkSpeed` are the comparison with `0` and the copy.
-/

namespace Hardware

/-! ## Go maps -/

/-- A non-nil Go map: entries with pairwise distinct keys, in iteration order. -/
structure GoMap (K V : Type) where
  entries : List (K × V)
  nodupKeys : (entries.map Prod.fst).Nodup

namespace GoMap

variable {K V : Type}

/-- The map `make(...)` returns. -/
def empty : GoMap K V := ⟨[], List.nodup_nil⟩

/-- Value stored under `k` in a list of entries. -/
def getL [DecidableEq K] (k : K) : List (K × V) → Option V
  | [] => none
  | e :: rest => if e.1 = k then some e.2 else getL k rest

/-- Go `v, ok := m[k]`. -/
def get [DecidableEq K] (m : GoMap K V) (k : K) : Option V := getL k m.entries

/-- Store `v` under `k` in a list of entries: in place when the key is there, else as a new
last entry. -/
def setL [DecidableEq K] (k : K) (v : V) : List (K × V) → List (K × V)
  | [] => [(k, v)]
  | e :: rest => if e.1 = k then (k, v) :: rest else e :: setL k v rest

/-- Go `m[k] = v`. -/
def set [DecidableEq K] (m : GoMap K V) (k : K) (v : V) : GoMap K V :=
  ⟨setL k v m.entries, by
    have key : ∀ l : List (K × V),
        (∀ x, x ∈ (setL k v l).map Prod.fst → x = k ∨ x ∈ l.map Prod.fst) ∧
        ((l.map Prod.fst).Nodup → ((setL k v l).map Prod.fst).Nodup) := by
      intro l
      induction l with
      | nil => simp [setL]
      | cons e rest ih =>
        by_cases h : e.1 = k
        · simp only [setL, h, if_true, List.map_cons, List.mem_cons, List.nodup_cons]
          exact ⟨fun x hx => Or.inr hx, fun hn => hn⟩
        · simp only [setL, h, if_false, List.map_cons, List.mem_cons, List.nodup_cons]
          refine ⟨fun x hx => ?_, fun hn => ⟨fun hmem => ?_, ih.2 hn.2⟩⟩
          · rcases hx with hx | hx
            · exact Or.inr (Or.inl hx)
            · rcases ih.1 x hx with h1 | h1
              · exact Or.inl h1
              · exact Or.inr (Or.inr h1)
          · rcases ih.1 _ hmem with h1 | h1
            · exact h h1
            · exact hn.1 h1
    exact (key m.entries).2 m.nodupKeys⟩

/-- The keys of a map, in iteration order. -/
def keys (m : GoMap K V) : List K := m.entries.map Prod.fst

instance instDecEqGoMap [DecidableEq K] [DecidableEq V] : DecidableEq (GoMap K V) := fun a b =>
  decidable_of_iff (a.entries = b.entries) (by cases a; cases b; simp)

end GoMap

/-- Entries visited by `range` over a map that may be nil. -/
def rangeOf {K V : Type} : Option (GoMap K V) → List (K × V)
  | none => []
  | some m => m.entries

/-- Go `m[k]` with the `ok` flag, on a map that may be nil. -/
def lookupOf {K V : Type} [DecidableEq K] : Option (GoMap K V) → K → Option V
  | none, _ => none
  | some m, k => m.get k

/-! ## Data model -/

/-- Modelled from the spec: `common.PCIAddress` is declared outside this file; it is the value
`domain:bus:device.function`, compared field by field (`Equals`, map key equality). -/
structure PCIAddress where
  Domain : Nat
  Bus : Nat
  Device : Nat
  Function : Nat
deriving DecidableEq, Repr

/-- Go `type DeviceType uint`. -/
abbrev DeviceType := Nat

/-- Device type that is not recognized. -/
def DeviceTypeUnknown : DeviceType := 0

/-- Standard network interface. -/
def DeviceTypeNetInterface : DeviceType := 1

/-- OpenFabrics domain device. -/
def DeviceTypeOFIDomain : DeviceType := 2

/-- Go `float64`, by its IEEE 754 bit pattern. -/
structure Float64 where
  bits : Nat
deriving DecidableEq, Repr

/-- Go `f == 0`: true for `+0` (all bits clear) and `-0` (sign bit only), false for every
other value, NaN included. -/
def Float64.isZero (f : Float64) : Bool :=
  decide (f.bits = 0) || decide (f.bits = 9223372036854775808)

/-- The value `0`. -/
def Float64.zero : Float64 := ⟨0⟩

/-- Go `CPUCore`. -/
structure CPUCore where
  ID : Nat
deriving DecidableEq, Repr

/-- Go `PCIDevice`; the field `Type` is `DevType` here. -/
structure PCIDevice where
  Name : String
  DevType : DeviceType
  PCIAddr : PCIAddress
  LinkSpeed : Float64
deriving DecidableEq, Repr

/-- Go `PCIDevices map[common.PCIAddress][]*PCIDevice`; `none` is the nil map. -/
abbrev PCIDevices := Option (GoMap PCIAddress (List PCIDevice))

/-- Go `PCIBus`. -/
structure PCIBus where
  LowAddress : PCIAddress
  HighAddress : PCIAddress
  PCIDevices : PCIDevices
deriving DecidableEq

/-- Go `NUMANode`. -/
structure NUMANode where
  ID : Nat
  Cores : List CPUCore
  PCIBuses : List PCIBus
  PCIDevices : PCIDevices
deriving DecidableEq

/-- Go `NodeMap map[uint]*NUMANode`; `none` is the nil map. -/
abbrev NodeMap := Option (GoMap Nat NUMANode)

/-- Go `Topology`. -/
structure Topology where
  NUMANodes : NodeMap
deriving DecidableEq

/-- Go `d[addr]` on a device index: the bucket, the nil slice when there is none. -/
def PCIDevices.bucket (d : PCIDevices) (addr : PCIAddress) : List PCIDevice :=
  (lookupOf d addr).getD []

/-! ## Operations -/

/-- Go `d[addr] = append(d[addr], dev)` on a non-nil index. -/
def appendAt (m : GoMap PCIAddress (List PCIDevice)) (addr : PCIAddress) (dev : PCIDevice) :
    GoMap PCIAddress (List PCIDevice) :=
  m.set addr ((m.get addr).getD [] ++ [dev])

/-- Go `func (d PCIDevices) Add(dev *PCIDevice)`. -/
def PCIDevices.Add (d : PCIDevices) (dev : Option PCIDevice) : PCIDevices :=
  match d, dev with
  | some m, some dv => some (appendAt m dv.PCIAddr dv)
  | _, _ => d

/-- Go `func (b *PCIBus) Contains(addr common.PCIAddress) bool`. -/
def PCIBus.Contains (b : Option PCIBus) (addr : PCIAddress) : Bool :=
  match b with
  | none => false
  | some bus =>
    decide (bus.LowAddress.Domain = addr.Domain) &&
      decide (bus.LowAddress.Bus ≤ addr.Bus) &&
      decide (addr.Bus ≤ bus.HighAddress.Bus)

/-- Body of `PCIBus.AddDevice` for a non-nil bus and a non-nil device. -/
def PCIBus.addDeviceCore (bus : PCIBus) (dev : PCIDevice) : PCIBus :=
  if !PCIBus.Contains (some bus) dev.PCIAddr then bus
  else
    let devs : GoMap PCIAddress (List PCIDevice) :=
      match bus.PCIDevices with
      | none => GoMap.empty
      | some m => m
    { bus with PCIDevices := some (appendAt devs dev.PCIAddr dev) }

/-- Go `func (b *PCIBus) AddDevice(dev *PCIDevice)`. -/
def PCIBus.AddDevice (b : Option PCIBus) (dev : Option PCIDevice) : Option PCIBus :=
  match b, dev with
  | some bus, some dv => some (PCIBus.addDeviceCore bus dv)
  | _, _ => b

/-- Body of `NUMANode.AddPCIBus` for a non-nil node and bus. -/
def NUMANode.addPCIBusCore (n : NUMANode) (bus : PCIBus) : NUMANode :=
  { n with PCIBuses := n.PCIBuses ++ [bus] }

/-- Go `func (n *NUMANode) AddPCIBus(bus *PCIBus)`. -/
def NUMANode.AddPCIBus (n : Option NUMANode) (bus : Option PCIBus) : Option NUMANode :=
  match n, bus with
  | some node, some b => some (NUMANode.addPCIBusCore node b)
  | _, _ => n

/-- The loop of `NUMANode.AddDevice` over `n.PCIBuses`: the first bus that contains the
address takes the device, and the loop returns. -/
def NUMANode.addToFirstBus (dev : PCIDevice) : List PCIBus → List PCIBus
  | [] => []
  | bus :: rest =>
    if PCIBus.Contains (some bus) dev.PCIAddr then PCIBus.addDeviceCore bus dev :: rest
    else bus :: NUMANode.addToFirstBus dev rest

/-- Body of `NUMANode.AddDevice` for a non-nil node and device. -/
def NUMANode.addDeviceCore (n : NUMANode) (dev : PCIDevice) : NUMANode :=
  let devs : GoMap PCIAddress (List PCIDevice) :=
    match n.PCIDevices with
    | none => GoMap.empty
    | some m => m
  { n with
    PCIDevices := PCIDevices.Add (some devs) (some dev)
    PCIBuses := NUMANode.addToFirstBus dev n.PCIBuses }

/-- Go `func (n *NUMANode) AddDevice(dev *PCIDevice)`. -/
def NUMANode.AddDevice (n : Option NUMANode) (dev : Option PCIDevice) : Option NUMANode :=
  match n, dev with
  | some node, some dv => some (NUMANode.addDeviceCore node dv)
  | _, _ => n

/-- Body of `NUMANode.AddCore` for a non-nil node. -/
def NUMANode.addCoreCore (n : NUMANode) (core : CPUCore) : NUMANode :=
  { n with Cores := n.Cores ++ [core] }

/-- Go `func (n *NUMANode) AddCore(core CPUCore)`. -/
def NUMANode.AddCore (n : Option NUMANode) (core : CPUCore) : Option NUMANode :=
  match n with
  | some node => some (NUMANode.addCoreCore node core)
  | none => none

/-- Go `func (t *Topology) AddDevice(numaID uint, device *PCIDevice)`. -/
def Topology.AddDevice (t : Option Topology) (numaID : Nat) (device : Option PCIDevice) :
    Option Topology :=
  match t, device with
  | some topo, some dev =>
    let nodes : GoMap Nat NUMANode :=
      match topo.NUMANodes with
      | none => GoMap.empty
      | some m => m
    let numa : NUMANode :=
      match nodes.get numaID with
      | some n => n
      | none => { ID := numaID, Cores := [], PCIBuses := [], PCIDevices := some GoMap.empty }
    some { NUMANodes := some (nodes.set numaID (NUMANode.addDeviceCore numa dev)) }
  | _, _ => t

/-! ### Merge -/

/-- Lines 111-123: the cores of the incoming node, one by one, against the current cores. -/
def Merge.cores (current : NUMANode) (newCores : List CPUCore) : NUMANode :=
  newCores.foldl
    (fun cur core =>
      if cur.Cores.any (fun curCore => decide (curCore.ID = core.ID)) then cur
      else NUMANode.addCoreCore cur core)
    current

/-- Lines 125-138: the buses of the incoming node, one by one, against the current buses. -/
def Merge.buses (current : NUMANode) (newBuses : List PCIBus) : NUMANode :=
  newBuses.foldl
    (fun cur bus =>
      if cur.PCIBuses.any (fun curBus =>
          decide (curBus.HighAddress = bus.HighAddress) &&
            decide (curBus.LowAddress = bus.LowAddress)) then cur
      else NUMANode.addPCIBusCore cur bus)
    current

/-- Lines 149-155: the two soft fields of the existing device are filled from the incoming
one when unset. -/
def Merge.fillSoft (oldDev newDev : PCIDevice) : PCIDevice :=
  { oldDev with
    DevType := if oldDev.DevType = DeviceTypeUnknown then newDev.DevType else oldDev.DevType
    LinkSpeed := if oldDev.LinkSpeed.isZero then newDev.LinkSpeed else oldDev.LinkSpeed }

/-- Lines 144-157 on one existing device. -/
def Merge.visitOld (newDev oldDev : PCIDevice) : PCIDevice :=
  if newDev.Name = oldDev.Name then Merge.fillSoft oldDev newDev else oldDev

/-- Lines 144-157 over `oldDevs`, the first `n` device objects of the bucket `b`: each of
them is visited; what `Add` appended behind them is not. -/
def Merge.touchFirst (n : Nat) (newDev : PCIDevice) (b : List PCIDevice) : List PCIDevice :=
  (b.take n).map (Merge.visitOld newDev) ++ b.drop n

/-- Lines 143-160 for one incoming device.  `oldDevs` is the slice read at line 141: it
addresses the first `n` device objects of the bucket at `key`, also after `Add` has appended
to that bucket.  The loop over `oldDevs` updates those objects in place; the device is added
when none of them has its name. -/
def Merge.devStep (key : PCIAddress) (n : Nat) (d : PCIDevices) (newDev : PCIDevice) :
    PCIDevices :=
  let oldDevs := (PCIDevices.bucket d key).take n
  let d1 : PCIDevices :=
    match d with
    | none => none
    | some m =>
      match m.get key with
      | none => some m
      | some b => some (m.set key (Merge.touchFirst n newDev b))
  if oldDevs.any (fun oldDev => decide (newDev.Name = oldDev.Name)) then d1
  else PCIDevices.Add d1 (some newDev)

/-- An existing device after the incoming devices of its bucket have visited it in turn. -/
def Merge.visitAll (newDevs : List PCIDevice) (oldDev : PCIDevice) : PCIDevice :=
  newDevs.foldl (fun o newDev => Merge.visitOld newDev o) oldDev

/-- Lines 141-161 for one bucket of the incoming node. -/
def Merge.bucketStep (d : PCIDevices) (e : PCIAddress × List PCIDevice) : PCIDevices :=
  e.2.foldl (Merge.devStep e.1 (PCIDevices.bucket d e.1).length) d

/-- Lines 140-162: every bucket of the incoming node. -/
def Merge.devices (d : PCIDevices) (newDevices : PCIDevices) : PCIDevices :=
  (rangeOf newDevices).foldl Merge.bucketStep d

/-- Lines 111-162: the incoming node reconciled against the existing one.  The device loop
rewrites the flat index; the index of each bus keeps the devices in the state in which they
were attached, so after a fill of lines 149-155 a bus index agrees with Go in the names and
addresses of its devices, not necessarily in their `Type` and `LinkSpeed`. -/
def Merge.node (current node : NUMANode) : NUMANode :=
  let c1 := Merge.cores current node.Cores
  let c2 := Merge.buses c1 node.PCIBuses
  { c2 with PCIDevices := Merge.devices c2.PCIDevices node.PCIDevices }

/-- Lines 101-162: one iteration of the loop over the incoming nodes. -/
def Merge.nodeStep (nodes : NodeMap) (e : Nat × NUMANode) : NodeMap :=
  let m : GoMap Nat NUMANode :=
    match nodes with
    | none => GoMap.empty
    | some m => m
  match m.get e.1 with
  | none => some (m.set e.1 e.2)
  | some current => some (m.set e.1 (Merge.node current e.2))

/-- Go `func (t *Topology) Merge(newTopo *Topology)`. -/
def Topology.Merge (t newTopo : Option Topology) : Option Topology :=
  match t, newTopo with
  | some topo, some incoming =>
    some { NUMANodes := (rangeOf incoming.NUMANodes).foldl Merge.nodeStep topo.NUMANodes }
  | _, _ => t

/-- The keys of a device index with the device names of each bucket, in iteration order. -/
def PCIDevices.shape (d : PCIDevices) : List (PCIAddress × List String) :=
  (rangeOf d).map (fun e => (e.1, e.2.map PCIDevice.Name))

/-- The number of devices in a device index, over all buckets. -/
def PCIDevices.count (d : PCIDevices) : Nat :=
  ((rangeOf d).map (fun e => e.2.length)).sum

/-- The node stored under `id`, if any (nil topology and nil map have none). -/
def Topology.nodeAt (t : Option Topology) (id : Nat) : Option NUMANode :=
  match t with
  | none => none
  | some topo => lookupOf topo.NUMANodes id

/-- The buses owned by the node stored under `id`; none when there is no such node. -/
def Topology.busesAt (t : Option Topology) (id : Nat) : List PCIBus :=
  match Topology.nodeAt t id with
  | none => []
  | some n => n.PCIBuses

/-! ### Queries and convenience forms -/

/-- Go `func (t *Topology) NumNUMANodes() int`. -/
def Topology.NumNUMANodes (t : Option Topology) : Nat :=
  match t with
  | none => 0
  | some topo => (rangeOf topo.NUMANodes).length

/-- Go `func (t *Topology) NumCoresPerNUMA() int`: the loop returns in its first iteration. -/
def Topology.NumCoresPerNUMA (t : Option Topology) : Nat :=
  match t with
  | none => 0
  | some topo =>
    match rangeOf topo.NUMANodes with
    | [] => 0
    | e :: _ => e.2.Cores.length

/-- Lines 42-44: the devices of one bucket are stored under their names. -/
def AllDevices.bucketLoop (devsByName : GoMap String PCIDevice) (devs : List PCIDevice) :
    GoMap String PCIDevice :=
  devs.foldl (fun acc dev => acc.set dev.Name dev) devsByName

/-- Lines 41-45: every bucket of one node. -/
def AllDevices.nodeLoop (devsByName : GoMap String PCIDevice) (numaNode : NUMANode) :
    GoMap String PCIDevice :=
  (rangeOf numaNode.PCIDevices).foldl (fun acc e => AllDevices.bucketLoop acc e.2) devsByName

/-- Go `func (t *Topology) AllDevices() map[string]*PCIDevice`. -/
def Topology.AllDevices (t : Option Topology) : GoMap String PCIDevice :=
  match t with
  | none => GoMap.empty
  | some topo =>
    (rangeOf topo.NUMANodes).foldl (fun acc e => AllDevices.nodeLoop acc e.2) GoMap.empty

/-- Go `func (n *NUMANode) WithPCIBuses(buses []*PCIBus) *NUMANode`, on a non-nil node. -/
def NUMANode.WithPCIBuses (n : NUMANode) (buses : List PCIBus) : NUMANode :=
  buses.foldl NUMANode.addPCIBusCore n

/-- Go `func (n *NUMANode) WithDevices(devices []*PCIDevice) *NUMANode`, on a non-nil node. -/
def NUMANode.WithDevices (n : NUMANode) (devices : List PCIDevice) : NUMANode :=
  devices.foldl NUMANode.addDeviceCore n

/-- Go `func (n *NUMANode) WithCPUCores(cores []CPUCore) *NUMANode`, on a non-nil node. -/
def NUMANode.WithCPUCores (n : NUMANode) (cores : List CPUCore) : NUMANode :=
  cores.foldl NUMANode.addCoreCore n

/-- The topology after a method has mutated, in place, the node stored under `id`. -/
def Topology.putNode (t : Topology) (id : Nat) (n : NUMANode) : Topology :=
  match t.NUMANodes with
  | none => t
  | some m => { NUMANodes := some (m.set id n) }

/-- Go `func (t DeviceType) String() string`. -/
def DeviceType.String (t : DeviceType) : String :=
  if t = DeviceTypeNetInterface then "network interface"
  else if t = DeviceTypeOFIDomain then "OFI domain"
  else "unknown device type"

/-! ### Keys -/

/-- Modelled from the spec: the canonical order of `common.PCIAddress`, which is declared
outside this file: "ascending order (domain, then bus, then device, then function)". -/
def PCIAddress.lt (a b : PCIAddress) : Prop :=
  a.Domain < b.Domain ∨ (a.Domain = b.Domain ∧
    (a.Bus < b.Bus ∨ (a.Bus = b.Bus ∧
      (a.Device < b.Device ∨ (a.Device = b.Device ∧ a.Function < b.Function)))))

instance PCIAddress.instDecLt (a b : PCIAddress) : Decidable (PCIAddress.lt a b) := by
  unfold PCIAddress.lt
  exact inferInstance

/-- Modelled from the spec: `common.PCIAddressSet` is declared outside this file; it "accepts
repeated address insertion (idempotent) and yields members in canonical ascending order".
The set is kept as the ascending list of its members. -/
abbrev PCIAddressSet := List PCIAddress

/-- Modelled from the spec: `PCIAddressSet.Add`, missing from the sources: the address is put
at its place in the ascending list; "inserting an equal address twice is not an error", and
no other error is specified, so the `panic` of `Keys` is never reached. -/
def PCIAddressSet.Add (a : PCIAddress) : PCIAddressSet → PCIAddressSet
  | [] => [a]
  | b :: rest =>
    if a = b then b :: rest
    else if PCIAddress.lt a b then a :: b :: rest
    else b :: PCIAddressSet.Add a rest

/-- Modelled from the spec: `PCIAddressSet.Addresses`, missing from the sources: the members
"in canonical ascending order". -/
def PCIAddressSet.Addresses (set : PCIAddressSet) : List PCIAddress := set

/-- Go `func (d PCIDevices) Keys() []*common.PCIAddress`. -/
def PCIDevices.Keys (d : PCIDevices) : List PCIAddress :=
  PCIAddressSet.Addresses ((rangeOf d).foldl (fun set e => PCIAddressSet.Add e.1 set) [])

/-! ### TopologyFactory -/

/-- Go `TopologyProvider`: a call of `GetTopology` in the state `s` of the world returns a
topology (`ok`, possibly the nil pointer) or an error, and leaves the world in a new state.
The context argument is passed through unread. -/
abbrev TopologyProvider (σ ε : Type) := σ → Except ε (Option Topology) × σ

/-- Lines 370-376: the loop over the providers with the accumulator `newTopo`. -/
def TopologyFactory.loop {σ ε : Type} (newTopo : Option Topology) :
    List (TopologyProvider σ ε) → σ → Except ε (Option Topology) × σ
  | [], s => (Except.ok newTopo, s)
  | prov :: rest, s =>
    match prov s with
    | (Except.error err, s1) => (Except.error err, s1)
    | (Except.ok topo, s1) => TopologyFactory.loop (Topology.Merge newTopo topo) rest s1

/-- Go `func (tf *TopologyFactory) GetTopology(ctx context.Context) (*Topology, error)` on
the providers of a non-nil factory. -/
def TopologyFactory.GetTopology {σ ε : Type} (providers : List (TopologyProvider σ ε)) (s : σ) :
    Except ε (Option Topology) × σ :=
  TopologyFactory.loop (some { NUMANodes := none }) providers s

/-- The devices of the flat index of a node, bucket after bucket in iteration order. -/
def NUMANode.flatDevices (n : NUMANode) : List PCIDevice :=
  (rangeOf n.PCIDevices).flatMap (fun e => e.2)

/-- The devices of the flat indexes of all nodes of a topology, in iteration order. -/
def Topology.flatDevices (t : Option Topology) : List PCIDevice :=
  match t with
  | none => []
  | some topo => (rangeOf topo.NUMANodes).flatMap (fun e => e.2.flatDevices)

/-! ### Growth -/

/-- The name and the PCI address of a device. -/
def PCIDevice.ident (d : PCIDevice) : String × PCIAddress := (d.Name, d.PCIAddr)

/-- The bus `b1` is the bus `b` up to the `Type` and `LinkSpeed` of the devices it indexes:
the same range and, bucket by bucket, devices of the same names and addresses in the same
order. -/
def PCIBus.alike (b b1 : PCIBus) : Prop :=
  b1.LowAddress = b.LowAddress ∧ b1.HighAddress = b.HighAddress ∧
    ∀ a, (b1.PCIDevices.bucket a).map PCIDevice.ident =
      (b.PCIDevices.bucket a).map PCIDevice.ident

/-- The bus `b1` is the bus `b` with devices added: the same range, and in every bucket of
the index the devices of `b`, by name and address, are at the head of the bucket of `b1`. -/
def PCIBus.keeps (b b1 : PCIBus) : Prop :=
  b1.LowAddress = b.LowAddress ∧ b1.HighAddress = b.HighAddress ∧
    ∀ a, ∃ ext, (b1.PCIDevices.bucket a).map PCIDevice.ident =
      (b.PCIDevices.bucket a).map PCIDevice.ident ++ ext

/-- Nothing of the node `old` is missing in the node `new`: the old cores are at the head of
the new cores, the old buses are at the head of the new buses (each with its range and, by
name and address, with the devices it indexed), and in every flat-index bucket the old
devices, by name and address, are at the head of the new bucket. -/
def NUMANode.keeps (old new : NUMANode) : Prop :=
  (∃ ext, new.Cores = old.Cores ++ ext) ∧
  (∃ head ext, new.PCIBuses = head ++ ext ∧ List.Forall₂ PCIBus.keeps old.PCIBuses head) ∧
  ∀ a, ∃ ext, (new.PCIDevices.bucket a).map PCIDevice.ident =
    (old.PCIDevices.bucket a).map PCIDevice.ident ++ ext

/-! ### Flat index and bus indexes -/

/-- Every device of the flat index of the node whose address is contained in one of the
buses of the node is, by name and address, in the device index of that bus. -/
def NUMANode.busIndexed (n : NUMANode) : Prop :=
  ∀ a x, x ∈ n.PCIDevices.bucket a → ∀ b ∈ n.PCIBuses,
    PCIBus.Contains (some b) x.PCIAddr = true →
      x.ident ∈ (b.PCIDevices.bucket x.PCIAddr).map PCIDevice.ident

/-- Every device of the flat index of the node whose address is contained in one of the
buses of the node is, by name and address, in the device index of the first such bus in the
bus order. -/
def NUMANode.firstBusIndexed (n : NUMANode) : Prop :=
  ∀ a x, x ∈ n.PCIDevices.bucket a →
    ∀ b, n.PCIBuses.find? (fun bus => PCIBus.Contains (some bus) x.PCIAddr) = some b →
      x.ident ∈ (b.PCIDevices.bucket x.PCIAddr).map PCIDevice.ident

/-- The address is contained in none of the buses. -/
def PCIBus.noneContains (buses : List PCIBus) (q : PCIAddress) : Prop :=
  ∀ b ∈ buses, PCIBus.Contains (some b) q = false

instance PCIBus.instDecNoneContains (buses : List PCIBus) (q : PCIAddress) :
    Decidable (PCIBus.noneContains buses q) := by
  unfold PCIBus.noneContains
  exact inferInstance

/-- The bus may be appended to the node: it contains the address of no device of the flat
index that no bus of the node contains so far. -/
def NUMANode.acceptsBus (n : NUMANode) (bus : PCIBus) : Prop :=
  ∀ a x, x ∈ n.PCIDevices.bucket a → PCIBus.noneContains n.PCIBuses x.PCIAddr →
    PCIBus.Contains (some bus) x.PCIAddr = false

/-- The incoming node `node` may be merged into the node `current`.  Every incoming bus
without a bus of the same range on `current` (`Merge` appends the first incoming bus of each
such range) may be appended to `current`; every incoming device whose name is not in the
bucket of `current` at its address (these are the devices `Merge` adds, to the flat index
only) has an address that no bus of `current` contains. -/
def NUMANode.acceptsMerge (current node : NUMANode) : Prop :=
  (∀ bus ∈ node.PCIBuses, (∀ o ∈ current.PCIBuses, ¬ (o.LowAddress = bus.LowAddress ∧
      o.HighAddress = bus.HighAddress)) → current.acceptsBus bus) ∧
  ∀ a x, x ∈ node.PCIDevices.bucket a →
    x.Name ∉ (current.PCIDevices.bucket a).map PCIDevice.Name →
    PCIBus.noneContains current.PCIBuses x.PCIAddr

/-- The topologies reachable from the empty topology `&Topology{}` by `AddDevice`, by
`AddPCIBus` and `AddCore` on one of their nodes (the `With...` forms are repetitions of
these) and by `Merge` of another such topology. -/
inductive Topology.Reachable : Topology → Prop
  | empty : Topology.Reachable { NUMANodes := none }
  | addDevice (t t1 : Topology) (id : Nat) (dev : PCIDevice) :
      Topology.Reachable t → Topology.AddDevice (some t) id (some dev) = some t1 →
      Topology.Reachable t1
  | addPCIBus (t t1 : Topology) (id : Nat) (n : NUMANode) (bus : PCIBus) :
      Topology.Reachable t → Topology.nodeAt (some t) id = some n →
      t.putNode id (NUMANode.addPCIBusCore n bus) = t1 → Topology.Reachable t1
  | addCore (t t1 : Topology) (id : Nat) (n : NUMANode) (core : CPUCore) :
      Topology.Reachable t → Topology.nodeAt (some t) id = some n →
      t.putNode id (NUMANode.addCoreCore n core) = t1 → Topology.Reachable t1
  | merge (t incoming t1 : Topology) :
      Topology.Reachable t → Topology.Reachable incoming →
      Topology.Merge (some t) (some incoming) = some t1 → Topology.Reachable t1

/-- The topologies reachable from the empty topology by `AddDevice`, by `AddCore`, by
`AddPCIBus` of a bus that the node accepts, and by `Merge` of another such topology whose
nodes the receiver nodes of the same IDs accept.  A merge without common node ID, a merge of
cores, and a merge of buses and devices lying outside what the receiver node holds are all
included. -/
inductive Topology.Built : Topology → Prop
  | empty : Topology.Built { NUMANodes := none }
  | addDevice (t t1 : Topology) (id : Nat) (dev : PCIDevice) :
      Topology.Built t → Topology.AddDevice (some t) id (some dev) = some t1 →
      Topology.Built t1
  | addPCIBus (t t1 : Topology) (id : Nat) (n : NUMANode) (bus : PCIBus) :
      Topology.Built t → Topology.nodeAt (some t) id = some n →
      n.acceptsBus bus →
      t.putNode id (NUMANode.addPCIBusCore n bus) = t1 → Topology.Built t1
  | addCore (t t1 : Topology) (id : Nat) (n : NUMANode) (core : CPUCore) :
      Topology.Built t → Topology.nodeAt (some t) id = some n →
      t.putNode id (NUMANode.addCoreCore n core) = t1 → Topology.Built t1
  | merge (t incoming t1 : Topology) :
      Topology.Built t → Topology.Built incoming →
      (∀ id current node, Topology.nodeAt (some t) id = some current →
        Topology.nodeAt (some incoming) id = some node → current.acceptsMerge node) →
      Topology.Merge (some t) (some incoming) = some t1 → Topology.Built t1

/-! ### Index keys -/

/-- Every device of the index is in the bucket keyed by its own PCI address. -/
def PCIDevices.keyed (d : PCIDevices) : Prop :=
  ∀ a x, x ∈ PCIDevices.bucket d a → x.PCIAddr = a

/-- The flat index of the node and the index of each of its buses are keyed by the device
addresses. -/
def NUMANode.keyed (n : NUMANode) : Prop :=
  PCIDevices.keyed n.PCIDevices ∧ ∀ b ∈ n.PCIBuses, PCIDevices.keyed b.PCIDevices

/-- Every flat index and every bus index of the topology is keyed by the device addresses. -/
def Topology.keyed (t : Option Topology) : Prop :=
  ∀ id n, Topology.nodeAt t id = some n → n.keyed

/-- The core IDs present on a node. -/
def NUMANode.coreIDs (n : NUMANode) : List Nat := n.Cores.map CPUCore.ID

/-- The (low address, high address) ranges of the buses present on a node. -/
def NUMANode.busRanges (n : NUMANode) : List (PCIAddress × PCIAddress) :=
  n.PCIBuses.map (fun b => (b.LowAddress, b.HighAddress))

/-- The device names present in the flat-index bucket at `a` of a node. -/
def NUMANode.deviceNames (n : NUMANode) (a : PCIAddress) : List String :=
  (n.PCIDevices.bucket a).map PCIDevice.Name

/-- The node is free of duplicates: its core IDs are pairwise distinct, its bus (low, high)
ranges are pairwise distinct, every device of its flat index and of its bus indexes is stored
under its own address, and the device names are pairwise distinct within each bucket of its
flat index. -/
def NUMANode.dupFree (n : NUMANode) : Prop :=
  n.coreIDs.Nodup ∧ n.busRanges.Nodup ∧ n.keyed ∧ ∀ a, (n.deviceNames a).Nodup

/-- Lines 105-162 on the nodes found under one ID: nothing incoming keeps the receiver's
node, no receiver node adopts the incoming node, two nodes are reconciled. -/
def Merge.combine : Option NUMANode → Option NUMANode → Option NUMANode
  | current, none => current
  | none, some node => some node
  | some current, some node => some (Merge.node current node)

/-! ## Sample topologies -/

/-- Address `0000:bus:dev.fn`. -/
def Sample.addr (bus dev fn : Nat) : PCIAddress := ⟨0, bus, dev, fn⟩

/-- The device index obtained by adding the devices one by one to an empty index. -/
def Sample.index (l : List PCIDevice) : PCIDevices :=
  l.foldl (fun d dev => PCIDevices.Add d (some dev)) (some GoMap.empty)

/-- A topology with one node stored under `id`. -/
def Sample.single (id : Nat) (n : NUMANode) : Topology :=
  ⟨some ⟨[(id, n)], by simp⟩⟩

/-- Bus `[0000:00:00.0, 0000:05:00.0]` without devices. -/
def Sample.bus05 : PCIBus := ⟨Sample.addr 0 0 0, Sample.addr 5 0 0, none⟩

/-- Bus `[0000:00:00.0, 0000:06:00.0]`: the low address of `bus05`, another high address. -/
def Sample.bus06 : PCIBus := ⟨Sample.addr 0 0 0, Sample.addr 6 0 0, none⟩

/-- Bus `[0000:0f:00.0, 0000:20:00.0]`. -/
def Sample.bus0f : PCIBus := ⟨Sample.addr 15 0 0, Sample.addr 32 0 0, none⟩

/-- Node 0 with core 2 and bus `bus05`. -/
def Sample.coreBusNode : NUMANode := ⟨0, [⟨2⟩], [Sample.bus05], Sample.index []⟩

/-- Node 0 with cores 2, 4, 4, 5 and buses `bus05`, `bus06`, `bus0f`. -/
def Sample.coreBusIncoming : NUMANode :=
  ⟨0, [⟨2⟩, ⟨4⟩, ⟨4⟩, ⟨5⟩], [Sample.bus05, Sample.bus06, Sample.bus0f], Sample.index []⟩

/-- Node 2 with one core and one device. -/
def Sample.otherNode : NUMANode :=
  ⟨2, [⟨7⟩], [Sample.bus0f],
    Sample.index [⟨"test1", DeviceTypeUnknown, Sample.addr 10 0 1, Float64.zero⟩]⟩

/-- A device at `0000:01:00.0`, inside `bus05`. -/
def Sample.devIn : PCIDevice :=
  ⟨"in0", DeviceTypeNetInterface, Sample.addr 1 0 0, Float64.zero⟩

/-- A device at `0000:06:00.0`, outside `bus05`. -/
def Sample.devOut : PCIDevice :=
  ⟨"out0", DeviceTypeNetInterface, Sample.addr 6 0 0, Float64.zero⟩

/-- The device `nic0` at `0000:00:00.1` with both soft fields unset. -/
def Sample.nicUnset : PCIDevice :=
  ⟨"nic0", DeviceTypeUnknown, Sample.addr 0 0 1, Float64.zero⟩

/-- The `float64` value `100`: sign 0, exponent 1029, fraction `0x9000000000000`. -/
def Sample.speed100 : Float64 := ⟨0x4059000000000000⟩

/-- The device `nic0` at `0000:00:00.1`, a network interface with link speed 100. -/
def Sample.nicSet : PCIDevice :=
  ⟨"nic0", DeviceTypeNetInterface, Sample.addr 0 0 1, Sample.speed100⟩

/-- Node 0 with core 2 and the device `nicUnset`. -/
def Sample.nicNodeUnset : NUMANode := ⟨0, [⟨2⟩], [], Sample.index [Sample.nicUnset]⟩

/-- Node 0 with core 2 and the device `nicSet`. -/
def Sample.nicNodeSet : NUMANode := ⟨0, [⟨2⟩], [], Sample.index [Sample.nicSet]⟩

/-- Node 0 with two devices named `nic0` in the bucket at `0000:00:00.1`: `nicUnset`, then
`nicSet`. -/
def Sample.twinNode : NUMANode :=
  ⟨0, [⟨2⟩], [], Sample.index [Sample.nicUnset, Sample.nicSet]⟩

/-- Node 0 with core 2, bus `bus05` and a nil flat index. -/
def Sample.bareNode : NUMANode := ⟨0, [⟨2⟩], [Sample.bus05], none⟩

/-- Node 0 with the device `devIn`, no core and no bus. -/
def Sample.devInNode : NUMANode := ⟨0, [], [], Sample.index [Sample.devIn]⟩

/-- Node 0 whose flat index stores `nicSet` (address `0000:00:00.1`) under the key
`0000:00:00.2`. -/
def Sample.misfiledNode : NUMANode :=
  ⟨0, [], [], some ⟨[(Sample.addr 0 0 2, [Sample.nicSet])], by simp⟩⟩

/-- Node 0 with an empty, non-nil flat index. -/
def Sample.emptyNode : NUMANode := ⟨0, [], [], some GoMap.empty⟩

/-- The topology `&Topology{}`. -/
def Sample.noNodes : Topology := ⟨none⟩

/-- A topology with node 0 (eight cores) and node 1 (eight cores). -/
def Sample.twoNodes : Topology :=
  ⟨some ⟨[(0, ⟨0, List.replicate 8 ⟨0⟩, [], none⟩), (1, ⟨1, List.replicate 8 ⟨0⟩, [], none⟩)],
    by decide⟩⟩

/-- A provider that returns the topology `t` and counts its call. -/
def Sample.provide (t : Topology) : TopologyProvider Nat String :=
  fun calls => (Except.ok (some t), calls + 1)

/-- A provider that fails with the error `err` and counts its call. -/
def Sample.failWith (err : String) : TopologyProvider Nat String :=
  fun calls => (Except.error err, calls + 1)

/-- Node 1 with the devices `test0` and `test1` sharing the address `0000:01:01.1`. -/
def Sample.sharedAddrNode : NUMANode :=
  ⟨1, [], [], Sample.index
    [⟨"test0", DeviceTypeNetInterface, Sample.addr 1 1 1, Float64.zero⟩,
      ⟨"test1", DeviceTypeOFIDomain, Sample.addr 1 1 1, Float64.zero⟩]⟩

/-- A device index with the buckets `0000:02:00.0` (two devices), `0000:00:01.0` (empty) and
`0000:01:00.1`, in this iteration order. -/
def Sample.unsortedIndex : PCIDevices :=
  some ⟨[(Sample.addr 2 0 0, [⟨"a", DeviceTypeUnknown, Sample.addr 2 0 0, Float64.zero⟩,
            ⟨"b", DeviceTypeUnknown, Sample.addr 2 0 0, Float64.zero⟩]),
         (Sample.addr 0 1 0, []),
         (Sample.addr 1 0 1, [⟨"c", DeviceTypeUnknown, Sample.addr 1 0 1, Float64.zero⟩])],
    by decide⟩

/-- A device at `0000:30:00.0`, outside `bus05` and `bus06`. -/
def Sample.devFar : PCIDevice :=
  ⟨"far0", DeviceTypeNetInterface, Sample.addr 48 0 0, Float64.zero⟩

/-- Node 0 after `AddDevice` of `devIn`, then `AddPCIBus` of `bus05`. -/
def Sample.devThenBusNode : NUMANode := ⟨0, [], [Sample.bus05], Sample.index [Sample.devIn]⟩

/-- Node 0 after `AddDevice` of `devFar`. -/
def Sample.farNode : NUMANode := ⟨0, [], [], Sample.index [Sample.devFar]⟩

/-- Node 0 after `AddDevice` of `devFar`, then `AddPCIBus` of `bus05`. -/
def Sample.farBusNode : NUMANode := ⟨0, [], [Sample.bus05], Sample.index [Sample.devFar]⟩

/-- Node 0 of `farBusNode` after `Merge` of a topology whose node 0 holds `devIn`. -/
def Sample.mergedLateNode : NUMANode :=
  ⟨0, [], [Sample.bus05], Sample.index [Sample.devFar, Sample.devIn]⟩

/-- Node 0 after `AddDevice` of `devFar`, then `AddPCIBus` of `bus05` and of `bus06`. -/
def Sample.farTwoBusNode : NUMANode :=
  ⟨0, [], [Sample.bus05, Sample.bus06], Sample.index [Sample.devFar]⟩

/-- Node 0 of `farTwoBusNode` after `AddDevice` of `devIn`: the device is indexed under
`bus05`, the first of the two buses that contain its address. -/
def Sample.overlapNode : NUMANode :=
  ⟨0, [], [⟨Sample.addr 0 0 0, Sample.addr 5 0 0, Sample.index [Sample.devIn]⟩, Sample.bus06],
    Sample.index [Sample.devFar, Sample.devIn]⟩

/-- Node 0 owning `bus05`, after `AddDevice` of `nicUnset`: the device is in the flat index
and in the index of the bus. -/
def Sample.busNicNode : NUMANode :=
  ⟨0, [], [⟨Sample.addr 0 0 0, Sample.addr 5 0 0, Sample.index [Sample.nicUnset]⟩],
    Sample.index [Sample.nicUnset]⟩

/-- A device at `0000:10:00.0`, inside `bus0f`. -/
def Sample.devMid : PCIDevice :=
  ⟨"mid0", DeviceTypeNetInterface, Sample.addr 16 0 0, Float64.zero⟩

/-- Node 0 after `AddDevice` of `devFar`, then `AddPCIBus` of `bus0f`. -/
def Sample.farBus0fNode : NUMANode := ⟨0, [], [Sample.bus0f], Sample.index [Sample.devFar]⟩

/-- Node 0 of `farBus0fNode` after `AddDevice` of `devMid`: the device is indexed under
`bus0f`. -/
def Sample.midNode : NUMANode :=
  ⟨0, [], [⟨Sample.addr 15 0 0, Sample.addr 32 0 0, Sample.index [Sample.devMid]⟩],
    Sample.index [Sample.devFar, Sample.devMid]⟩

/-! ## The merge rules in the words of the specification -/

/-- Cores: "a core is a duplicate iff its identifier matches an existing core's identifier on
that node; non-duplicates are appended".  `appended` are the cores appended so far, `old` the
cores the node had before. -/
def Spec.appendedCores (old : List CPUCore) : List CPUCore → List CPUCore → List CPUCore
  | appended, [] => appended
  | appended, core :: rest =>
    if core.ID ∈ old.map CPUCore.ID ∨ core.ID ∈ appended.map CPUCore.ID then
      Spec.appendedCores old appended rest
    else Spec.appendedCores old (appended ++ [core]) rest

/-- Buses: "two buses are considered the same bus for merge purposes iff both endpoints
compare equal". -/
def Spec.sameBus (a b : PCIBus) : Prop :=
  a.LowAddress = b.LowAddress ∧ a.HighAddress = b.HighAddress

instance Spec.instDecSameBus (a b : PCIBus) : Decidable (Spec.sameBus a b) := by
  unfold Spec.sameBus
  exact inferInstance

/-- Buses: "a bus is a duplicate iff both its low and high addresses compare equal to an
existing bus's; non-duplicates are appended".  `appended` are the buses appended so far. -/
def Spec.appendedBuses (old : List PCIBus) : List PCIBus → List PCIBus → List PCIBus
  | appended, [] => appended
  | appended, bus :: rest =>
    if (∃ b ∈ old ++ appended, Spec.sameBus b bus) then Spec.appendedBuses old appended rest
    else Spec.appendedBuses old (appended ++ [bus]) rest

/-- Every provider of the list succeeds when called in order from the state `s`: the
topologies they return and the state they leave. -/
def Spec.allSucceed {σ ε : Type} :
    List (TopologyProvider σ ε) → σ → Option (List (Option Topology) × σ)
  | [], s => some ([], s)
  | prov :: rest, s =>
    match prov s with
    | (Except.ok topo, s1) => (Spec.allSucceed rest s1).map (fun r => (topo :: r.1, r.2))
    | (Except.error _, _) => none

/-- "Starts from an empty Topology and merges each backend's result in registration
order". -/
def Spec.mergeAll (results : List (Option Topology)) : Option Topology :=
  results.foldl Topology.Merge (some { NUMANodes := none })

/-! ## Go maps: reading after writing -/

namespace GoMap

variable {K V : Type} [DecidableEq K]

theorem getL_setL_eq (k : K) (v : V) (l : List (K × V)) : getL k (setL k v l) = some v := by
  induction l with
  | nil => simp [setL, getL]
  | cons e rest ih =>
    by_cases h : e.1 = k
    · simp [setL, getL, h]
    · simp [setL, getL, h, ih]

theorem getL_setL_ne {k k' : K} (v : V) (l : List (K × V)) (h : k' ≠ k) :
    getL k' (setL k v l) = getL k' l := by
  induction l with
  | nil => simp [setL, getL, h.symm]
  | cons e rest ih =>
    by_cases h1 : e.1 = k
    · have h2 : ¬ e.1 = k' := fun h3 => h (h3.symm.trans h1)
      simp [setL, getL, h1, h2, h.symm]
    · by_cases h2 : e.1 = k'
      · subst h2
        simp [setL, getL, h1]
      · simp [setL, getL, h1, h2, ih]

theorem get_set (m : GoMap K V) (k k' : K) (v : V) :
    (m.set k v).get k' = if k' = k then some v else m.get k' := by
  by_cases h : k' = k
  · subst h
    simp [get, set, getL_setL_eq]
  · simp [get, set, h, getL_setL_ne v m.entries h]

theorem get_set_eq (m : GoMap K V) (k : K) (v : V) : (m.set k v).get k = some v :=
  getL_setL_eq k v m.entries

theorem get_set_ne (m : GoMap K V) {k k' : K} (v : V) (h : k' ≠ k) :
    (m.set k v).get k' = m.get k' :=
  getL_setL_ne v m.entries h

theorem getL_eq_none_of_not_mem (k : K) (l : List (K × V)) (h : k ∉ l.map Prod.fst) :
    getL k l = none := by
  induction l with
  | nil => rfl
  | cons e rest ih =>
    simp only [List.map_cons, List.mem_cons, not_or] at h
    have h1 : ¬ e.1 = k := fun h2 => h.1 h2.symm
    simp [getL, h1, ih h.2]

theorem mem_of_getL_eq_some {k : K} {v : V} {l : List (K × V)} (h : getL k l = some v) :
    (k, v) ∈ l := by
  induction l with
  | nil => simp [getL] at h
  | cons e rest ih =>
    by_cases h1 : e.1 = k
    · simp only [getL, h1, if_true, Option.some.injEq] at h
      have : e = (k, v) := by cases e; simp_all
      simp [this]
    · simp only [getL, h1, if_false] at h
      exact List.mem_cons_of_mem _ (ih h)

theorem getL_eq_some_of_mem {k : K} {v : V} {l : List (K × V)} (hn : (l.map Prod.fst).Nodup)
    (h : (k, v) ∈ l) : getL k l = some v := by
  induction l with
  | nil => simp at h
  | cons e rest ih =>
    simp only [List.map_cons, List.nodup_cons] at hn
    rcases List.mem_cons.1 h with h1 | h1
    · subst h1
      simp [getL]
    · have h2 : ¬ e.1 = k := by
        intro h3
        apply hn.1
        rw [h3]
        exact List.mem_map_of_mem Prod.fst h1
      simp [getL, h2, ih hn.2 h1]

end GoMap

theorem lookupOf_some_set {K V : Type} [DecidableEq K] (m : GoMap K V) (k k' : K) (v : V) :
    lookupOf (some (m.set k v)) k' = if k' = k then some v else lookupOf (some m) k' := by
  by_cases h : k' = k
  · subst h
    simp [lookupOf, GoMap.get_set_eq]
  · simp [lookupOf, h, GoMap.get_set_ne m v h]

/-! ## Merge, node by node -/

theorem lookupOf_nodeStep (nodes : NodeMap) (e : Nat × NUMANode) (id : Nat) :
    lookupOf (Merge.nodeStep nodes e) id =
      if id = e.1 then
        (match lookupOf nodes e.1 with
          | none => some e.2
          | some current => some (Merge.node current e.2))
      else lookupOf nodes id := by
  cases nodes with
  | none =>
    have h0 : (GoMap.empty : GoMap Nat NUMANode).get e.1 = none := rfl
    have h1 : (GoMap.empty : GoMap Nat NUMANode).get id = none := rfl
    simp only [Merge.nodeStep, lookupOf, h0, GoMap.get_set, h1]
  | some m =>
    simp only [Merge.nodeStep, lookupOf]
    cases hg : m.get e.1 with
    | none => simp only [lookupOf, GoMap.get_set]
    | some current => simp only [lookupOf, GoMap.get_set]

theorem lookupOf_foldl_nodeStep (l : List (Nat × NUMANode)) (hn : (l.map Prod.fst).Nodup)
    (nodes : NodeMap) (id : Nat) :
    lookupOf (l.foldl Merge.nodeStep nodes) id =
      match GoMap.getL id l with
      | none => lookupOf nodes id
      | some node =>
        (match lookupOf nodes id with
          | none => some node
          | some current => some (Merge.node current node)) := by
  induction l generalizing nodes with
  | nil => simp [GoMap.getL]
  | cons e rest ih =>
    simp only [List.map_cons, List.nodup_cons] at hn
    rw [List.foldl_cons, ih hn.2]
    by_cases h : e.1 = id
    · subst h
      have h1 : GoMap.getL e.1 rest = none := GoMap.getL_eq_none_of_not_mem _ _ hn.1
      simp [GoMap.getL, h1, lookupOf_nodeStep]
    · have h2 : ¬ id = e.1 := fun h3 => h h3.symm
      simp [GoMap.getL, h, lookupOf_nodeStep, h2]

/-- What `Merge` leaves under each node ID. -/
theorem nodeAt_Merge (topo incoming : Topology) (id : Nat) :
    Topology.nodeAt (Topology.Merge (some topo) (some incoming)) id =
      match Topology.nodeAt (some incoming) id with
      | none => Topology.nodeAt (some topo) id
      | some node =>
        (match Topology.nodeAt (some topo) id with
          | none => some node
          | some current => some (Merge.node current node)) := by
  simp only [Topology.nodeAt, Topology.Merge]
  cases hi : incoming.NUMANodes with
  | none => simp [rangeOf, lookupOf]
  | some m =>
    simp only [rangeOf]
    rw [lookupOf_foldl_nodeStep _ m.nodupKeys]
    rfl

/-! ## Cores and buses of a merged node -/

theorem Merge.cores_frame (current : NUMANode) (l : List CPUCore) :
    (Merge.cores current l).ID = current.ID ∧
      (Merge.cores current l).PCIBuses = current.PCIBuses ∧
      (Merge.cores current l).PCIDevices = current.PCIDevices := by
  induction l generalizing current with
  | nil => exact ⟨rfl, rfl, rfl⟩
  | cons core rest ih =>
    simp only [Merge.cores, List.foldl_cons]
    by_cases h : current.Cores.any (fun curCore => decide (curCore.ID = core.ID)) = true
    · rw [if_pos h]
      exact ih current
    · rw [if_neg h]
      exact ih (NUMANode.addCoreCore current core)

theorem Merge.cores_spec (old appended : List CPUCore) (current : NUMANode)
    (hc : current.Cores = old ++ appended) (l : List CPUCore) :
    (Merge.cores current l).Cores = old ++ Spec.appendedCores old appended l := by
  induction l generalizing current appended with
  | nil => simpa [Merge.cores, Spec.appendedCores] using hc
  | cons core rest ih =>
    simp only [Merge.cores, List.foldl_cons, Spec.appendedCores]
    by_cases h : current.Cores.any (fun curCore => decide (curCore.ID = core.ID)) = true
    · rw [if_pos h]
      have h1 : core.ID ∈ old.map CPUCore.ID ∨ core.ID ∈ appended.map CPUCore.ID := by
        rw [hc] at h
        simp only [List.any_eq_true, decide_eq_true_eq, List.mem_append] at h
        obtain ⟨x, hx, hid⟩ := h
        rcases hx with hx | hx
        · exact Or.inl (hid ▸ List.mem_map_of_mem CPUCore.ID hx)
        · exact Or.inr (hid ▸ List.mem_map_of_mem CPUCore.ID hx)
      rw [if_pos h1]
      exact ih appended current hc
    · rw [if_neg h]
      have h1 : ¬ (core.ID ∈ old.map CPUCore.ID ∨ core.ID ∈ appended.map CPUCore.ID) := by
        intro h2
        apply h
        rw [hc]
        simp only [List.any_eq_true, decide_eq_true_eq, List.mem_append]
        simp only [List.mem_map] at h2
        rcases h2 with ⟨x, hx, hid⟩ | ⟨x, hx, hid⟩
        · exact ⟨x, Or.inl hx, hid⟩
        · exact ⟨x, Or.inr hx, hid⟩
      rw [if_neg h1]
      exact ih (appended ++ [core]) (NUMANode.addCoreCore current core)
        (by simp [NUMANode.addCoreCore, hc])

theorem Spec.appendedCores_sound (old : List CPUCore) (l appended : List CPUCore) :
    ∀ c ∈ Spec.appendedCores old appended l,
      c ∈ appended ∨ (c ∈ l ∧ c.ID ∉ old.map CPUCore.ID) := by
  induction l generalizing appended with
  | nil => intro c hc; exact Or.inl hc
  | cons core rest ih =>
    intro c hc
    simp only [Spec.appendedCores] at hc
    by_cases h : core.ID ∈ old.map CPUCore.ID ∨ core.ID ∈ appended.map CPUCore.ID
    · rw [if_pos h] at hc
      rcases ih appended c hc with h1 | h1
      · exact Or.inl h1
      · exact Or.inr ⟨List.mem_cons_of_mem _ h1.1, h1.2⟩
    · rw [if_neg h] at hc
      rcases ih (appended ++ [core]) c hc with h1 | h1
      · rcases List.mem_append.1 h1 with h2 | h2
        · exact Or.inl h2
        · have h3 : c = core := by simpa using h2
          subst h3
          exact Or.inr ⟨List.mem_cons_self _ _, fun h4 => h (Or.inl h4)⟩
      · exact Or.inr ⟨List.mem_cons_of_mem _ h1.1, h1.2⟩

theorem Merge.buses_frame (current : NUMANode) (l : List PCIBus) :
    (Merge.buses current l).ID = current.ID ∧
      (Merge.buses current l).Cores = current.Cores ∧
      (Merge.buses current l).PCIDevices = current.PCIDevices := by
  induction l generalizing current with
  | nil => exact ⟨rfl, rfl, rfl⟩
  | cons bus rest ih =>
    simp only [Merge.buses, List.foldl_cons]
    split
    · exact ih current
    · exact ih (NUMANode.addPCIBusCore current bus)

theorem Merge.buses_spec (old appended : List PCIBus) (current : NUMANode)
    (hc : current.PCIBuses = old ++ appended) (l : List PCIBus) :
    (Merge.buses current l).PCIBuses = old ++ Spec.appendedBuses old appended l := by
  induction l generalizing current appended with
  | nil => simpa [Merge.buses, Spec.appendedBuses] using hc
  | cons bus rest ih =>
    simp only [Merge.buses, List.foldl_cons, Spec.appendedBuses]
    have hiff : (current.PCIBuses.any (fun curBus =>
          decide (curBus.HighAddress = bus.HighAddress) &&
            decide (curBus.LowAddress = bus.LowAddress)) = true) ↔
        (∃ b ∈ old ++ appended, Spec.sameBus b bus) := by
      rw [hc]
      simp only [List.any_eq_true, Bool.and_eq_true, decide_eq_true_eq, Spec.sameBus]
      constructor
      · rintro ⟨x, hx, h1, h2⟩
        exact ⟨x, hx, h2, h1⟩
      · rintro ⟨x, hx, h1, h2⟩
        exact ⟨x, hx, h2, h1⟩
    by_cases h : (∃ b ∈ old ++ appended, Spec.sameBus b bus)
    · rw [if_pos (hiff.2 h), if_pos h]
      exact ih appended current hc
    · rw [if_neg (fun h1 => h (hiff.1 h1)), if_neg h]
      exact ih (appended ++ [bus]) (NUMANode.addPCIBusCore current bus)
        (by simp [NUMANode.addPCIBusCore, hc])

theorem Spec.appendedBuses_sound (old : List PCIBus) (l appended : List PCIBus) :
    ∀ b ∈ Spec.appendedBuses old appended l,
      b ∈ appended ∨ (b ∈ l ∧ ∀ o ∈ old, ¬ Spec.sameBus o b) := by
  induction l generalizing appended with
  | nil => intro b hb; exact Or.inl hb
  | cons bus rest ih =>
    intro b hb
    simp only [Spec.appendedBuses] at hb
    by_cases h : (∃ b ∈ old ++ appended, Spec.sameBus b bus)
    · rw [if_pos h] at hb
      rcases ih appended b hb with h1 | h1
      · exact Or.inl h1
      · exact Or.inr ⟨List.mem_cons_of_mem _ h1.1, h1.2⟩
    · rw [if_neg h] at hb
      rcases ih (appended ++ [bus]) b hb with h1 | h1
      · rcases List.mem_append.1 h1 with h2 | h2
        · exact Or.inl h2
        · have h3 : b = bus := by simpa using h2
          subst h3
          exact Or.inr ⟨List.mem_cons_self _ _,
            fun o ho hs => h ⟨o, List.mem_append_left _ ho, hs⟩⟩
      · exact Or.inr ⟨List.mem_cons_of_mem _ h1.1, h1.2⟩

/-- Every incoming bus has a bus with its two endpoints in the merged sequence. -/
theorem Spec.appendedBuses_complete (old : List PCIBus) (l appended : List PCIBus) :
    (∀ b ∈ appended, ∃ x ∈ old ++ Spec.appendedBuses old appended l, Spec.sameBus x b) ∧
      ∀ b ∈ l, ∃ x ∈ old ++ Spec.appendedBuses old appended l, Spec.sameBus x b := by
  induction l generalizing appended with
  | nil =>
    refine ⟨fun b hb => ⟨b, ?_, rfl, rfl⟩, fun b hb => by simp at hb⟩
    simp [Spec.appendedBuses, hb]
  | cons bus rest ih =>
    simp only [Spec.appendedBuses]
    by_cases h : (∃ b ∈ old ++ appended, Spec.sameBus b bus)
    · rw [if_pos h]
      refine ⟨(ih appended).1, fun b hb => ?_⟩
      rcases List.mem_cons.1 hb with h1 | h1
      · subst h1
        obtain ⟨x, hx, hs⟩ := h
        rcases List.mem_append.1 hx with h2 | h2
        · exact ⟨x, List.mem_append_left _ h2, hs⟩
        · obtain ⟨y, hy, hys⟩ := (ih appended).1 x h2
          exact ⟨y, hy, hys.1.trans hs.1, hys.2.trans hs.2⟩
      · exact (ih appended).2 b h1
    · rw [if_neg h]
      refine ⟨fun b hb => (ih (appended ++ [bus])).1 b (List.mem_append_left _ hb),
        fun b hb => ?_⟩
      rcases List.mem_cons.1 hb with h1 | h1
      · subst h1
        exact (ih (appended ++ [b])).1 b (by simp)
      · exact (ih (appended ++ [bus])).2 b h1

theorem Merge.node_Cores (current node : NUMANode) :
    (Merge.node current node).Cores =
      current.Cores ++ Spec.appendedCores current.Cores [] node.Cores := by
  have h1 := Merge.cores_spec current.Cores [] current (by simp) node.Cores
  have h2 := Merge.buses_frame (Merge.cores current node.Cores) node.PCIBuses
  simp only [Merge.node]
  rw [h2.2.1, h1]

theorem Merge.node_PCIBuses (current node : NUMANode) :
    (Merge.node current node).PCIBuses =
      current.PCIBuses ++ Spec.appendedBuses current.PCIBuses [] node.PCIBuses := by
  have h1 := Merge.cores_frame current node.Cores
  have h2 := Merge.buses_spec current.PCIBuses [] (Merge.cores current node.Cores)
    (by simp [h1.2.1]) node.PCIBuses
  simp only [Merge.node]
  rw [h2]

theorem Merge.node_PCIDevices (current node : NUMANode) :
    (Merge.node current node).PCIDevices = Merge.devices current.PCIDevices node.PCIDevices := by
  have h1 := Merge.cores_frame current node.Cores
  have h2 := Merge.buses_frame (Merge.cores current node.Cores) node.PCIBuses
  simp only [Merge.node]
  rw [h2.2.2, h1.2.2]

/-! ## Claims on cores, buses and node identifiers -/

/-- C4: for a node ID present in both receiver and incoming topology, the core sequence of the
receiver node after `Merge` is its old core sequence followed by the incoming cores whose ID
occurs neither in the old sequence nor among the cores appended before, in incoming order;
every appended core is an incoming core whose ID was not there. -/
theorem merge_cores_by_id (t incoming : Topology) (id : Nat) (cur node : NUMANode)
    (hcur : Topology.nodeAt (some t) id = some cur)
    (hnode : Topology.nodeAt (some incoming) id = some node) :
    ∃ merged, Topology.nodeAt (Topology.Merge (some t) (some incoming)) id = some merged ∧
      merged.Cores = cur.Cores ++ Spec.appendedCores cur.Cores [] node.Cores ∧
      ∀ c ∈ Spec.appendedCores cur.Cores [] node.Cores,
        c ∈ node.Cores ∧ c.ID ∉ cur.Cores.map CPUCore.ID := by
  refine ⟨Merge.node cur node, ?_, Merge.node_Cores cur node, fun c hc => ?_⟩
  · rw [nodeAt_Merge, hnode, hcur]
  · rcases Spec.appendedCores_sound cur.Cores node.Cores [] c hc with h | h
    · simp at h
    · exact h

/-- C4 at node 0 with core 2, merged with cores 2, 4, 4, 5: the cores become 2, 4, 5. -/
theorem merge_cores_by_id_witness :
    Topology.nodeAt (some (Sample.single 0 Sample.coreBusNode)) 0 = some Sample.coreBusNode ∧
    Topology.nodeAt (some (Sample.single 0 Sample.coreBusIncoming)) 0 =
      some Sample.coreBusIncoming ∧
    Spec.appendedCores Sample.coreBusNode.Cores [] Sample.coreBusIncoming.Cores = [⟨4⟩, ⟨5⟩] ∧
    ∃ merged, Topology.nodeAt (Topology.Merge (some (Sample.single 0 Sample.coreBusNode))
        (some (Sample.single 0 Sample.coreBusIncoming))) 0 = some merged ∧
      merged.Cores = Sample.coreBusNode.Cores ++
        Spec.appendedCores Sample.coreBusNode.Cores [] Sample.coreBusIncoming.Cores ∧
      ∀ c ∈ Spec.appendedCores Sample.coreBusNode.Cores [] Sample.coreBusIncoming.Cores,
        c ∈ Sample.coreBusIncoming.Cores ∧ c.ID ∉ Sample.coreBusNode.Cores.map CPUCore.ID :=
  ⟨by decide, by decide, by decide,
    merge_cores_by_id (Sample.single 0 Sample.coreBusNode)
      (Sample.single 0 Sample.coreBusIncoming) 0 Sample.coreBusNode Sample.coreBusIncoming
      (by decide) (by decide)⟩

theorem PCIBus.alike_self (b : PCIBus) : PCIBus.alike b b :=
  ⟨rfl, rfl, fun _ => rfl⟩

theorem PCIBus.alike_all (l : List PCIBus) : List.Forall₂ PCIBus.alike l l := by
  induction l with
  | nil => exact List.Forall₂.nil
  | cons b rest ih => exact List.Forall₂.cons (PCIBus.alike_self b) ih

/-- C5: for a node ID present in both receiver and incoming topology, the bus sequence of the
receiver node after `Merge` is its old bus sequence followed, in incoming order, by the
incoming buses for which no bus already in the sequence has both an equal low and an equal
high address: the sequence of (low, high) ranges is exactly that, and bus by bus the indexed
devices have the names and addresses they had (their `Type` and `LinkSpeed` are those of the
flat index, which the device loop may fill); an incoming bus that no old bus matches in both
endpoints (one shared endpoint is not enough) has a bus with its endpoints among the
appended ones. -/
theorem merge_buses_by_endpoints (t incoming : Topology) (id : Nat) (cur node : NUMANode)
    (hcur : Topology.nodeAt (some t) id = some cur)
    (hnode : Topology.nodeAt (some incoming) id = some node) :
    ∃ merged, Topology.nodeAt (Topology.Merge (some t) (some incoming)) id = some merged ∧
      merged.busRanges = cur.busRanges ++
        (Spec.appendedBuses cur.PCIBuses [] node.PCIBuses).map
          (fun b => (b.LowAddress, b.HighAddress)) ∧
      List.Forall₂ PCIBus.alike
        (cur.PCIBuses ++ Spec.appendedBuses cur.PCIBuses [] node.PCIBuses) merged.PCIBuses ∧
      (∀ b ∈ Spec.appendedBuses cur.PCIBuses [] node.PCIBuses,
        b ∈ node.PCIBuses ∧ ∀ o ∈ cur.PCIBuses, ¬ Spec.sameBus o b) ∧
      ∀ b ∈ node.PCIBuses, (∀ o ∈ cur.PCIBuses, ¬ Spec.sameBus o b) →
        ∃ x ∈ Spec.appendedBuses cur.PCIBuses [] node.PCIBuses, Spec.sameBus x b := by
  refine ⟨Merge.node cur node, ?_, ?_, ?_, fun b hb => ?_, fun b hb hno => ?_⟩
  · rw [nodeAt_Merge, hnode, hcur]
  · simp only [NUMANode.busRanges, Merge.node_PCIBuses, List.map_append]
  · rw [Merge.node_PCIBuses]
    exact PCIBus.alike_all _
  · rcases Spec.appendedBuses_sound cur.PCIBuses node.PCIBuses [] b hb with h | h
    · simp at h
    · exact h
  · obtain ⟨x, hx, hs⟩ := (Spec.appendedBuses_complete cur.PCIBuses node.PCIBuses []).2 b hb
    rcases List.mem_append.1 hx with h | h
    · exact absurd hs (hno x h)
    · exact ⟨x, h, hs⟩

/-- C5 at node 0 with bus `[00:00.0, 05:00.0]`, merged with that bus, a bus sharing only its
low address and a third bus: the last two are appended. -/
theorem merge_buses_by_endpoints_witness :
    Topology.nodeAt (some (Sample.single 0 Sample.coreBusNode)) 0 = some Sample.coreBusNode ∧
    Topology.nodeAt (some (Sample.single 0 Sample.coreBusIncoming)) 0 =
      some Sample.coreBusIncoming ∧
    Spec.appendedBuses Sample.coreBusNode.PCIBuses [] Sample.coreBusIncoming.PCIBuses =
      [Sample.bus06, Sample.bus0f] ∧
    ∃ merged, Topology.nodeAt (Topology.Merge (some (Sample.single 0 Sample.coreBusNode))
        (some (Sample.single 0 Sample.coreBusIncoming))) 0 = some merged ∧
      merged.busRanges = Sample.coreBusNode.busRanges ++
        (Spec.appendedBuses Sample.coreBusNode.PCIBuses []
          Sample.coreBusIncoming.PCIBuses).map (fun b => (b.LowAddress, b.HighAddress)) ∧
      List.Forall₂ PCIBus.alike
        (Sample.coreBusNode.PCIBuses ++
          Spec.appendedBuses Sample.coreBusNode.PCIBuses [] Sample.coreBusIncoming.PCIBuses)
        merged.PCIBuses ∧
      (∀ b ∈ Spec.appendedBuses Sample.coreBusNode.PCIBuses [] Sample.coreBusIncoming.PCIBuses,
        b ∈ Sample.coreBusIncoming.PCIBuses ∧
          ∀ o ∈ Sample.coreBusNode.PCIBuses, ¬ Spec.sameBus o b) ∧
      ∀ b ∈ Sample.coreBusIncoming.PCIBuses,
        (∀ o ∈ Sample.coreBusNode.PCIBuses, ¬ Spec.sameBus o b) →
        ∃ x ∈ Spec.appendedBuses Sample.coreBusNode.PCIBuses []
          Sample.coreBusIncoming.PCIBuses, Spec.sameBus x b :=
  ⟨by decide, by decide, by decide,
    merge_buses_by_endpoints (Sample.single 0 Sample.coreBusNode)
      (Sample.single 0 Sample.coreBusIncoming) 0 Sample.coreBusNode Sample.coreBusIncoming
      (by decide) (by decide)⟩

/-- C6: for a non-nil receiver and a non-nil incoming topology, a node ID is present after
`Merge` exactly when it is present in the receiver or in the incoming topology; a node whose
ID is only in the incoming topology is in the result as the incoming node itself; a receiver
node whose ID is absent from the incoming topology is unchanged. -/
theorem merge_node_ids_union (t incoming : Topology) (id : Nat) :
    ((Topology.nodeAt (Topology.Merge (some t) (some incoming)) id).isSome = true ↔
      (Topology.nodeAt (some t) id).isSome = true ∨
        (Topology.nodeAt (some incoming) id).isSome = true) ∧
    (∀ node, Topology.nodeAt (some t) id = none →
      Topology.nodeAt (some incoming) id = some node →
      Topology.nodeAt (Topology.Merge (some t) (some incoming)) id = some node) ∧
    (Topology.nodeAt (some incoming) id = none →
      Topology.nodeAt (Topology.Merge (some t) (some incoming)) id =
        Topology.nodeAt (some t) id) := by
  rw [nodeAt_Merge]
  refine ⟨?_, fun node h1 h2 => by rw [h2, h1], fun h => by rw [h]⟩
  cases h1 : Topology.nodeAt (some incoming) id with
  | none => simp
  | some node =>
    cases h2 : Topology.nodeAt (some t) id with
    | none => simp
    | some current => simp

/-- C6 on two topologies without a common node ID: node 2 is adopted as it is, node 0 stays. -/
theorem merge_node_ids_union_witness :
    Topology.nodeAt (Topology.Merge (some (Sample.single 0 Sample.coreBusNode))
        (some (Sample.single 2 Sample.otherNode))) 2 = some Sample.otherNode ∧
    Topology.nodeAt (Topology.Merge (some (Sample.single 0 Sample.coreBusNode))
        (some (Sample.single 2 Sample.otherNode))) 0 = some Sample.coreBusNode :=
  ⟨(merge_node_ids_union (Sample.single 0 Sample.coreBusNode)
      (Sample.single 2 Sample.otherNode) 2).2.1 Sample.otherNode (by decide) (by decide),
    ((merge_node_ids_union (Sample.single 0 Sample.coreBusNode)
      (Sample.single 2 Sample.otherNode) 0).2.2 (by decide)).trans (by decide)⟩

/-! ## AddDevice -/

theorem bucket_appendAt (m : GoMap PCIAddress (List PCIDevice)) (a a' : PCIAddress)
    (dev : PCIDevice) :
    PCIDevices.bucket (some (appendAt m a dev)) a' =
      if a' = a then PCIDevices.bucket (some m) a ++ [dev] else PCIDevices.bucket (some m) a' := by
  simp only [PCIDevices.bucket, lookupOf, appendAt, GoMap.get_set]
  by_cases h : a' = a
  · simp [h]
  · simp [h]

theorem lookupOf_appendAt_ne (m : GoMap PCIAddress (List PCIDevice)) {a a' : PCIAddress}
    (dev : PCIDevice) (h : a' ≠ a) :
    lookupOf (some (appendAt m a dev)) a' = lookupOf (some m) a' := by
  simp [lookupOf, appendAt, GoMap.get_set, h]

theorem bucket_empty (a : PCIAddress) :
    PCIDevices.bucket (some GoMap.empty) a = [] := rfl

theorem bucket_none (a : PCIAddress) : PCIDevices.bucket none a = [] := rfl

theorem NUMANode.addToFirstBus_first (dev : PCIDevice) (pre : List PCIBus) (b : PCIBus)
    (post : List PCIBus) (hpre : ∀ x ∈ pre, PCIBus.Contains (some x) dev.PCIAddr = false)
    (hb : PCIBus.Contains (some b) dev.PCIAddr = true) :
    NUMANode.addToFirstBus dev (pre ++ b :: post) = pre ++ PCIBus.addDeviceCore b dev :: post := by
  induction pre with
  | nil => simp [NUMANode.addToFirstBus, hb]
  | cons x rest ih =>
    have hx : PCIBus.Contains (some x) dev.PCIAddr = false := hpre x (List.mem_cons_self _ _)
    have h1 := ih (fun y hy => hpre y (List.mem_cons_of_mem _ hy))
    show NUMANode.addToFirstBus dev (x :: (rest ++ b :: post)) = _
    simp only [List.cons_append, NUMANode.addToFirstBus, hx, Bool.false_eq_true, if_false, h1]

theorem NUMANode.addToFirstBus_none (dev : PCIDevice) (buses : List PCIBus)
    (h : ∀ x ∈ buses, PCIBus.Contains (some x) dev.PCIAddr = false) :
    NUMANode.addToFirstBus dev buses = buses := by
  induction buses with
  | nil => rfl
  | cons x rest ih =>
    have hx : PCIBus.Contains (some x) dev.PCIAddr = false := h x (List.mem_cons_self _ _)
    have h1 := ih (fun y hy => h y (List.mem_cons_of_mem _ hy))
    simp only [NUMANode.addToFirstBus, hx, Bool.false_eq_true, if_false, h1]

theorem PCIBus.addDeviceCore_spec (b : PCIBus) (dev : PCIDevice)
    (hb : PCIBus.Contains (some b) dev.PCIAddr = true) :
    (PCIBus.addDeviceCore b dev).LowAddress = b.LowAddress ∧
      (PCIBus.addDeviceCore b dev).HighAddress = b.HighAddress ∧
      (PCIBus.addDeviceCore b dev).PCIDevices.bucket dev.PCIAddr =
        b.PCIDevices.bucket dev.PCIAddr ++ [dev] ∧
      ∀ a, a ≠ dev.PCIAddr →
        lookupOf (PCIBus.addDeviceCore b dev).PCIDevices a = lookupOf b.PCIDevices a := by
  simp only [PCIBus.addDeviceCore, hb, Bool.not_true, Bool.false_eq_true, if_false]
  refine ⟨trivial, trivial, ?_, fun a ha => ?_⟩
  · cases hd : b.PCIDevices with
    | none => simp [bucket_appendAt, bucket_empty, bucket_none]
    | some m => simp [bucket_appendAt]
  · cases hd : b.PCIDevices with
    | none =>
      rw [lookupOf_appendAt_ne _ dev ha]
      rfl
    | some m => rw [lookupOf_appendAt_ne _ dev ha]

theorem NUMANode.addDeviceCore_flat (n : NUMANode) (dev : PCIDevice) :
    (NUMANode.addDeviceCore n dev).PCIDevices.bucket dev.PCIAddr =
      n.PCIDevices.bucket dev.PCIAddr ++ [dev] := by
  simp only [NUMANode.addDeviceCore, PCIDevices.Add]
  cases hd : n.PCIDevices with
  | none => simp [bucket_appendAt, bucket_empty, bucket_none]
  | some m => simp [bucket_appendAt]

theorem nodeAt_AddDevice (t : Topology) (numaID : Nat) (dev : PCIDevice) :
    Topology.nodeAt (Topology.AddDevice (some t) numaID (some dev)) numaID =
      some (NUMANode.addDeviceCore
        (match Topology.nodeAt (some t) numaID with
          | some n => n
          | none => { ID := numaID, Cores := [], PCIBuses := [], PCIDevices := some GoMap.empty })
        dev) := by
  simp only [Topology.AddDevice, Topology.nodeAt, lookupOf, GoMap.get_set, if_true]
  cases hn : t.NUMANodes with
  | none => rfl
  | some m => rfl

/-- C10: after `AddDevice` of a non-nil device on a non-nil topology the device is the last
element of the node's flat bucket at its address; if some bus owned by the node contains the
address, the first such bus in the node's bus order gets the device appended to the bucket at
that address of its index, its other buckets and every other bus are unchanged; if no owned
bus contains the address, the bus sequence (with every bus index) is unchanged. -/
theorem adddevice_first_matching_bus (t : Topology) (numaID : Nat) (dev : PCIDevice) :
    ∃ n, Topology.nodeAt (Topology.AddDevice (some t) numaID (some dev)) numaID = some n ∧
      n.PCIDevices.bucket dev.PCIAddr =
        (match Topology.nodeAt (some t) numaID with
          | some old => old.PCIDevices.bucket dev.PCIAddr
          | none => []) ++ [dev] ∧
      (∀ pre b post, Topology.busesAt (some t) numaID = pre ++ b :: post →
        (∀ x ∈ pre, PCIBus.Contains (some x) dev.PCIAddr = false) →
        PCIBus.Contains (some b) dev.PCIAddr = true →
        ∃ b1, n.PCIBuses = pre ++ b1 :: post ∧
          b1.LowAddress = b.LowAddress ∧ b1.HighAddress = b.HighAddress ∧
          b1.PCIDevices.bucket dev.PCIAddr = b.PCIDevices.bucket dev.PCIAddr ++ [dev] ∧
          ∀ a, a ≠ dev.PCIAddr → lookupOf b1.PCIDevices a = lookupOf b.PCIDevices a) ∧
      ((∀ x ∈ Topology.busesAt (some t) numaID, PCIBus.Contains (some x) dev.PCIAddr = false) →
        n.PCIBuses = Topology.busesAt (some t) numaID) := by
  refine ⟨_, nodeAt_AddDevice t numaID dev, ?_, ?_, ?_⟩
  · rw [NUMANode.addDeviceCore_flat]
    cases hn : Topology.nodeAt (some t) numaID with
    | none => rfl
    | some old => rfl
  · intro pre b post hsplit hpre hb
    refine ⟨PCIBus.addDeviceCore b dev, ?_, PCIBus.addDeviceCore_spec b dev hb⟩
    have h1 : (match Topology.nodeAt (some t) numaID with
          | some n => n
          | none => { ID := numaID, Cores := [], PCIBuses := [],
                      PCIDevices := some GoMap.empty }).PCIBuses = pre ++ b :: post := by
      rw [← hsplit]
      simp only [Topology.busesAt]
      cases hn : Topology.nodeAt (some t) numaID with
      | none => rfl
      | some old => rfl
    simp only [NUMANode.addDeviceCore, h1]
    exact NUMANode.addToFirstBus_first dev pre b post hpre hb
  · intro hno
    have h1 : (match Topology.nodeAt (some t) numaID with
          | some n => n
          | none => { ID := numaID, Cores := [], PCIBuses := [],
                      PCIDevices := some GoMap.empty }).PCIBuses =
        Topology.busesAt (some t) numaID := by
      simp only [Topology.busesAt]
      cases hn : Topology.nodeAt (some t) numaID with
      | none => rfl
      | some old => rfl
    simp only [NUMANode.addDeviceCore, h1]
    exact NUMANode.addToFirstBus_none dev _ hno

/-- C10 on node 0 owning bus `[0000:00:00.0, 0000:05:00.0]`: a device at `0000:01:00.0` is in
the flat index and in the index of that bus; a device at `0000:06:00.0` is in the flat index
only, the bus is unchanged. -/
theorem adddevice_first_matching_bus_witness :
    (∃ n, Topology.nodeAt (Topology.AddDevice (some (Sample.single 0 Sample.coreBusNode)) 0
          (some Sample.devIn)) 0 = some n ∧
        n.PCIDevices.bucket Sample.devIn.PCIAddr = [Sample.devIn] ∧
        ∃ b1, n.PCIBuses = [b1] ∧ b1.PCIDevices.bucket Sample.devIn.PCIAddr = [Sample.devIn]) ∧
    (∃ n, Topology.nodeAt (Topology.AddDevice (some (Sample.single 0 Sample.coreBusNode)) 0
          (some Sample.devOut)) 0 = some n ∧
        n.PCIDevices.bucket Sample.devOut.PCIAddr = [Sample.devOut] ∧
        n.PCIBuses = [Sample.bus05]) := by
  constructor
  · obtain ⟨n, h1, h2, h3, _⟩ :=
      adddevice_first_matching_bus (Sample.single 0 Sample.coreBusNode) 0 Sample.devIn
    obtain ⟨b1, h5, _, _, h6, _⟩ := h3 [] Sample.bus05 [] (by decide) (by simp) (by decide)
    exact ⟨n, h1, h2.trans (by decide), b1, h5, h6.trans (by decide)⟩
  · obtain ⟨n, h1, h2, _, h4⟩ :=
      adddevice_first_matching_bus (Sample.single 0 Sample.coreBusNode) 0 Sample.devOut
    exact ⟨n, h1, h2.trans (by decide), (h4 (by decide)).trans (by decide)⟩

/-! ## The device loop of Merge, step by step -/

theorem Merge.visitOld_Name (nd x : PCIDevice) : (Merge.visitOld nd x).Name = x.Name := by
  unfold Merge.visitOld Merge.fillSoft
  split <;> rfl

theorem Merge.visitOld_PCIAddr (nd x : PCIDevice) :
    (Merge.visitOld nd x).PCIAddr = x.PCIAddr := by
  unfold Merge.visitOld Merge.fillSoft
  split <;> rfl

theorem Merge.touchFirst_length (n : Nat) (nd : PCIDevice) (b : List PCIDevice) :
    (Merge.touchFirst n nd b).length = b.length := by
  simp only [Merge.touchFirst, List.length_append, List.length_map, List.length_take,
    List.length_drop]
  omega

theorem Merge.touchFirst_names (n : Nat) (nd : PCIDevice) (b : List PCIDevice) :
    (Merge.touchFirst n nd b).map PCIDevice.Name = b.map PCIDevice.Name := by
  have h : (List.map PCIDevice.Name ∘ List.map (Merge.visitOld nd)) (b.take n) =
      (b.take n).map PCIDevice.Name := by
    simp only [Function.comp, List.map_map]
    exact List.map_congr_left (fun x _ => Merge.visitOld_Name nd x)
  simp only [Merge.touchFirst, List.map_append]
  simp only [Function.comp] at h
  rw [h, ← List.map_append, List.take_append_drop]

theorem Merge.touchFirst_getElem (n : Nat) (nd : PCIDevice) (b : List PCIDevice) (i : Nat)
    (x : PCIDevice) (h : b[i]? = some x) :
    (Merge.touchFirst n nd b)[i]? = some (if i < n then Merge.visitOld nd x else x) := by
  have hi : i < b.length := (List.getElem?_eq_some.1 h).1
  by_cases hn : i < n
  · have h1 : i < ((b.take n).map (Merge.visitOld nd)).length := by
      simp only [List.length_map, List.length_take]
      omega
    simp only [Merge.touchFirst, List.getElem?_append_left h1, List.getElem?_map,
      List.getElem?_take_of_lt hn, h, hn, if_true, Option.map_some']
  · have h1 : ((b.take n).map (Merge.visitOld nd)).length ≤ i := by
      simp only [List.length_map, List.length_take]
      omega
    have h2 : ((b.take n).map (Merge.visitOld nd)).length = n := by
      simp only [List.length_map, List.length_take]
      omega
    simp only [Merge.touchFirst, List.getElem?_append_right h1, List.getElem?_drop, hn,
      if_false, h2]
    rw [← h]
    congr 1
    omega

theorem Merge.devStep_none (key : PCIAddress) (n : Nat) (nd : PCIDevice) :
    Merge.devStep key n none nd = none := by
  simp [Merge.devStep, PCIDevices.Add, PCIDevices.bucket, lookupOf]

/-- The buckets after one step of the device loop on a non-nil index. -/
theorem Merge.devStep_some (key : PCIAddress) (n : Nat) (m : GoMap PCIAddress (List PCIDevice))
    (nd : PCIDevice) :
    ∃ m1, Merge.devStep key n (some m) nd = some m1 ∧
      ∀ a, PCIDevices.bucket (some m1) a =
        (if a = key then Merge.touchFirst n nd (PCIDevices.bucket (some m) a)
          else PCIDevices.bucket (some m) a) ++
        (if ((PCIDevices.bucket (some m) key).take n).any
              (fun oldDev => decide (nd.Name = oldDev.Name)) = false ∧ a = nd.PCIAddr
          then [nd] else []) := by
  cases hg : m.get key with
  | none =>
    have hb : PCIDevices.bucket (some m) key = [] := by
      simp [PCIDevices.bucket, lookupOf, hg]
    refine ⟨appendAt m nd.PCIAddr nd, ?_, fun a => ?_⟩
    · simp [Merge.devStep, hg, hb, PCIDevices.Add]
    · have hL : (if a = key then Merge.touchFirst n nd (PCIDevices.bucket (some m) a)
          else PCIDevices.bucket (some m) a) = PCIDevices.bucket (some m) a := by
        by_cases h1 : a = key
        · subst h1
          simp [hb, Merge.touchFirst]
        · simp [h1]
      rw [bucket_appendAt, hL, hb]
      by_cases h2 : a = nd.PCIAddr
      · subst h2
        simp
      · simp [h2]
  | some b =>
    have hb : PCIDevices.bucket (some m) key = b := by
      simp [PCIDevices.bucket, lookupOf, hg]
    have hset : ∀ a, PCIDevices.bucket (some (m.set key (Merge.touchFirst n nd b))) a =
        if a = key then Merge.touchFirst n nd (PCIDevices.bucket (some m) a)
        else PCIDevices.bucket (some m) a := by
      intro a
      by_cases h1 : a = key
      · subst h1
        simp [PCIDevices.bucket, lookupOf, GoMap.get_set, hg]
      · simp [PCIDevices.bucket, lookupOf, GoMap.get_set, h1]
    by_cases hex : (b.take n).any (fun oldDev => decide (nd.Name = oldDev.Name)) = true
    · refine ⟨m.set key (Merge.touchFirst n nd b), ?_, fun a => ?_⟩
      · simp only [Merge.devStep, hg, hb, hex, if_true]
      · rw [hset a, hb]
        simp [hex]
    · have hex1 : (b.take n).any (fun oldDev => decide (nd.Name = oldDev.Name)) = false := by
        simpa using hex
      refine ⟨appendAt (m.set key (Merge.touchFirst n nd b)) nd.PCIAddr nd, ?_, fun a => ?_⟩
      · simp only [Merge.devStep, hg, hb, hex1, PCIDevices.Add]
        simp
      · rw [bucket_appendAt, hb]
        by_cases h2 : a = nd.PCIAddr
        · simp only [h2, if_true, hex1, and_self]
          rw [hset nd.PCIAddr]
        · simp only [h2, if_false, and_false]
          rw [hset a]
          simp

/-! ## Where an existing device ends up -/

theorem Merge.devStep_getElem (key : PCIAddress) (n : Nat) (d : PCIDevices) (nd : PCIDevice)
    (a : PCIAddress) (i : Nat) (x : PCIDevice) (h : (PCIDevices.bucket d a)[i]? = some x) :
    (PCIDevices.bucket (Merge.devStep key n d nd) a)[i]? =
      some (if a = key ∧ i < n then Merge.visitOld nd x else x) := by
  cases d with
  | none => simp [bucket_none] at h
  | some m =>
    obtain ⟨m1, h1, h2⟩ := Merge.devStep_some key n m nd
    rw [h1, h2 a]
    have hi : i < (PCIDevices.bucket (some m) a).length := (List.getElem?_eq_some.1 h).1
    by_cases hk : a = key
    · have hlen : i < (Merge.touchFirst n nd (PCIDevices.bucket (some m) a)).length := by
        rw [Merge.touchFirst_length]
        exact hi
      simp only [hk, if_true, true_and]
      rw [List.getElem?_append_left (by simpa [hk] using hlen)]
      exact Merge.touchFirst_getElem n nd _ i x (by simpa [hk] using h)
    · simp only [hk, if_false, false_and]
      rw [List.getElem?_append_left hi]
      exact h

theorem Merge.devFold_getElem (key : PCIAddress) (n : Nat) (l : List PCIDevice)
    (d : PCIDevices) (a : PCIAddress) (i : Nat) (x : PCIDevice)
    (h : (PCIDevices.bucket d a)[i]? = some x) :
    (PCIDevices.bucket (l.foldl (Merge.devStep key n) d) a)[i]? =
      some (if a = key ∧ i < n then Merge.visitAll l x else x) := by
  induction l generalizing d x with
  | nil => simp [Merge.visitAll, h]
  | cons nd rest ih =>
    rw [List.foldl_cons, ih _ _ (Merge.devStep_getElem key n d nd a i x h)]
    by_cases hc : a = key ∧ i < n
    · simp [hc, Merge.visitAll]
    · simp [hc]

theorem Merge.bucketStep_getElem (d : PCIDevices) (e : PCIAddress × List PCIDevice)
    (a : PCIAddress) (i : Nat) (x : PCIDevice) (h : (PCIDevices.bucket d a)[i]? = some x) :
    (PCIDevices.bucket (Merge.bucketStep d e) a)[i]? =
      some (if a = e.1 then Merge.visitAll e.2 x else x) := by
  rw [Merge.bucketStep, Merge.devFold_getElem _ _ _ _ _ _ _ h]
  by_cases hk : a = e.1
  · have hi : i < (PCIDevices.bucket d e.1).length := by
      have := (List.getElem?_eq_some.1 h).1
      rwa [hk] at this
    simp [hk, hi]
  · simp [hk]

theorem Merge.bucketFold_getElem (l : List (PCIAddress × List PCIDevice))
    (hn : (l.map Prod.fst).Nodup) (d : PCIDevices) (a : PCIAddress) (i : Nat) (x : PCIDevice)
    (h : (PCIDevices.bucket d a)[i]? = some x) :
    (PCIDevices.bucket (l.foldl Merge.bucketStep d) a)[i]? =
      some (Merge.visitAll ((GoMap.getL a l).getD []) x) := by
  induction l generalizing d x with
  | nil => simp [GoMap.getL, Merge.visitAll, h]
  | cons e rest ih =>
    simp only [List.map_cons, List.nodup_cons] at hn
    rw [List.foldl_cons, ih hn.2 _ _ (Merge.bucketStep_getElem d e a i x h)]
    by_cases hk : e.1 = a
    · have h1 : GoMap.getL a rest = none :=
        GoMap.getL_eq_none_of_not_mem _ _ (by rw [← hk]; exact hn.1)
      simp [GoMap.getL, hk, h1, Merge.visitAll]
    · have hk1 : ¬ a = e.1 := fun h3 => hk h3.symm
      simp [GoMap.getL, hk, hk1]

theorem bucket_eq_getL (m : GoMap PCIAddress (List PCIDevice)) (a : PCIAddress) :
    PCIDevices.bucket (some m) a = (GoMap.getL a m.entries).getD [] := rfl

/-- An existing device keeps its place in its bucket and is visited by exactly the incoming
devices of the bucket with the same key. -/
theorem Merge.devices_getElem (d newDevices : PCIDevices) (a : PCIAddress) (i : Nat)
    (x : PCIDevice) (h : (PCIDevices.bucket d a)[i]? = some x) :
    (PCIDevices.bucket (Merge.devices d newDevices) a)[i]? =
      some (Merge.visitAll (PCIDevices.bucket newDevices a) x) := by
  cases newDevices with
  | none => simpa [Merge.devices, rangeOf, bucket_none, Merge.visitAll] using h
  | some m =>
    rw [bucket_eq_getL]
    exact Merge.bucketFold_getElem m.entries m.nodupKeys d a i x h

/-! ## Soft fields of existing devices -/

theorem Merge.visitAll_cons (nd : PCIDevice) (l : List PCIDevice) (x : PCIDevice) :
    Merge.visitAll (nd :: l) x = Merge.visitAll l (Merge.visitOld nd x) := rfl

theorem Merge.visitAll_Name (l : List PCIDevice) (x : PCIDevice) :
    (Merge.visitAll l x).Name = x.Name := by
  induction l generalizing x with
  | nil => rfl
  | cons nd rest ih => rw [Merge.visitAll_cons, ih, Merge.visitOld_Name]

theorem Merge.visitAll_PCIAddr (l : List PCIDevice) (x : PCIDevice) :
    (Merge.visitAll l x).PCIAddr = x.PCIAddr := by
  induction l generalizing x with
  | nil => rfl
  | cons nd rest ih => rw [Merge.visitAll_cons, ih, Merge.visitOld_PCIAddr]

theorem Merge.visitOld_DevType (nd x : PCIDevice) (h : x.DevType ≠ DeviceTypeUnknown) :
    (Merge.visitOld nd x).DevType = x.DevType := by
  unfold Merge.visitOld Merge.fillSoft
  split
  · simp [h]
  · rfl

theorem Merge.visitOld_LinkSpeed (nd x : PCIDevice) (h : x.LinkSpeed.isZero = false) :
    (Merge.visitOld nd x).LinkSpeed = x.LinkSpeed := by
  unfold Merge.visitOld Merge.fillSoft
  split
  · simp [h]
  · rfl

theorem Merge.visitAll_DevType (l : List PCIDevice) (x : PCIDevice)
    (h : x.DevType ≠ DeviceTypeUnknown) : (Merge.visitAll l x).DevType = x.DevType := by
  induction l generalizing x with
  | nil => rfl
  | cons nd rest ih =>
    rw [Merge.visitAll_cons, ih _ (by rw [Merge.visitOld_DevType nd x h]; exact h),
      Merge.visitOld_DevType nd x h]

theorem Merge.visitAll_LinkSpeed (l : List PCIDevice) (x : PCIDevice)
    (h : x.LinkSpeed.isZero = false) : (Merge.visitAll l x).LinkSpeed = x.LinkSpeed := by
  induction l generalizing x with
  | nil => rfl
  | cons nd rest ih =>
    rw [Merge.visitAll_cons, ih _ (by rw [Merge.visitOld_LinkSpeed nd x h]; exact h),
      Merge.visitOld_LinkSpeed nd x h]

theorem Merge.visitAll_of_no_name (l : List PCIDevice) (x : PCIDevice)
    (h : ∀ nd ∈ l, nd.Name ≠ x.Name) : Merge.visitAll l x = x := by
  induction l with
  | nil => rfl
  | cons nd rest ih =>
    have h1 : nd.Name ≠ x.Name := h nd (List.mem_cons_self _ _)
    rw [Merge.visitAll_cons]
    simp only [Merge.visitOld, h1, if_false]
    exact ih (fun y hy => h y (List.mem_cons_of_mem _ hy))

theorem Merge.visitAll_of_one_name (l : List PCIDevice) (x e : PCIDevice)
    (h : l.filter (fun nd => decide (nd.Name = x.Name)) = [e]) :
    Merge.visitAll l x = Merge.fillSoft x e := by
  induction l with
  | nil => simp at h
  | cons nd rest ih =>
    rw [Merge.visitAll_cons]
    by_cases h1 : nd.Name = x.Name
    · simp only [List.filter_cons, h1, decide_True, if_true, List.cons.injEq] at h
      obtain ⟨h2, h3⟩ := h
      subst h2
      simp only [Merge.visitOld, h1, if_true]
      apply Merge.visitAll_of_no_name
      intro y hy hname
      have : y ∈ rest.filter (fun nd => decide (nd.Name = x.Name)) := by
        simp only [List.mem_filter, decide_eq_true_eq]
        exact ⟨hy, by rw [hname]; rfl⟩
      rw [h3] at this
      simp at this
    · simp only [List.filter_cons, h1, decide_False] at h
      simp only [Merge.visitOld, h1, if_false]
      exact ih (by simpa using h)

/-- C1: for a receiver and an incoming topology that share a node ID, and a device `d` at
place `i` of the receiver node's flat bucket at address `a` for which the incoming node's
bucket at `a` holds exactly one device `e` with the name of `d`: after `Merge` the device at
that place has the name and address of `d`, its type is that of `e` if the type of `d` was
Unknown and unchanged otherwise, its link speed is that of `e` if the link speed of `d` was 0
and unchanged otherwise. -/
theorem merge_fills_unset_soft_fields (t incoming : Topology) (id : Nat) (cur node : NUMANode)
    (a : PCIAddress) (i : Nat) (d e : PCIDevice)
    (hcur : Topology.nodeAt (some t) id = some cur)
    (hnode : Topology.nodeAt (some incoming) id = some node)
    (hd : (cur.PCIDevices.bucket a)[i]? = some d)
    (he : (node.PCIDevices.bucket a).filter (fun x => decide (x.Name = d.Name)) = [e]) :
    ∃ merged d1, Topology.nodeAt (Topology.Merge (some t) (some incoming)) id = some merged ∧
      (merged.PCIDevices.bucket a)[i]? = some d1 ∧
      d1.Name = d.Name ∧ d1.PCIAddr = d.PCIAddr ∧
      d1.DevType = (if d.DevType = DeviceTypeUnknown then e.DevType else d.DevType) ∧
      d1.LinkSpeed = (if d.LinkSpeed.isZero then e.LinkSpeed else d.LinkSpeed) := by
  refine ⟨Merge.node cur node, Merge.fillSoft d e, ?_, ?_, rfl, rfl, rfl, rfl⟩
  · rw [nodeAt_Merge, hnode, hcur]
  · rw [Merge.node_PCIDevices, Merge.devices_getElem _ _ a i d hd,
      Merge.visitAll_of_one_name _ d e he]

/-- C1 on node 0 with `nic0` (Unknown, 0) merged with `nic0` (NetworkInterface, 100) at the
same address: `nic0` ends with NetworkInterface and 100. -/
theorem merge_fills_unset_soft_fields_witness :
    ∃ merged d1,
      Topology.nodeAt (Topology.Merge (some (Sample.single 0 Sample.nicNodeUnset))
        (some (Sample.single 0 Sample.nicNodeSet))) 0 = some merged ∧
      (merged.PCIDevices.bucket (Sample.addr 0 0 1))[0]? = some d1 ∧
      d1.Name = "nic0" ∧ d1.PCIAddr = Sample.addr 0 0 1 ∧
      d1.DevType = DeviceTypeNetInterface ∧ d1.LinkSpeed = Sample.speed100 :=
  merge_fills_unset_soft_fields (Sample.single 0 Sample.nicNodeUnset)
    (Sample.single 0 Sample.nicNodeSet) 0 Sample.nicNodeUnset Sample.nicNodeSet
    (Sample.addr 0 0 1) 0 Sample.nicUnset Sample.nicSet
    (by decide) (by decide) (by decide) (by decide)

/-- C2: for every non-nil receiver and every incoming topology (nil or not), a device at
place `i` of the bucket at `a` of a receiver node's flat index is, after `Merge`, still at
that place of that bucket of that node, with the same name and PCI address, the same type
if its type was not Unknown and the same link speed if its link speed was not 0. -/
theorem merge_never_clobbers (t : Topology) (incoming : Option Topology) (id : Nat)
    (cur : NUMANode) (a : PCIAddress) (i : Nat) (d : PCIDevice)
    (hcur : Topology.nodeAt (some t) id = some cur)
    (hd : (cur.PCIDevices.bucket a)[i]? = some d) :
    ∃ merged d1, Topology.nodeAt (Topology.Merge (some t) incoming) id = some merged ∧
      (merged.PCIDevices.bucket a)[i]? = some d1 ∧
      d1.Name = d.Name ∧ d1.PCIAddr = d.PCIAddr ∧
      (d.DevType ≠ DeviceTypeUnknown → d1.DevType = d.DevType) ∧
      (d.LinkSpeed.isZero = false → d1.LinkSpeed = d.LinkSpeed) := by
  cases incoming with
  | none => exact ⟨cur, d, hcur, hd, rfl, rfl, fun _ => rfl, fun _ => rfl⟩
  | some inc =>
    cases hnode : Topology.nodeAt (some inc) id with
    | none =>
      refine ⟨cur, d, ?_, hd, rfl, rfl, fun _ => rfl, fun _ => rfl⟩
      rw [nodeAt_Merge, hnode, hcur]
    | some node =>
      refine ⟨Merge.node cur node, Merge.visitAll (node.PCIDevices.bucket a) d, ?_, ?_,
        Merge.visitAll_Name _ d, Merge.visitAll_PCIAddr _ d,
        Merge.visitAll_DevType _ d, Merge.visitAll_LinkSpeed _ d⟩
      · rw [nodeAt_Merge, hnode, hcur]
      · rw [Merge.node_PCIDevices, Merge.devices_getElem _ _ a i d hd]

/-- C2 on node 0 with `nic0` (NetworkInterface, 100) merged with `nic0` (Unknown, 0): the
concrete type and link speed stay. -/
theorem merge_never_clobbers_witness :
    Sample.nicSet.DevType ≠ DeviceTypeUnknown ∧ Sample.nicSet.LinkSpeed.isZero = false ∧
    ∃ merged d1,
      Topology.nodeAt (Topology.Merge (some (Sample.single 0 Sample.nicNodeSet))
        (some (Sample.single 0 Sample.nicNodeUnset))) 0 = some merged ∧
      (merged.PCIDevices.bucket (Sample.addr 0 0 1))[0]? = some d1 ∧
      d1.Name = "nic0" ∧ d1.PCIAddr = Sample.addr 0 0 1 ∧
      d1.DevType = DeviceTypeNetInterface ∧ d1.LinkSpeed = Sample.speed100 := by
  obtain ⟨merged, d1, h1, h2, h3, h4, h5, h6⟩ :=
    merge_never_clobbers (Sample.single 0 Sample.nicNodeSet)
      (some (Sample.single 0 Sample.nicNodeUnset)) 0 Sample.nicNodeSet
      (Sample.addr 0 0 1) 0 Sample.nicSet (by decide) (by decide)
  exact ⟨by decide, by decide, merged, d1, h1, h2, h3, h4, h5 (by decide), h6 (by decide)⟩

/-! ## Merging a topology into itself -/

theorem Spec.appendedCores_of_all_old (old appended l : List CPUCore)
    (h : ∀ c ∈ l, c.ID ∈ old.map CPUCore.ID) : Spec.appendedCores old appended l = appended := by
  induction l with
  | nil => rfl
  | cons c rest ih =>
    have h1 : c.ID ∈ old.map CPUCore.ID := h c (List.mem_cons_self _ _)
    simp only [Spec.appendedCores, h1, true_or, if_true]
    exact ih (fun y hy => h y (List.mem_cons_of_mem _ hy))

theorem Spec.appendedBuses_of_all_old (old appended l : List PCIBus)
    (h : ∀ b ∈ l, ∃ o ∈ old, Spec.sameBus o b) : Spec.appendedBuses old appended l = appended := by
  induction l with
  | nil => rfl
  | cons b rest ih =>
    have h1 : ∃ o ∈ old ++ appended, Spec.sameBus o b := by
      obtain ⟨o, ho, hs⟩ := h b (List.mem_cons_self _ _)
      exact ⟨o, List.mem_append_left _ ho, hs⟩
    simp only [Spec.appendedBuses, h1, if_true]
    exact ih (fun y hy => h y (List.mem_cons_of_mem _ hy))

theorem Merge.node_self_Cores (n : NUMANode) : (Merge.node n n).Cores = n.Cores := by
  rw [Merge.node_Cores, Spec.appendedCores_of_all_old _ _ _
    (fun c hc => List.mem_map_of_mem CPUCore.ID hc)]
  simp

theorem Merge.node_self_PCIBuses (n : NUMANode) : (Merge.node n n).PCIBuses = n.PCIBuses := by
  rw [Merge.node_PCIBuses, Spec.appendedBuses_of_all_old _ _ _
    (fun b hb => ⟨b, hb, rfl, rfl⟩)]
  simp

theorem GoMap.getL_map_snd {K V W : Type} [DecidableEq K] (f : V → W) (k : K)
    (l : List (K × V)) :
    GoMap.getL k (l.map (fun e => (e.1, f e.2))) = (GoMap.getL k l).map f := by
  induction l with
  | nil => rfl
  | cons e rest ih =>
    by_cases h : e.1 = k
    · simp [GoMap.getL, h]
    · simp [GoMap.getL, h, ih]

theorem GoMap.setL_map_snd {K V W : Type} [DecidableEq K] (f : V → W) (k : K) (v v1 : V)
    (l : List (K × V)) (hg : GoMap.getL k l = some v) (hv : f v1 = f v) :
    (GoMap.setL k v1 l).map (fun e => (e.1, f e.2)) = l.map (fun e => (e.1, f e.2)) := by
  induction l with
  | nil => simp [GoMap.getL] at hg
  | cons e rest ih =>
    by_cases h : e.1 = k
    · simp only [GoMap.getL, h, if_true, Option.some.injEq] at hg
      subst hg
      subst h
      simp [GoMap.setL, hv]
    · simp only [GoMap.getL, h, if_false] at hg
      simp [GoMap.setL, h, ih hg]

theorem PCIDevices.shape_set (m : GoMap PCIAddress (List PCIDevice)) (key : PCIAddress)
    (b b1 : List PCIDevice) (hg : m.get key = some b)
    (hb : b1.map PCIDevice.Name = b.map PCIDevice.Name) :
    PCIDevices.shape (some (m.set key b1)) = PCIDevices.shape (some m) :=
  GoMap.setL_map_snd (List.map PCIDevice.Name) key b b1 m.entries hg hb

theorem PCIDevices.names_of_shape (m1 m2 : GoMap PCIAddress (List PCIDevice))
    (h : PCIDevices.shape (some m1) = PCIDevices.shape (some m2)) (a : PCIAddress) :
    (m1.get a).map (List.map PCIDevice.Name) = (m2.get a).map (List.map PCIDevice.Name) := by
  have h1 := GoMap.getL_map_snd (List.map PCIDevice.Name) a m1.entries
  have h2 := GoMap.getL_map_snd (List.map PCIDevice.Name) a m2.entries
  simp only [PCIDevices.shape, rangeOf] at h
  rw [GoMap.get, GoMap.get, ← h1, ← h2, h]

/-- A step of the device loop for an incoming device whose name is in the bucket: nothing is
added. -/
theorem Merge.devStep_of_name_mem (key : PCIAddress) (m : GoMap PCIAddress (List PCIDevice))
    (b : List PCIDevice) (nd : PCIDevice) (hg : m.get key = some b)
    (hname : nd.Name ∈ b.map PCIDevice.Name) :
    Merge.devStep key b.length (some m) nd =
      some (m.set key (Merge.touchFirst b.length nd b)) := by
  have hb : PCIDevices.bucket (some m) key = b := by
    simp [PCIDevices.bucket, lookupOf, hg]
  have hex : (b.take b.length).any (fun oldDev => decide (nd.Name = oldDev.Name)) = true := by
    simp only [List.take_length, List.any_eq_true, decide_eq_true_eq]
    obtain ⟨x, hx, hxn⟩ := List.mem_map.1 hname
    exact ⟨x, hx, hxn.symm⟩
  simp only [Merge.devStep, hg, hb, hex, if_true]

theorem Merge.devFold_same_shape (key : PCIAddress) (l : List PCIDevice)
    (m : GoMap PCIAddress (List PCIDevice)) (b : List PCIDevice) (hg : m.get key = some b)
    (hl : ∀ nd ∈ l, nd.Name ∈ b.map PCIDevice.Name) :
    ∃ m1, l.foldl (Merge.devStep key b.length) (some m) = some m1 ∧
      PCIDevices.shape (some m1) = PCIDevices.shape (some m) := by
  induction l generalizing m b with
  | nil => exact ⟨m, rfl, rfl⟩
  | cons nd rest ih =>
    have h1 := Merge.devStep_of_name_mem key m b nd hg (hl nd (List.mem_cons_self _ _))
    have hnames := Merge.touchFirst_names b.length nd b
    have hlen := Merge.touchFirst_length b.length nd b
    have hg1 : (m.set key (Merge.touchFirst b.length nd b)).get key =
        some (Merge.touchFirst b.length nd b) := GoMap.get_set_eq _ _ _
    obtain ⟨m1, h2, h3⟩ := ih (m.set key (Merge.touchFirst b.length nd b))
      (Merge.touchFirst b.length nd b) hg1
      (fun y hy => by rw [hnames]; exact hl y (List.mem_cons_of_mem _ hy))
    refine ⟨m1, ?_, h3.trans (PCIDevices.shape_set m key b _ hg hnames)⟩
    rw [List.foldl_cons, h1]
    rw [hlen] at h2
    exact h2

theorem Merge.bucketFold_same_shape (m : GoMap PCIAddress (List PCIDevice))
    (l : List (PCIAddress × List PCIDevice)) (hl : ∀ e ∈ l, m.get e.1 = some e.2)
    (m0 : GoMap PCIAddress (List PCIDevice))
    (h0 : PCIDevices.shape (some m0) = PCIDevices.shape (some m)) :
    ∃ m1, l.foldl Merge.bucketStep (some m0) = some m1 ∧
      PCIDevices.shape (some m1) = PCIDevices.shape (some m) := by
  induction l generalizing m0 with
  | nil => exact ⟨m0, rfl, h0⟩
  | cons e rest ih =>
    have hm : m.get e.1 = some e.2 := hl e (List.mem_cons_self _ _)
    have hn := PCIDevices.names_of_shape m0 m h0 e.1
    rw [hm] at hn
    cases hg : m0.get e.1 with
    | none => simp [hg] at hn
    | some b =>
      rw [hg] at hn
      simp only [Option.map_some', Option.some.injEq] at hn
      have hb : PCIDevices.bucket (some m0) e.1 = b := by
        simp [PCIDevices.bucket, lookupOf, hg]
      obtain ⟨m1, h1, h2⟩ := Merge.devFold_same_shape e.1 e.2 m0 b hg
        (fun nd hnd => by rw [hn]; exact List.mem_map_of_mem PCIDevice.Name hnd)
      obtain ⟨m2, h3, h4⟩ := ih (fun y hy => hl y (List.mem_cons_of_mem _ hy)) m1
        (h2.trans h0)
      refine ⟨m2, ?_, h4⟩
      rw [List.foldl_cons, Merge.bucketStep, hb, h1]
      exact h3

theorem Merge.devices_none (newDevices : PCIDevices) : Merge.devices none newDevices = none := by
  have h : ∀ l : List (PCIAddress × List PCIDevice), l.foldl Merge.bucketStep none = none := by
    intro l
    induction l with
    | nil => rfl
    | cons e rest ih =>
      have h1 : ∀ l2 : List PCIDevice, ∀ n, l2.foldl (Merge.devStep e.1 n) none = none := by
        intro l2 n
        induction l2 with
        | nil => rfl
        | cons nd r2 ih2 => rw [List.foldl_cons, Merge.devStep_none, ih2]
      rw [List.foldl_cons, Merge.bucketStep, h1, ih]
  exact h _

/-- Merging a device index into itself keeps its keys and, bucket by bucket, its names. -/
theorem Merge.devices_self_shape (d : PCIDevices) :
    PCIDevices.shape (Merge.devices d d) = PCIDevices.shape d := by
  cases d with
  | none => rw [Merge.devices_none]
  | some m =>
    obtain ⟨m1, h1, h2⟩ := Merge.bucketFold_same_shape m m.entries
      (fun e he => GoMap.getL_eq_some_of_mem m.nodupKeys he) m rfl
    simp only [Merge.devices, rangeOf]
    rw [h1, h2]

theorem PCIDevices.count_of_shape (d1 d2 : PCIDevices)
    (h : PCIDevices.shape d1 = PCIDevices.shape d2) :
    PCIDevices.count d1 = PCIDevices.count d2 := by
  have h1 : ∀ d : PCIDevices,
      PCIDevices.count d = ((PCIDevices.shape d).map (fun e => e.2.length)).sum := by
    intro d
    simp only [PCIDevices.count, PCIDevices.shape, List.map_map]
    congr 1
    exact List.map_congr_left (fun e _ => by simp)
  rw [h1, h1, h]

theorem PCIDevices.bucket_length_of_shape (d1 d2 : PCIDevices)
    (h : PCIDevices.shape d1 = PCIDevices.shape d2) (a : PCIAddress) :
    (PCIDevices.bucket d1 a).length = (PCIDevices.bucket d2 a).length := by
  have h1 : ∀ d : PCIDevices, (PCIDevices.bucket d a).map PCIDevice.Name =
      (GoMap.getL a (PCIDevices.shape d)).getD [] := by
    intro d
    cases d with
    | none => rfl
    | some m =>
      simp only [PCIDevices.shape, rangeOf, PCIDevices.bucket, lookupOf, GoMap.get]
      rw [GoMap.getL_map_snd (List.map PCIDevice.Name) a m.entries]
      cases GoMap.getL a m.entries <;> rfl
  have h2 := h1 d1
  rw [h, ← h1 d2] at h2
  simpa using congrArg List.length h2

/-- C7: merging a copy of a topology into it adds no node and leaves, for every node, the
number of cores, the number of buses, the number of devices in each flat-index bucket and
the total number of devices in the flat index unchanged.  Objects are values here, so the
deep copy of `T` is `T`. -/
theorem merge_self_counts (T : Topology) (id : Nat) :
    (Topology.nodeAt (Topology.Merge (some T) (some T)) id = none ↔
      Topology.nodeAt (some T) id = none) ∧
    ∀ n, Topology.nodeAt (some T) id = some n →
      ∃ merged, Topology.nodeAt (Topology.Merge (some T) (some T)) id = some merged ∧
        merged.Cores.length = n.Cores.length ∧
        merged.PCIBuses.length = n.PCIBuses.length ∧
        (∀ a, (merged.PCIDevices.bucket a).length = (n.PCIDevices.bucket a).length) ∧
        PCIDevices.count merged.PCIDevices = PCIDevices.count n.PCIDevices := by
  rw [nodeAt_Merge]
  constructor
  · cases h : Topology.nodeAt (some T) id <;> simp
  · intro n hn
    have hs : PCIDevices.shape (Merge.node n n).PCIDevices = PCIDevices.shape n.PCIDevices := by
      rw [Merge.node_PCIDevices, Merge.devices_self_shape]
    refine ⟨Merge.node n n, by rw [hn], by rw [Merge.node_self_Cores],
      by rw [Merge.node_self_PCIBuses], PCIDevices.bucket_length_of_shape _ _ hs,
      PCIDevices.count_of_shape _ _ hs⟩

/-- C7 on node 0 holding two devices named `nic0` in one bucket: the self-merge keeps one
node, one core, no bus and two devices. -/
theorem merge_self_counts_witness :
    ∃ merged, Topology.nodeAt (Topology.Merge (some (Sample.single 0 Sample.twinNode))
        (some (Sample.single 0 Sample.twinNode))) 0 = some merged ∧
      merged.Cores.length = 1 ∧ merged.PCIBuses.length = 0 ∧
      (∀ a, (merged.PCIDevices.bucket a).length =
        (Sample.twinNode.PCIDevices.bucket a).length) ∧
      PCIDevices.count merged.PCIDevices = 2 :=
  (merge_self_counts (Sample.single 0 Sample.twinNode) 0).2 Sample.twinNode (by decide)

theorem Merge.visitAll_self (b l : List PCIDevice) (d : PCIDevice)
    (hn : (b.map PCIDevice.Name).Nodup) (hd : d ∈ b) (hl : ∀ nd ∈ l, nd ∈ b) :
    Merge.visitAll l d = d := by
  induction l with
  | nil => rfl
  | cons nd rest ih =>
    rw [Merge.visitAll_cons]
    have h1 : Merge.visitOld nd d = d := by
      by_cases hname : nd.Name = d.Name
      · have h2 : nd = d :=
          List.inj_on_of_nodup_map hn (hl nd (List.mem_cons_self _ _)) hd hname
        subst h2
        simp [Merge.visitOld, Merge.fillSoft]
      · simp [Merge.visitOld, hname]
    rw [h1]
    exact ih (fun y hy => hl y (List.mem_cons_of_mem _ hy))

/-- C8 as stated fails: node 0 holds two devices named `nic0` in one bucket, the first with
both soft fields unset, the second a network interface with link speed 100; merging a copy
of the topology into it gives the first device the type and link speed of the second. -/
theorem merge_self_changes_soft_fields :
    Topology.nodeAt (some (Sample.single 0 Sample.twinNode)) 0 = some Sample.twinNode ∧
    (Sample.twinNode.PCIDevices.bucket (Sample.addr 0 0 1))[0]? = some Sample.nicUnset ∧
    ((Topology.nodeAt (Topology.Merge (some (Sample.single 0 Sample.twinNode))
        (some (Sample.single 0 Sample.twinNode))) 0).map
      (fun merged => (merged.PCIDevices.bucket (Sample.addr 0 0 1))[0]?)) =
        some (some Sample.nicSet) ∧
    Sample.nicSet.DevType ≠ Sample.nicUnset.DevType ∧
    Sample.nicSet.LinkSpeed ≠ Sample.nicUnset.LinkSpeed := by
  decide

/-- C8, amended: if the device names are pairwise distinct within a flat-index bucket of a
node of `T`, merging a copy of `T` into `T` leaves every device of that bucket at its place
with its type and link speed unchanged. -/
theorem merge_self_soft_fields (T : Topology) (id : Nat) (n : NUMANode) (a : PCIAddress)
    (i : Nat) (d : PCIDevice)
    (hn : Topology.nodeAt (some T) id = some n)
    (hnames : ((n.PCIDevices.bucket a).map PCIDevice.Name).Nodup)
    (hd : (n.PCIDevices.bucket a)[i]? = some d) :
    ∃ merged d1, Topology.nodeAt (Topology.Merge (some T) (some T)) id = some merged ∧
      (merged.PCIDevices.bucket a)[i]? = some d1 ∧
      d1.Name = d.Name ∧ d1.DevType = d.DevType ∧ d1.LinkSpeed = d.LinkSpeed := by
  refine ⟨Merge.node n n, d, ?_, ?_, rfl, rfl, rfl⟩
  · rw [nodeAt_Merge, hn]
  · rw [Merge.node_PCIDevices, Merge.devices_getElem _ _ a i d hd,
      Merge.visitAll_self _ _ d hnames (List.mem_iff_getElem?.2 ⟨i, hd⟩) (fun _ h => h)]

/-- C8, amended, on node 0 with the single device `nic0` (Unknown, 0). -/
theorem merge_self_soft_fields_witness :
    ∃ merged d1,
      Topology.nodeAt (Topology.Merge (some (Sample.single 0 Sample.nicNodeUnset))
        (some (Sample.single 0 Sample.nicNodeUnset))) 0 = some merged ∧
      (merged.PCIDevices.bucket (Sample.addr 0 0 1))[0]? = some d1 ∧
      d1.Name = "nic0" ∧ d1.DevType = DeviceTypeUnknown ∧ d1.LinkSpeed = Float64.zero :=
  merge_self_soft_fields (Sample.single 0 Sample.nicNodeUnset) 0 Sample.nicNodeUnset
    (Sample.addr 0 0 1) 0 Sample.nicUnset (by decide) (by decide) (by decide)

/-! ## Indexes built with Add are keyed by the device address -/

theorem PCIDevices.Add_keyed (d : PCIDevices) (dev : PCIDevice)
    (h : ∀ a x, x ∈ PCIDevices.bucket d a → x.PCIAddr = a) :
    ∀ a x, x ∈ PCIDevices.bucket (PCIDevices.Add d (some dev)) a → x.PCIAddr = a := by
  cases d with
  | none => exact h
  | some m =>
    intro a x hx
    simp only [PCIDevices.Add] at hx
    rw [bucket_appendAt] at hx
    by_cases ha : a = dev.PCIAddr
    · rw [if_pos ha, List.mem_append] at hx
      rcases hx with hx | hx
      · rw [ha]
        exact h dev.PCIAddr x hx
      · have hxd : x = dev := by simpa using hx
        rw [hxd, ha]
    · rw [if_neg ha] at hx
      exact h a x hx

theorem Sample.index_keyed (l : List PCIDevice) :
    Sample.index l ≠ none ∧
      ∀ a x, x ∈ PCIDevices.bucket (Sample.index l) a → x.PCIAddr = a := by
  have key : ∀ (l : List PCIDevice) (d : PCIDevices), d ≠ none →
      (∀ a x, x ∈ PCIDevices.bucket d a → x.PCIAddr = a) →
      l.foldl (fun d dev => PCIDevices.Add d (some dev)) d ≠ none ∧
        ∀ a x, x ∈ PCIDevices.bucket
          (l.foldl (fun d dev => PCIDevices.Add d (some dev)) d) a → x.PCIAddr = a := by
    intro l
    induction l with
    | nil => exact fun d h1 h2 => ⟨h1, h2⟩
    | cons dev rest ih =>
      intro d h1 h2
      rw [List.foldl_cons]
      refine ih _ ?_ (PCIDevices.Add_keyed d dev h2)
      cases d with
      | none => exact absurd rfl h1
      | some m => simp [PCIDevices.Add]
  exact key l (some GoMap.empty) (by simp) (fun a x hx => by simp [bucket_empty] at hx)

theorem Sample.nodeAt_single (i id : Nat) (n0 n : NUMANode)
    (h : Topology.nodeAt (some (Sample.single i n0)) id = some n) : n = n0 := by
  simp only [Topology.nodeAt, Sample.single, lookupOf, GoMap.get, GoMap.getL] at h
  by_cases hi : i = id
  · simp only [hi, if_true, Option.some.injEq] at h
    exact h.symm
  · simp [hi] at h

/-! ## Incoming devices that are added -/

theorem Merge.take_names_step (n : Nat) (nd : PCIDevice) (b tail : List PCIDevice)
    (hn : n ≤ b.length) :
    ((Merge.touchFirst n nd b ++ tail).take n).map PCIDevice.Name =
      (b.take n).map PCIDevice.Name := by
  have h1 : n ≤ (Merge.touchFirst n nd b).length := by
    rw [Merge.touchFirst_length]
    exact hn
  rw [List.take_append_of_le_length h1, List.map_take, Merge.touchFirst_names, List.map_take]

/-- Within the bucket of its own address an incoming device with a new name is appended
behind the first `n` devices, and stays there. -/
theorem Merge.devFold_adds (a : PCIAddress) (n : Nat) (e : PCIDevice) (ha : e.PCIAddr = a)
    (l : List PCIDevice) (he : e ∈ l) (m : GoMap PCIAddress (List PCIDevice))
    (hlen : n ≤ (PCIDevices.bucket (some m) a).length)
    (hnew : e.Name ∉ ((PCIDevices.bucket (some m) a).take n).map PCIDevice.Name) :
    ∃ j, n ≤ j ∧ (PCIDevices.bucket (l.foldl (Merge.devStep a n) (some m)) a)[j]? = some e := by
  induction l generalizing m with
  | nil => simp at he
  | cons nd rest ih =>
    obtain ⟨m1, h1, h2⟩ := Merge.devStep_some a n m nd
    have h3 := h2 a
    simp only [if_true] at h3
    rw [List.foldl_cons, h1]
    by_cases hnd : e = nd
    · subst hnd
      have hex : ((PCIDevices.bucket (some m) a).take n).any
          (fun oldDev => decide (e.Name = oldDev.Name)) = false := by
        rw [List.any_eq_false]
        intro x hx hxe
        exact hnew (List.mem_map.2 ⟨x, hx, (of_decide_eq_true hxe).symm⟩)
      simp only [hex, ha, and_self, if_true] at h3
      refine ⟨(PCIDevices.bucket (some m) a).length, hlen, ?_⟩
      have h4 : (PCIDevices.bucket (some m1) a)[(PCIDevices.bucket (some m) a).length]? =
          some e := by
        rw [h3, ← Merge.touchFirst_length n e (PCIDevices.bucket (some m) a)]
        exact List.getElem?_concat_length _ _
      rw [Merge.devFold_getElem a n rest (some m1) a _ e h4]
      simp [Nat.not_lt.2 hlen]
    · have he1 : e ∈ rest := by
        rcases List.mem_cons.1 he with h | h
        · exact absurd h hnd
        · exact h
      apply ih he1 m1
      · rw [h3, List.length_append, Merge.touchFirst_length]
        omega
      · rw [h3, Merge.take_names_step n nd _ _ hlen]
        exact hnew

/-- A bucket of well-keyed incoming devices leaves the buckets at other addresses alone. -/
theorem Merge.devFold_other (key a : PCIAddress) (hk : a ≠ key) (n : Nat) (l : List PCIDevice)
    (hl : ∀ nd ∈ l, nd.PCIAddr = key) (m : GoMap PCIAddress (List PCIDevice)) :
    ∃ m1, l.foldl (Merge.devStep key n) (some m) = some m1 ∧
      PCIDevices.bucket (some m1) a = PCIDevices.bucket (some m) a := by
  induction l generalizing m with
  | nil => exact ⟨m, rfl, rfl⟩
  | cons nd rest ih =>
    obtain ⟨m1, h1, h2⟩ := Merge.devStep_some key n m nd
    have h3 := h2 a
    have hnd : a ≠ nd.PCIAddr := by
      rw [hl nd (List.mem_cons_self _ _)]
      exact hk
    simp only [hk, if_false, hnd, and_false, List.append_nil] at h3
    obtain ⟨m2, h4, h5⟩ := ih (fun y hy => hl y (List.mem_cons_of_mem _ hy)) m1
    exact ⟨m2, by rw [List.foldl_cons, h1, h4], h5.trans h3⟩

theorem Merge.bucketFold_adds (a : PCIAddress) (e : PCIDevice) (ha : e.PCIAddr = a)
    (l : List (PCIAddress × List PCIDevice)) (hn : (l.map Prod.fst).Nodup)
    (hwf : ∀ en ∈ l, ∀ x ∈ en.2, x.PCIAddr = en.1)
    (lk : List PCIDevice) (hg : GoMap.getL a l = some lk) (he : e ∈ lk)
    (m : GoMap PCIAddress (List PCIDevice))
    (hnew : e.Name ∉ (PCIDevices.bucket (some m) a).map PCIDevice.Name) :
    e ∈ PCIDevices.bucket (l.foldl Merge.bucketStep (some m)) a := by
  induction l generalizing m with
  | nil => simp [GoMap.getL] at hg
  | cons en rest ih =>
    simp only [List.map_cons, List.nodup_cons] at hn
    rw [List.foldl_cons]
    by_cases hk : en.1 = a
    · simp only [GoMap.getL, hk, if_true, Option.some.injEq] at hg
      have hnone : GoMap.getL a rest = none :=
        GoMap.getL_eq_none_of_not_mem _ _ (by rw [← hk]; exact hn.1)
      obtain ⟨j, _, hj⟩ := Merge.devFold_adds a (PCIDevices.bucket (some m) a).length e ha
        en.2 (by rw [hg]; exact he) m (le_refl _) (by rw [List.take_length]; exact hnew)
      have h1 : (PCIDevices.bucket (Merge.bucketStep (some m) en) a)[j]? = some e := by
        rw [Merge.bucketStep, hk]
        exact hj
      have h2 := Merge.bucketFold_getElem rest hn.2 _ a j e h1
      rw [hnone] at h2
      exact List.mem_iff_getElem?.2 ⟨j, h2⟩
    · simp only [GoMap.getL, hk, if_false] at hg
      have hk1 : a ≠ en.1 := fun h => hk h.symm
      obtain ⟨m1, h1, h2⟩ := Merge.devFold_other en.1 a hk1
        (PCIDevices.bucket (some m) en.1).length en.2 (hwf en (List.mem_cons_self _ _)) m
      rw [Merge.bucketStep, h1]
      exact ih hn.2 (fun y hy => hwf y (List.mem_cons_of_mem _ hy)) hg m1 (by rw [h2]; exact hnew)

theorem bucket_mem_entries (m : GoMap PCIAddress (List PCIDevice))
    (en : PCIAddress × List PCIDevice) (h : en ∈ m.entries) :
    PCIDevices.bucket (some m) en.1 = en.2 := by
  have h1 : GoMap.getL en.1 m.entries = some en.2 := GoMap.getL_eq_some_of_mem m.nodupKeys h
  simp [PCIDevices.bucket, lookupOf, GoMap.get, h1]

/-- An incoming device stored under its own address, with a name that the receiver bucket
does not hold, is in that bucket after the device loop on a non-nil index. -/
theorem Merge.devices_adds (m : GoMap PCIAddress (List PCIDevice)) (newDevices : PCIDevices)
    (hwf : ∀ k x, x ∈ PCIDevices.bucket newDevices k → x.PCIAddr = k)
    (a : PCIAddress) (e : PCIDevice) (he : e ∈ PCIDevices.bucket newDevices a)
    (hnew : e.Name ∉ (PCIDevices.bucket (some m) a).map PCIDevice.Name) :
    e ∈ PCIDevices.bucket (Merge.devices (some m) newDevices) a := by
  cases newDevices with
  | none => simp [bucket_none] at he
  | some mi =>
    cases hg : GoMap.getL a mi.entries with
    | none => simp [bucket_eq_getL, hg] at he
    | some lk =>
      have he1 : e ∈ lk := by simpa [bucket_eq_getL, hg] using he
      refine Merge.bucketFold_adds a e (hwf a e he) mi.entries mi.nodupKeys ?_ lk hg he1 m hnew
      intro en hen x hx
      apply hwf en.1 x
      rw [bucket_mem_entries mi en hen]
      exact hx

/-- C3 as stated fails.  Node 0 owns bus `[0000:00:00.0, 0000:05:00.0]`; the incoming node 0
holds a device at `0000:01:00.0`, inside that bus, whose name is new.  After `Merge` the
device is in the flat index of node 0 and the bus still has no device.  With a nil flat index
on the receiver node the device is not even in the flat index. -/
theorem merge_device_not_bus_indexed :
    (Sample.devIn ∈ Sample.devInNode.PCIDevices.bucket (Sample.addr 1 0 0) ∧
      Sample.devIn.Name ∉
        (Sample.coreBusNode.PCIDevices.bucket (Sample.addr 1 0 0)).map PCIDevice.Name ∧
      PCIBus.Contains (some Sample.bus05) Sample.devIn.PCIAddr = true ∧
      ((Topology.nodeAt (Topology.Merge (some (Sample.single 0 Sample.coreBusNode))
          (some (Sample.single 0 Sample.devInNode))) 0).map
        (fun merged => (merged.PCIDevices.bucket (Sample.addr 1 0 0), merged.PCIBuses))) =
          some ([Sample.devIn], [Sample.bus05]) ∧
      Sample.devIn ∉ Sample.bus05.PCIDevices.bucket (Sample.addr 1 0 0)) ∧
    ((Topology.nodeAt (Topology.Merge (some (Sample.single 0 Sample.bareNode))
        (some (Sample.single 0 Sample.devInNode))) 0).map
      (fun merged => (merged.PCIDevices.bucket (Sample.addr 1 0 0), merged.PCIBuses))) =
        some ([], [Sample.bus05]) := by
  decide

/-- C3, amended: for a receiver and an incoming topology sharing a node ID, where the flat
index of the receiver node is not nil and the incoming node stores every device under the
device's own address, an incoming device whose name does not occur in the receiver node's
bucket at that address is, after `Merge`, in that bucket of the receiver node's flat index.
No bus index gains a device: the old buses stay at the head of the bus sequence, each with
its range and, bucket by bucket, with the names and addresses of the devices it indexed, and
every bus behind them is a bus of the incoming node, likewise. -/
theorem merge_nonduplicate_device_flat_only (t incoming : Topology) (id : Nat)
    (cur node : NUMANode) (a : PCIAddress) (e : PCIDevice)
    (hcur : Topology.nodeAt (some t) id = some cur)
    (hnode : Topology.nodeAt (some incoming) id = some node)
    (hflat : cur.PCIDevices ≠ none)
    (hwf : ∀ k x, x ∈ node.PCIDevices.bucket k → x.PCIAddr = k)
    (he : e ∈ node.PCIDevices.bucket a)
    (hnew : e.Name ∉ (cur.PCIDevices.bucket a).map PCIDevice.Name) :
    ∃ merged, Topology.nodeAt (Topology.Merge (some t) (some incoming)) id = some merged ∧
      e ∈ merged.PCIDevices.bucket a ∧
      ∃ head ext, merged.PCIBuses = head ++ ext ∧
        List.Forall₂ PCIBus.alike cur.PCIBuses head ∧
        ∀ b ∈ ext, ∃ b0 ∈ node.PCIBuses, PCIBus.alike b0 b := by
  refine ⟨Merge.node cur node, ?_, ?_, cur.PCIBuses,
    Spec.appendedBuses cur.PCIBuses [] node.PCIBuses,
    Merge.node_PCIBuses cur node, PCIBus.alike_all _, fun b hb => ?_⟩
  · rw [nodeAt_Merge, hnode, hcur]
  · rw [Merge.node_PCIDevices]
    cases hm : cur.PCIDevices with
    | none => exact absurd hm hflat
    | some m =>
      rw [hm] at hnew
      exact Merge.devices_adds m node.PCIDevices hwf a e he hnew
  · rcases Spec.appendedBuses_sound cur.PCIBuses node.PCIBuses [] b hb with h | h
    · simp at h
    · exact ⟨b, h.1, PCIBus.alike_self b⟩

/-- C3, amended, on node 0 owning bus `[0000:00:00.0, 0000:05:00.0]` with `nic0` (type and
link speed unset) attached, and an incoming node 0 holding `nic0` with both set and a new
device at `0000:01:00.0`: the new device comes into the flat index, the bus indexes `nic0`
as before and nothing else. -/
theorem merge_nonduplicate_device_flat_only_witness :
    ∃ merged, Topology.nodeAt (Topology.Merge (some (Sample.single 0 Sample.busNicNode))
        (some (Sample.single 0 ⟨0, [], [], Sample.index [Sample.nicSet, Sample.devIn]⟩)))
        0 = some merged ∧
      Sample.devIn ∈ merged.PCIDevices.bucket (Sample.addr 1 0 0) ∧
      ∃ head ext, merged.PCIBuses = head ++ ext ∧
        List.Forall₂ PCIBus.alike Sample.busNicNode.PCIBuses head ∧
        ∀ b ∈ ext, ∃ b0 ∈ (⟨0, [], [], Sample.index [Sample.nicSet, Sample.devIn]⟩ :
          NUMANode).PCIBuses, PCIBus.alike b0 b :=
  merge_nonduplicate_device_flat_only (Sample.single 0 Sample.busNicNode)
    (Sample.single 0 ⟨0, [], [], Sample.index [Sample.nicSet, Sample.devIn]⟩) 0
    Sample.busNicNode ⟨0, [], [], Sample.index [Sample.nicSet, Sample.devIn]⟩
    (Sample.addr 1 0 0) Sample.devIn (by decide) (by decide) (by decide)
    (Sample.index_keyed [Sample.nicSet, Sample.devIn]).2
    (by decide) (by decide)

/-! ## What is present after a merge -/

theorem nodeAt_Merge_combine (topo incoming : Topology) (id : Nat) :
    Topology.nodeAt (Topology.Merge (some topo) (some incoming)) id =
      Merge.combine (Topology.nodeAt (some topo) id) (Topology.nodeAt (some incoming) id) := by
  rw [nodeAt_Merge]
  cases h1 : Topology.nodeAt (some incoming) id with
  | none => cases h2 : Topology.nodeAt (some topo) id <;> rfl
  | some node => cases h2 : Topology.nodeAt (some topo) id <;> rfl

theorem Spec.appendedCores_complete (old : List CPUCore) (l appended : List CPUCore) :
    (∀ c ∈ appended, c ∈ Spec.appendedCores old appended l) ∧
      ∀ c ∈ l, c.ID ∈ (old ++ Spec.appendedCores old appended l).map CPUCore.ID := by
  induction l generalizing appended with
  | nil => exact ⟨fun c hc => hc, fun c hc => by simp at hc⟩
  | cons core rest ih =>
    simp only [Spec.appendedCores]
    by_cases h : core.ID ∈ old.map CPUCore.ID ∨ core.ID ∈ appended.map CPUCore.ID
    · rw [if_pos h]
      refine ⟨(ih appended).1, fun c hc => ?_⟩
      rcases List.mem_cons.1 hc with h1 | h1
      · subst h1
        rw [List.map_append, List.mem_append]
        rcases h with h2 | h2
        · exact Or.inl h2
        · obtain ⟨y, hy, hid⟩ := List.mem_map.1 h2
          exact Or.inr (List.mem_map.2 ⟨y, (ih appended).1 y hy, hid⟩)
      · exact (ih appended).2 c h1
    · rw [if_neg h]
      refine ⟨fun c hc => (ih (appended ++ [core])).1 c (List.mem_append_left _ hc),
        fun c hc => ?_⟩
      rcases List.mem_cons.1 hc with h1 | h1
      · subst h1
        rw [List.map_append, List.mem_append]
        exact Or.inr (List.mem_map_of_mem CPUCore.ID
          ((ih (appended ++ [c])).1 c (by simp)))
      · exact (ih (appended ++ [core])).2 c h1

theorem Merge.node_coreIDs (current node : NUMANode) (c : Nat) :
    c ∈ (Merge.node current node).coreIDs ↔ c ∈ current.coreIDs ∨ c ∈ node.coreIDs := by
  simp only [NUMANode.coreIDs, Merge.node_Cores, List.map_append, List.mem_append]
  constructor
  · rintro (h | h)
    · exact Or.inl h
    · obtain ⟨x, hx, hid⟩ := List.mem_map.1 h
      rcases Spec.appendedCores_sound current.Cores node.Cores [] x hx with h1 | h1
      · simp at h1
      · exact Or.inr (List.mem_map.2 ⟨x, h1.1, hid⟩)
  · rintro (h | h)
    · exact Or.inl h
    · obtain ⟨x, hx, hid⟩ := List.mem_map.1 h
      have h1 := (Spec.appendedCores_complete current.Cores node.Cores []).2 x hx
      rw [List.map_append, List.mem_append, hid] at h1
      exact h1

theorem Merge.node_busRanges (current node : NUMANode) (r : PCIAddress × PCIAddress) :
    r ∈ (Merge.node current node).busRanges ↔ r ∈ current.busRanges ∨ r ∈ node.busRanges := by
  simp only [NUMANode.busRanges, Merge.node_PCIBuses, List.map_append, List.mem_append]
  constructor
  · rintro (h | h)
    · exact Or.inl h
    · obtain ⟨x, hx, hr⟩ := List.mem_map.1 h
      rcases Spec.appendedBuses_sound current.PCIBuses node.PCIBuses [] x hx with h1 | h1
      · simp at h1
      · exact Or.inr (List.mem_map.2 ⟨x, h1.1, hr⟩)
  · rintro (h | h)
    · exact Or.inl h
    · obtain ⟨x, hx, hr⟩ := List.mem_map.1 h
      obtain ⟨y, hy, hs⟩ :=
        (Spec.appendedBuses_complete current.PCIBuses node.PCIBuses []).2 x hx
      have hyr : (y.LowAddress, y.HighAddress) = r := by
        rw [← hr, hs.1, hs.2]
      rcases List.mem_append.1 hy with h1 | h1
      · exact Or.inl (List.mem_map.2 ⟨y, h1, hyr⟩)
      · exact Or.inr (List.mem_map.2 ⟨y, h1, hyr⟩)

/-- The names in each bucket after one step of the device loop, for an incoming device
stored under its own address. -/
theorem Merge.devStep_names (key : PCIAddress) (n : Nat)
    (m : GoMap PCIAddress (List PCIDevice)) (nd : PCIDevice) (hk : nd.PCIAddr = key) :
    ∃ m1, Merge.devStep key n (some m) nd = some m1 ∧
      ∀ a nm, nm ∈ (PCIDevices.bucket (some m1) a).map PCIDevice.Name ↔
        nm ∈ (PCIDevices.bucket (some m) a).map PCIDevice.Name ∨ (a = key ∧ nm = nd.Name) := by
  obtain ⟨m1, h1, h2⟩ := Merge.devStep_some key n m nd
  refine ⟨m1, h1, fun a nm => ?_⟩
  have hB : (if a = key then Merge.touchFirst n nd (PCIDevices.bucket (some m) a)
      else PCIDevices.bucket (some m) a).map PCIDevice.Name =
      (PCIDevices.bucket (some m) a).map PCIDevice.Name := by
    by_cases h : a = key
    · simp only [h, if_true]
      exact Merge.touchFirst_names _ _ _
    · simp only [h, if_false]
  rw [h2 a, List.map_append, List.mem_append, hB, hk]
  by_cases hex : ((PCIDevices.bucket (some m) key).take n).any
      (fun oldDev => decide (nd.Name = oldDev.Name)) = false
  · by_cases ha : a = key
    · simp [hex, ha]
    · simp [hex, ha]
  · have hex1 : ((PCIDevices.bucket (some m) key).take n).any
        (fun oldDev => decide (nd.Name = oldDev.Name)) = true := by simpa using hex
    simp only [hex1, Bool.true_eq_false, false_and, if_false, List.map_nil, List.not_mem_nil,
      or_false]
    constructor
    · exact fun h => Or.inl h
    · rintro (h | ⟨ha, hnm⟩)
      · exact h
      · obtain ⟨x, hx, hxn⟩ := List.any_eq_true.1 hex1
        rw [ha, hnm, of_decide_eq_true hxn]
        exact List.mem_map_of_mem PCIDevice.Name (List.mem_of_mem_take hx)

theorem Merge.devFold_names (key : PCIAddress) (n : Nat) (l : List PCIDevice)
    (hl : ∀ nd ∈ l, nd.PCIAddr = key) (m : GoMap PCIAddress (List PCIDevice)) :
    ∃ m1, l.foldl (Merge.devStep key n) (some m) = some m1 ∧
      ∀ a nm, nm ∈ (PCIDevices.bucket (some m1) a).map PCIDevice.Name ↔
        nm ∈ (PCIDevices.bucket (some m) a).map PCIDevice.Name ∨
          (a = key ∧ nm ∈ l.map PCIDevice.Name) := by
  induction l generalizing m with
  | nil => exact ⟨m, rfl, fun a nm => by simp⟩
  | cons nd rest ih =>
    obtain ⟨m1, h1, h2⟩ := Merge.devStep_names key n m nd (hl nd (List.mem_cons_self _ _))
    obtain ⟨m2, h3, h4⟩ := ih (fun y hy => hl y (List.mem_cons_of_mem _ hy)) m1
    refine ⟨m2, by rw [List.foldl_cons, h1, h3], fun a nm => ?_⟩
    rw [h4 a nm, h2 a nm, List.map_cons, List.mem_cons]
    constructor
    · rintro ((h | ⟨ha, hn⟩) | ⟨ha, hn⟩)
      · exact Or.inl h
      · exact Or.inr ⟨ha, Or.inl hn⟩
      · exact Or.inr ⟨ha, Or.inr hn⟩
    · rintro (h | ⟨ha, hn | hn⟩)
      · exact Or.inl (Or.inl h)
      · exact Or.inl (Or.inr ⟨ha, hn⟩)
      · exact Or.inr ⟨ha, hn⟩

theorem Merge.bucketFold_names (l : List (PCIAddress × List PCIDevice))
    (hwf : ∀ en ∈ l, ∀ x ∈ en.2, x.PCIAddr = en.1) (m : GoMap PCIAddress (List PCIDevice)) :
    ∃ m1, l.foldl Merge.bucketStep (some m) = some m1 ∧
      ∀ a nm, nm ∈ (PCIDevices.bucket (some m1) a).map PCIDevice.Name ↔
        nm ∈ (PCIDevices.bucket (some m) a).map PCIDevice.Name ∨
          ∃ en ∈ l, en.1 = a ∧ nm ∈ en.2.map PCIDevice.Name := by
  induction l generalizing m with
  | nil => exact ⟨m, rfl, fun a nm => by simp⟩
  | cons e rest ih =>
    obtain ⟨m1, h1, h2⟩ := Merge.devFold_names e.1 (PCIDevices.bucket (some m) e.1).length e.2
      (hwf e (List.mem_cons_self _ _)) m
    obtain ⟨m2, h3, h4⟩ := ih (fun y hy => hwf y (List.mem_cons_of_mem _ hy)) m1
    refine ⟨m2, by rw [List.foldl_cons, Merge.bucketStep, h1, h3], fun a nm => ?_⟩
    rw [h4 a nm, h2 a nm]
    constructor
    · rintro ((h | ⟨ha, hn⟩) | ⟨en, hen, hea, hn⟩)
      · exact Or.inl h
      · exact Or.inr ⟨e, List.mem_cons_self _ _, ha.symm, hn⟩
      · exact Or.inr ⟨en, List.mem_cons_of_mem _ hen, hea, hn⟩
    · rintro (h | ⟨en, hen, hea, hn⟩)
      · exact Or.inl (Or.inl h)
      · rcases List.mem_cons.1 hen with h5 | h5
        · subst h5
          exact Or.inl (Or.inr ⟨hea.symm, hn⟩)
        · exact Or.inr ⟨en, h5, hea, hn⟩

/-- The names in each bucket after the device loop on a non-nil index, for a well-keyed
incoming index: those that were there and those of the incoming bucket. -/
theorem Merge.devices_names (m : GoMap PCIAddress (List PCIDevice)) (newDevices : PCIDevices)
    (hwf : ∀ k x, x ∈ PCIDevices.bucket newDevices k → x.PCIAddr = k) :
    ∃ m1, Merge.devices (some m) newDevices = some m1 ∧
      ∀ a nm, nm ∈ (PCIDevices.bucket (some m1) a).map PCIDevice.Name ↔
        nm ∈ (PCIDevices.bucket (some m) a).map PCIDevice.Name ∨
          nm ∈ (PCIDevices.bucket newDevices a).map PCIDevice.Name := by
  cases newDevices with
  | none => exact ⟨m, rfl, fun a nm => by simp [bucket_none]⟩
  | some mi =>
    obtain ⟨m1, h1, h2⟩ := Merge.bucketFold_names mi.entries
      (fun en hen x hx => hwf en.1 x (by rw [bucket_mem_entries mi en hen]; exact hx)) m
    refine ⟨m1, h1, fun a nm => ?_⟩
    rw [h2 a nm]
    constructor
    · rintro (h | ⟨en, hen, hea, hn⟩)
      · exact Or.inl h
      · right
        rw [← hea, bucket_mem_entries mi en hen]
        exact hn
    · rintro (h | h)
      · exact Or.inl h
      · right
        cases hg : GoMap.getL a mi.entries with
        | none => simp [bucket_eq_getL, hg] at h
        | some lk =>
          refine ⟨(a, lk), GoMap.mem_of_getL_eq_some hg, rfl, ?_⟩
          simpa [bucket_eq_getL, hg] using h

theorem Merge.node_deviceNames (current node : NUMANode)
    (hwf : ∀ k x, x ∈ node.PCIDevices.bucket k → x.PCIAddr = k) :
    ((Merge.node current node).PCIDevices = none ↔ current.PCIDevices = none) ∧
      ∀ a nm, nm ∈ (Merge.node current node).deviceNames a ↔
        nm ∈ current.deviceNames a ∨ (current.PCIDevices ≠ none ∧ nm ∈ node.deviceNames a) := by
  simp only [NUMANode.deviceNames, Merge.node_PCIDevices]
  cases hm : current.PCIDevices with
  | none =>
    rw [Merge.devices_none]
    exact ⟨Iff.rfl, fun a nm => by simp [bucket_none]⟩
  | some m =>
    obtain ⟨m1, h1, h2⟩ := Merge.devices_names m node.PCIDevices hwf
    rw [h1]
    refine ⟨by simp, fun a nm => ?_⟩
    rw [h2 a nm]
    simp

theorem Merge.combine_order (a b c : Option NUMANode)
    (hk : ∀ y z, b = some y → c = some z →
      PCIDevices.keyed y.PCIDevices ∧ PCIDevices.keyed z.PCIDevices)
    (hnil : ∀ y z, a = none → b = some y → c = some z →
      (y.PCIDevices = none → ∀ k, z.PCIDevices.bucket k = []) ∧
      (z.PCIDevices = none → ∀ k, y.PCIDevices.bucket k = [])) :
    (Merge.combine (Merge.combine a b) c = none ↔ Merge.combine (Merge.combine a c) b = none) ∧
      ∀ n1 n2, Merge.combine (Merge.combine a b) c = some n1 →
        Merge.combine (Merge.combine a c) b = some n2 →
        (∀ x, x ∈ n1.coreIDs ↔ x ∈ n2.coreIDs) ∧
        (∀ r, r ∈ n1.busRanges ↔ r ∈ n2.busRanges) ∧
        (∀ k nm, nm ∈ n1.deviceNames k ↔ nm ∈ n2.deviceNames k) := by
  cases a with
  | none =>
    cases b with
    | none =>
      cases c with
      | none => simp [Merge.combine]
      | some z =>
        refine ⟨by simp [Merge.combine], fun n1 n2 h1 h2 => ?_⟩
        simp only [Merge.combine, Option.some.injEq] at h1 h2
        subst h1
        subst h2
        exact ⟨fun _ => Iff.rfl, fun _ => Iff.rfl, fun _ _ => Iff.rfl⟩
    | some y =>
      cases c with
      | none =>
        refine ⟨by simp [Merge.combine], fun n1 n2 h1 h2 => ?_⟩
        simp only [Merge.combine, Option.some.injEq] at h1 h2
        subst h1
        subst h2
        exact ⟨fun _ => Iff.rfl, fun _ => Iff.rfl, fun _ _ => Iff.rfl⟩
      | some z =>
        refine ⟨by simp [Merge.combine], fun n1 n2 h1 h2 => ?_⟩
        simp only [Merge.combine, Option.some.injEq] at h1 h2
        subst h1
        subst h2
        have hy := (hk y z rfl rfl).1
        have hz := (hk y z rfl rfl).2
        have hn := hnil y z rfl rfl rfl
        refine ⟨fun x => ?_, fun r => ?_, fun k nm => ?_⟩
        · rw [Merge.node_coreIDs, Merge.node_coreIDs]
          exact Or.comm
        · rw [Merge.node_busRanges, Merge.node_busRanges]
          exact Or.comm
        · rw [(Merge.node_deviceNames y z hz).2, (Merge.node_deviceNames z y hy).2]
          by_cases hy0 : y.PCIDevices = none
          · have h3 : z.deviceNames k = [] := by
              simp [NUMANode.deviceNames, hn.1 hy0 k]
            have h4 : y.deviceNames k = [] := by
              simp [NUMANode.deviceNames, hy0, bucket_none]
            simp [hy0, h3, h4]
          · by_cases hz0 : z.PCIDevices = none
            · have h3 : y.deviceNames k = [] := by
                simp [NUMANode.deviceNames, hn.2 hz0 k]
              have h4 : z.deviceNames k = [] := by
                simp [NUMANode.deviceNames, hz0, bucket_none]
              simp [hz0, h3, h4]
            · simp only [ne_eq, hy0, hz0, not_false_eq_true, true_and]
              exact Or.comm
  | some x =>
    cases b with
    | none =>
      cases c with
      | none =>
        refine ⟨by simp [Merge.combine], fun n1 n2 h1 h2 => ?_⟩
        simp only [Merge.combine, Option.some.injEq] at h1 h2
        subst h1
        subst h2
        exact ⟨fun _ => Iff.rfl, fun _ => Iff.rfl, fun _ _ => Iff.rfl⟩
      | some z =>
        refine ⟨by simp [Merge.combine], fun n1 n2 h1 h2 => ?_⟩
        simp only [Merge.combine, Option.some.injEq] at h1 h2
        subst h1
        subst h2
        exact ⟨fun _ => Iff.rfl, fun _ => Iff.rfl, fun _ _ => Iff.rfl⟩
    | some y =>
      cases c with
      | none =>
        refine ⟨by simp [Merge.combine], fun n1 n2 h1 h2 => ?_⟩
        simp only [Merge.combine, Option.some.injEq] at h1 h2
        subst h1
        subst h2
        exact ⟨fun _ => Iff.rfl, fun _ => Iff.rfl, fun _ _ => Iff.rfl⟩
      | some z =>
        refine ⟨by simp [Merge.combine], fun n1 n2 h1 h2 => ?_⟩
        simp only [Merge.combine, Option.some.injEq] at h1 h2
        subst h1
        subst h2
        have hy := (hk y z rfl rfl).1
        have hz := (hk y z rfl rfl).2
        refine ⟨fun v => ?_, fun r => ?_, fun k nm => ?_⟩
        · rw [Merge.node_coreIDs, Merge.node_coreIDs, Merge.node_coreIDs, Merge.node_coreIDs]
          tauto
        · rw [Merge.node_busRanges, Merge.node_busRanges, Merge.node_busRanges,
            Merge.node_busRanges]
          tauto
        · rw [(Merge.node_deviceNames (Merge.node x y) z hz).2,
            (Merge.node_deviceNames (Merge.node x z) y hy).2,
            (Merge.node_deviceNames x y hy).2, (Merge.node_deviceNames x z hz).2]
          have h5 := (Merge.node_deviceNames x y hy).1
          have h6 := (Merge.node_deviceNames x z hz).1
          simp only [ne_eq, h5, h6]
          tauto

/-- C9 as stated fails.  First input: `A` has no node, node 0 of `B` has a nil flat index,
node 0 of `C` holds `nic0`; merging `B` then `C` leaves node 0 without device, merging `C`
then `B` leaves it with `nic0`.  Second input: node 0 of `B` stores `nic0` (address
`0000:00:00.1`) under the key `0000:00:00.2`, node 0 of `C` has an empty flat index; merging
`B` then `C` leaves `nic0` under `0000:00:00.2`, merging `C` then `B` under `0000:00:00.1`. -/
theorem merge_order_changes_devices :
    ((Topology.nodeAt (Topology.Merge (Topology.Merge (some Sample.noNodes)
          (some (Sample.single 0 Sample.bareNode))) (some (Sample.single 0 Sample.nicNodeSet)))
        0).map (fun n => n.deviceNames (Sample.addr 0 0 1)) = some [] ∧
      (Topology.nodeAt (Topology.Merge (Topology.Merge (some Sample.noNodes)
          (some (Sample.single 0 Sample.nicNodeSet))) (some (Sample.single 0 Sample.bareNode)))
        0).map (fun n => n.deviceNames (Sample.addr 0 0 1)) = some ["nic0"]) ∧
    ((Topology.nodeAt (Topology.Merge (Topology.Merge (some Sample.noNodes)
          (some (Sample.single 0 Sample.misfiledNode))) (some (Sample.single 0 Sample.emptyNode)))
        0).map (fun n => (n.deviceNames (Sample.addr 0 0 1), n.deviceNames (Sample.addr 0 0 2)))
        = some ([], ["nic0"]) ∧
      (Topology.nodeAt (Topology.Merge (Topology.Merge (some Sample.noNodes)
          (some (Sample.single 0 Sample.emptyNode))) (some (Sample.single 0 Sample.misfiledNode)))
        0).map (fun n => (n.deviceNames (Sample.addr 0 0 1), n.deviceNames (Sample.addr 0 0 2)))
        = some (["nic0"], [])) := by
  decide

/-- C9, amended: let `A`, `B` and `C` be topologies such that, for every node ID held by both
`B` and `C`, the two nodes store every device of their flat index under the device's own
address and, when `A` holds no node under that ID, a nil flat index on one of the two comes
only with a flat index without devices on the other.  Then merging `B` then `C` into `A` and
merging `C` then `B` into (a copy of) `A` yield the same node IDs and, for every node ID, the
same set of core IDs, the same set of bus (low address, high address) ranges and the same
set of (address bucket, device name) pairs in the flat index. -/
theorem merge_order_same_content (A B C : Topology)
    (hkey : ∀ id y z, Topology.nodeAt (some B) id = some y →
      Topology.nodeAt (some C) id = some z →
      PCIDevices.keyed y.PCIDevices ∧ PCIDevices.keyed z.PCIDevices)
    (hnil : ∀ id y z, Topology.nodeAt (some A) id = none →
      Topology.nodeAt (some B) id = some y → Topology.nodeAt (some C) id = some z →
      (y.PCIDevices = none → ∀ k, z.PCIDevices.bucket k = []) ∧
      (z.PCIDevices = none → ∀ k, y.PCIDevices.bucket k = [])) (id : Nat) :
    (Topology.nodeAt (Topology.Merge (Topology.Merge (some A) (some B)) (some C)) id = none ↔
      Topology.nodeAt (Topology.Merge (Topology.Merge (some A) (some C)) (some B)) id = none) ∧
    ∀ n1 n2,
      Topology.nodeAt (Topology.Merge (Topology.Merge (some A) (some B)) (some C)) id = some n1 →
      Topology.nodeAt (Topology.Merge (Topology.Merge (some A) (some C)) (some B)) id = some n2 →
      (∀ x, x ∈ n1.coreIDs ↔ x ∈ n2.coreIDs) ∧
      (∀ r, r ∈ n1.busRanges ↔ r ∈ n2.busRanges) ∧
      (∀ k nm, nm ∈ n1.deviceNames k ↔ nm ∈ n2.deviceNames k) := by
  obtain ⟨X, hX⟩ : ∃ X, Topology.Merge (some A) (some B) = some X := ⟨_, rfl⟩
  obtain ⟨Y, hY⟩ : ∃ Y, Topology.Merge (some A) (some C) = some Y := ⟨_, rfl⟩
  have h1 : Topology.nodeAt (Topology.Merge (Topology.Merge (some A) (some B)) (some C)) id =
      Merge.combine (Merge.combine (Topology.nodeAt (some A) id) (Topology.nodeAt (some B) id))
        (Topology.nodeAt (some C) id) := by
    rw [hX, nodeAt_Merge_combine, ← hX, nodeAt_Merge_combine]
  have h2 : Topology.nodeAt (Topology.Merge (Topology.Merge (some A) (some C)) (some B)) id =
      Merge.combine (Merge.combine (Topology.nodeAt (some A) id) (Topology.nodeAt (some C) id))
        (Topology.nodeAt (some B) id) := by
    rw [hY, nodeAt_Merge_combine, ← hY, nodeAt_Merge_combine]
  rw [h1, h2]
  exact Merge.combine_order _ _ _ (hkey id) (hnil id)

/-- C9, amended, on two inputs.  First, node 0 everywhere: `A` has core 2 and a bus, `B` has
a nil flat index, `C` has a device at `0000:01:00.0`; both orders give node 0 the same
content.  Second, `A` without nodes, `B` with `nic0` and `C` with the device at
`0000:01:00.0` on node 0: the node adopted first differs, the content does not. -/
theorem merge_order_same_content_witness :
    (∃ n1 n2,
      Topology.nodeAt (Topology.Merge (Topology.Merge (some (Sample.single 0 Sample.coreBusNode))
        (some (Sample.single 0 Sample.bareNode))) (some (Sample.single 0 Sample.devInNode)))
        0 = some n1 ∧
      Topology.nodeAt (Topology.Merge (Topology.Merge (some (Sample.single 0 Sample.coreBusNode))
        (some (Sample.single 0 Sample.devInNode))) (some (Sample.single 0 Sample.bareNode)))
        0 = some n2 ∧
      n1.deviceNames (Sample.addr 1 0 0) = ["in0"] ∧
      (∀ x, x ∈ n1.coreIDs ↔ x ∈ n2.coreIDs) ∧
      (∀ r, r ∈ n1.busRanges ↔ r ∈ n2.busRanges) ∧
      (∀ k nm, nm ∈ n1.deviceNames k ↔ nm ∈ n2.deviceNames k)) ∧
    (∃ n1 n2,
      Topology.nodeAt (Topology.Merge (Topology.Merge (some Sample.noNodes)
        (some (Sample.single 0 Sample.nicNodeUnset))) (some (Sample.single 0 Sample.devInNode)))
        0 = some n1 ∧
      Topology.nodeAt (Topology.Merge (Topology.Merge (some Sample.noNodes)
        (some (Sample.single 0 Sample.devInNode))) (some (Sample.single 0 Sample.nicNodeUnset)))
        0 = some n2 ∧
      n1.deviceNames (Sample.addr 0 0 1) = ["nic0"] ∧
      n1.deviceNames (Sample.addr 1 0 0) = ["in0"] ∧
      (∀ x, x ∈ n1.coreIDs ↔ x ∈ n2.coreIDs) ∧
      (∀ r, r ∈ n1.busRanges ↔ r ∈ n2.busRanges) ∧
      (∀ k nm, nm ∈ n1.deviceNames k ↔ nm ∈ n2.deviceNames k)) := by
  have hbare : PCIDevices.keyed Sample.bareNode.PCIDevices := by
    intro a x hx
    simp [Sample.bareNode, bucket_none] at hx
  have h := merge_order_same_content (Sample.single 0 Sample.coreBusNode)
    (Sample.single 0 Sample.bareNode) (Sample.single 0 Sample.devInNode)
    (fun id y z hy hz => by
      rw [Sample.nodeAt_single 0 id _ y hy, Sample.nodeAt_single 0 id _ z hz]
      exact ⟨hbare, (Sample.index_keyed [Sample.devIn]).2⟩)
    (fun id y z hA hy hz => by
      by_cases hid : id = 0
      · subst hid
        exact absurd hA (by decide)
      · simp [Topology.nodeAt, Sample.single, lookupOf, GoMap.get, GoMap.getL, Ne.symm hid] at hy)
    0
  have h0 := merge_order_same_content Sample.noNodes
    (Sample.single 0 Sample.nicNodeUnset) (Sample.single 0 Sample.devInNode)
    (fun id y z hy hz => by
      rw [Sample.nodeAt_single 0 id _ y hy, Sample.nodeAt_single 0 id _ z hz]
      exact ⟨(Sample.index_keyed [Sample.nicUnset]).2, (Sample.index_keyed [Sample.devIn]).2⟩)
    (fun id y z _ hy hz => by
      rw [Sample.nodeAt_single 0 id _ y hy, Sample.nodeAt_single 0 id _ z hz]
      exact ⟨fun hn => absurd hn (Sample.index_keyed [Sample.nicUnset]).1,
        fun hn => absurd hn (Sample.index_keyed [Sample.devIn]).1⟩)
    0
  exact ⟨⟨_, _, rfl, rfl, by decide, h.2 _ _ rfl rfl⟩,
    ⟨_, _, rfl, rfl, by decide, by decide, h0.2 _ _ rfl rfl⟩⟩

/-! ## Contains, Add and the nil cases -/

/-- C13: for a non-nil bus whose low and high address have the same domain, `Contains` holds
for an address exactly when the address has the domain of the bus and its bus number lies
between the bus numbers of the low and the high address, both included; the device and
function numbers of the address, of the low and of the high address do not change the
result; a nil bus contains nothing. -/
theorem contains_by_domain_and_bus (bus : PCIBus) (addr : PCIAddress)
    (hdom : bus.LowAddress.Domain = bus.HighAddress.Domain) :
    (PCIBus.Contains (some bus) addr = true ↔
      addr.Domain = bus.LowAddress.Domain ∧ addr.Domain = bus.HighAddress.Domain ∧
        bus.LowAddress.Bus ≤ addr.Bus ∧ addr.Bus ≤ bus.HighAddress.Bus) ∧
    (∀ d f dl fl dh fh,
      PCIBus.Contains
        (some { bus with
          LowAddress := { bus.LowAddress with Device := dl, Function := fl }
          HighAddress := { bus.HighAddress with Device := dh, Function := fh } })
        { addr with Device := d, Function := f } = PCIBus.Contains (some bus) addr) ∧
    PCIBus.Contains none addr = false := by
  refine ⟨?_, fun d f dl fl dh fh => rfl, rfl⟩
  simp only [PCIBus.Contains, Bool.and_eq_true, decide_eq_true_eq]
  constructor
  · rintro ⟨⟨h1, h2⟩, h3⟩
    exact ⟨h1.symm, by rw [← hdom]; exact h1.symm, h2, h3⟩
  · rintro ⟨h1, _, h2, h3⟩
    exact ⟨⟨h1.symm, h2⟩, h3⟩

/-- C13 on bus `[0000:00:00.0, 0000:05:00.0]`: `0000:05:1f.7` is contained, `0000:06:00.0`
is not. -/
theorem contains_by_domain_and_bus_witness :
    PCIBus.Contains (some Sample.bus05) (Sample.addr 5 31 7) = true ∧
    PCIBus.Contains (some Sample.bus05) (Sample.addr 6 0 0) = false := by
  have h1 := (contains_by_domain_and_bus Sample.bus05 (Sample.addr 5 31 7) rfl).1
  have h2 := (contains_by_domain_and_bus Sample.bus05 (Sample.addr 6 0 0) rfl).1
  refine ⟨h1.2 (by decide), ?_⟩
  cases h : PCIBus.Contains (some Sample.bus05) (Sample.addr 6 0 0) with
  | false => rfl
  | true => exact absurd (h2.1 h).2.2.2 (by decide)

/-- C18: `Add` of a non-nil device to a non-nil collection leaves under the device's own
address the old bucket (empty if absent) followed by the device and leaves every other
bucket as it was; `Add` of a nil device leaves the collection unchanged; `Add` on a nil
collection leaves it nil. -/
theorem add_appends_to_own_bucket (m : GoMap PCIAddress (List PCIDevice)) (d : PCIDevices)
    (dev : PCIDevice) :
    (∃ m1, PCIDevices.Add (some m) (some dev) = some m1 ∧
      m1.get dev.PCIAddr = some ((m.get dev.PCIAddr).getD [] ++ [dev]) ∧
      ∀ a, a ≠ dev.PCIAddr → m1.get a = m.get a) ∧
    PCIDevices.Add d none = d ∧
    PCIDevices.Add none (some dev) = none := by
  refine ⟨⟨appendAt m dev.PCIAddr dev, rfl, ?_, fun a ha => ?_⟩, ?_, rfl⟩
  · simp [appendAt, GoMap.get_set]
  · simp [appendAt, GoMap.get_set, ha]
  · cases d <;> rfl

/-- C18 on the bucket `0000:00:00.1` holding `nic0`: a second device at that address comes
behind it. -/
theorem add_appends_to_own_bucket_witness :
    PCIDevices.bucket (PCIDevices.Add (Sample.index [Sample.nicUnset]) (some Sample.nicSet))
      (Sample.addr 0 0 1) = [Sample.nicUnset, Sample.nicSet] ∧
    PCIDevices.Add (Sample.index [Sample.nicUnset]) none = Sample.index [Sample.nicUnset] ∧
    PCIDevices.Add none (some Sample.nicSet) = none :=
  ⟨by decide,
    (add_appends_to_own_bucket GoMap.empty (Sample.index [Sample.nicUnset]) Sample.nicSet).2.1,
    (add_appends_to_own_bucket GoMap.empty none Sample.nicSet).2.2⟩

/-- C14: `AddDevice` with a nil device returns the topology it was given (no node, no node
map is created); `Merge` with a nil incoming topology returns the receiver it was given;
`AddDevice` and `Merge` on a nil receiver leave it nil; `Merge` of an incoming topology
without nodes (nil or empty node map) returns the receiver it was given. -/
theorem nil_inputs_are_noops (t incoming : Option Topology) (id : Nat)
    (dev : Option PCIDevice) (noNodes : Topology) :
    Topology.AddDevice t id none = t ∧
    Topology.Merge t none = t ∧
    Topology.AddDevice none id dev = none ∧
    Topology.Merge none incoming = none ∧
    (rangeOf noNodes.NUMANodes = [] → Topology.Merge t (some noNodes) = t) := by
  refine ⟨?_, ?_, rfl, rfl, fun h => ?_⟩
  · cases t <;> rfl
  · cases t <;> rfl
  · cases t with
    | none => rfl
    | some topo => simp [Topology.Merge, h]

/-- C14 on the topology without node map: a nil device and an empty incoming topology leave
the node map nil. -/
theorem nil_inputs_are_noops_witness :
    Topology.AddDevice (some Sample.noNodes) 3 none = some ⟨none⟩ ∧
    Topology.Merge (some Sample.noNodes) (some ⟨some GoMap.empty⟩) = some ⟨none⟩ :=
  ⟨(nil_inputs_are_noops (some Sample.noNodes) none 3 none Sample.noNodes).1,
    (nil_inputs_are_noops (some Sample.noNodes) none 3 none ⟨some GoMap.empty⟩).2.2.2.2 rfl⟩

theorem nodeAt_of_mem_entries (m : GoMap Nat NUMANode) (e : Nat × NUMANode)
    (h : e ∈ m.entries) : Topology.nodeAt (some ⟨some m⟩) e.1 = some e.2 :=
  GoMap.getL_eq_some_of_mem m.nodupKeys h

theorem mem_entries_of_nodeAt (topo : Topology) (id : Nat) (n : NUMANode)
    (h : Topology.nodeAt (some topo) id = some n) : (id, n) ∈ rangeOf topo.NUMANodes := by
  cases hm : topo.NUMANodes with
  | none => simp [Topology.nodeAt, hm, lookupOf] at h
  | some m =>
    simp only [Topology.nodeAt, hm, lookupOf, GoMap.get] at h
    exact GoMap.mem_of_getL_eq_some h

/-- C20: `NumCoresPerNUMA` is 0 for a nil topology and for a topology without nodes; for a
topology with nodes it is the number of cores of one of its nodes, hence `c` when every node
has `c` cores. -/
theorem numcores_of_some_node (topo : Topology) :
    Topology.NumCoresPerNUMA none = 0 ∧
    (rangeOf topo.NUMANodes = [] → Topology.NumCoresPerNUMA (some topo) = 0) ∧
    ((∃ id n, Topology.nodeAt (some topo) id = some n) →
      ∃ id n, Topology.nodeAt (some topo) id = some n ∧
        Topology.NumCoresPerNUMA (some topo) = n.Cores.length) ∧
    (∀ c, (∃ id n, Topology.nodeAt (some topo) id = some n) →
      (∀ id n, Topology.nodeAt (some topo) id = some n → n.Cores.length = c) →
      Topology.NumCoresPerNUMA (some topo) = c) := by
  have key : (∃ id n, Topology.nodeAt (some topo) id = some n) →
      ∃ id n, Topology.nodeAt (some topo) id = some n ∧
        Topology.NumCoresPerNUMA (some topo) = n.Cores.length := by
    rintro ⟨id, n, h⟩
    have hmem := mem_entries_of_nodeAt topo id n h
    cases hm : topo.NUMANodes with
    | none => simp [hm, rangeOf] at hmem
    | some m =>
      cases he : m.entries with
      | nil => simp [hm, rangeOf, he] at hmem
      | cons e rest =>
        refine ⟨e.1, e.2, ?_, ?_⟩
        · have h1 := nodeAt_of_mem_entries m e (by rw [he]; exact List.mem_cons_self _ _)
          simpa [Topology.nodeAt, hm] using h1
        · simp [Topology.NumCoresPerNUMA, hm, rangeOf, he]
  refine ⟨rfl, fun h => by simp [Topology.NumCoresPerNUMA, h], key, fun c hex hall => ?_⟩
  obtain ⟨id, n, h1, h2⟩ := key hex
  rw [h2]
  exact hall id n h1

/-- C20 on two nodes with eight cores each. -/
theorem numcores_of_some_node_witness :
    Topology.NumCoresPerNUMA (some Sample.twoNodes) = 8 := by
  refine (numcores_of_some_node Sample.twoNodes).2.2.2 8 ⟨0, _, rfl⟩ ?_
  intro id n h
  have hmem := mem_entries_of_nodeAt Sample.twoNodes id n h
  simp only [Sample.twoNodes, rangeOf, List.mem_cons, Prod.mk.injEq, List.mem_singleton,
    List.not_mem_nil, or_false] at hmem
  rcases hmem with ⟨_, h1⟩ | ⟨_, h1⟩ <;> rw [h1] <;> rfl

/-! ## AddDevice on the named node -/

theorem NUMANode.addDeviceCore_other (n : NUMANode) (dev : PCIDevice) (a : PCIAddress)
    (ha : a ≠ dev.PCIAddr) :
    lookupOf (NUMANode.addDeviceCore n dev).PCIDevices a = lookupOf n.PCIDevices a := by
  simp only [NUMANode.addDeviceCore, PCIDevices.Add]
  cases hd : n.PCIDevices with
  | none =>
    rw [lookupOf_appendAt_ne _ dev ha]
    rfl
  | some m => rw [lookupOf_appendAt_ne _ dev ha]

theorem nodeAt_AddDevice_other (t : Topology) (numaID other : Nat) (dev : PCIDevice)
    (h : other ≠ numaID) :
    Topology.nodeAt (Topology.AddDevice (some t) numaID (some dev)) other =
      Topology.nodeAt (some t) other := by
  simp only [Topology.AddDevice, Topology.nodeAt, lookupOf, GoMap.get_set, h, if_false]
  cases hn : t.NUMANodes with
  | none => rfl
  | some m => rfl

/-- C11: after `AddDevice(n, d)` of a non-nil device on a non-nil topology a node is stored
under `n`.  If none was there before, the node has ID `n`, no cores, no buses and a flat
index whose only bucket is the one at the address of `d`, holding exactly `d`.  If one was
there, it keeps its ID and cores, `d` is the last element of its bucket at the address of
`d` behind the old bucket, and every other bucket of its flat index is as before.  The node
under every other ID is unchanged. -/
theorem adddevice_attaches_to_named_node (t : Topology) (numaID : Nat) (dev : PCIDevice) :
    ∃ n, Topology.nodeAt (Topology.AddDevice (some t) numaID (some dev)) numaID = some n ∧
      (Topology.nodeAt (some t) numaID = none →
        n.ID = numaID ∧ n.Cores = [] ∧ n.PCIBuses = [] ∧
        lookupOf n.PCIDevices dev.PCIAddr = some [dev] ∧
        ∀ a, a ≠ dev.PCIAddr → lookupOf n.PCIDevices a = none) ∧
      (∀ old, Topology.nodeAt (some t) numaID = some old →
        n.ID = old.ID ∧ n.Cores = old.Cores ∧
        n.PCIDevices.bucket dev.PCIAddr = old.PCIDevices.bucket dev.PCIAddr ++ [dev] ∧
        ∀ a, a ≠ dev.PCIAddr → lookupOf n.PCIDevices a = lookupOf old.PCIDevices a) ∧
      ∀ other, other ≠ numaID →
        Topology.nodeAt (Topology.AddDevice (some t) numaID (some dev)) other =
          Topology.nodeAt (some t) other := by
  refine ⟨_, nodeAt_AddDevice t numaID dev, fun hnone => ?_, fun old hold => ?_,
    fun other h => nodeAt_AddDevice_other t numaID other dev h⟩
  · rw [hnone]
    refine ⟨rfl, rfl, rfl, ?_, fun a ha => ?_⟩
    · simp [NUMANode.addDeviceCore, PCIDevices.Add, lookupOf, appendAt, GoMap.get_set]
      rfl
    · rw [NUMANode.addDeviceCore_other _ dev a ha]
      rfl
  · rw [hold]
    exact ⟨rfl, rfl, NUMANode.addDeviceCore_flat old dev,
      fun a ha => NUMANode.addDeviceCore_other old dev a ha⟩

/-- C11 on the topology without node map ("add to empty"): node 1 is created with the
device alone; on a topology holding node 0, node 0 gets the device behind its own and
node 2 is not created. -/
theorem adddevice_attaches_to_named_node_witness :
    (∃ n, Topology.nodeAt (Topology.AddDevice (some Sample.noNodes) 1 (some Sample.nicSet)) 1
        = some n ∧
      n.ID = 1 ∧ n.Cores = [] ∧ n.PCIBuses = [] ∧
      lookupOf n.PCIDevices Sample.nicSet.PCIAddr = some [Sample.nicSet]) ∧
    (∃ n, Topology.nodeAt (Topology.AddDevice (some (Sample.single 0 Sample.nicNodeUnset)) 0
        (some Sample.nicSet)) 0 = some n ∧
      n.Cores = [⟨2⟩] ∧
      n.PCIDevices.bucket (Sample.addr 0 0 1) = [Sample.nicUnset, Sample.nicSet]) ∧
    Topology.nodeAt (Topology.AddDevice (some (Sample.single 0 Sample.nicNodeUnset)) 0
        (some Sample.nicSet)) 2 = none := by
  refine ⟨?_, ?_, ?_⟩
  · obtain ⟨n, h1, h2, _, _⟩ :=
      adddevice_attaches_to_named_node Sample.noNodes 1 Sample.nicSet
    obtain ⟨h3, h4, h5, h6, _⟩ := h2 (by decide)
    exact ⟨n, h1, h3, h4, h5, h6⟩
  · obtain ⟨n, h1, _, h2, _⟩ :=
      adddevice_attaches_to_named_node (Sample.single 0 Sample.nicNodeUnset) 0 Sample.nicSet
    obtain ⟨_, h4, h5, _⟩ := h2 Sample.nicNodeUnset (by decide)
    exact ⟨n, h1, h4, h5.trans (by decide)⟩
  · obtain ⟨_, _, _, _, h2⟩ :=
      adddevice_attaches_to_named_node (Sample.single 0 Sample.nicNodeUnset) 0 Sample.nicSet
    exact (h2 2 (by decide)).trans (by decide)

/-! ## TopologyFactory -/

theorem TopologyFactory.loop_ok {σ ε : Type} (providers : List (TopologyProvider σ ε))
    (newTopo : Option Topology) (s s1 : σ) (topos : List (Option Topology))
    (h : Spec.allSucceed providers s = some (topos, s1)) :
    TopologyFactory.loop newTopo providers s =
      (Except.ok (topos.foldl Topology.Merge newTopo), s1) := by
  induction providers generalizing newTopo s topos with
  | nil =>
    simp only [Spec.allSucceed, Option.some.injEq, Prod.mk.injEq] at h
    obtain ⟨h1, h2⟩ := h
    subst h1
    subst h2
    rfl
  | cons prov rest ih =>
    simp only [Spec.allSucceed] at h
    simp only [TopologyFactory.loop]
    cases hp : prov s with
    | mk r s2 =>
      cases r with
      | error e => simp [hp] at h
      | ok topo =>
        simp only [hp] at h
        cases hrest : Spec.allSucceed rest s2 with
        | none => simp [hrest] at h
        | some r2 =>
          simp only [hrest, Option.map_some', Option.some.injEq, Prod.mk.injEq] at h
          obtain ⟨h1, h2⟩ := h
          subst h1
          subst h2
          exact ih (Topology.Merge newTopo topo) s2 r2.1 hrest

theorem TopologyFactory.loop_error {σ ε : Type} (pre : List (TopologyProvider σ ε))
    (prov : TopologyProvider σ ε) (post : List (TopologyProvider σ ε))
    (newTopo : Option Topology) (s s1 s2 : σ) (topos : List (Option Topology)) (err : ε)
    (h : Spec.allSucceed pre s = some (topos, s1)) (hp : prov s1 = (Except.error err, s2)) :
    TopologyFactory.loop newTopo (pre ++ prov :: post) s = (Except.error err, s2) := by
  induction pre generalizing newTopo s topos with
  | nil =>
    simp only [Spec.allSucceed, Option.some.injEq, Prod.mk.injEq] at h
    obtain ⟨_, h2⟩ := h
    subst h2
    simp only [List.nil_append, TopologyFactory.loop, hp]
  | cons p rest ih =>
    simp only [Spec.allSucceed] at h
    simp only [List.cons_append, TopologyFactory.loop]
    cases hq : p s with
    | mk r s3 =>
      cases r with
      | error e => simp [hq] at h
      | ok topo =>
        simp only [hq] at h
        cases hrest : Spec.allSucceed rest s3 with
        | none => simp [hrest] at h
        | some r2 =>
          simp only [hrest, Option.map_some', Option.some.injEq, Prod.mk.injEq] at h
          obtain ⟨_, h2⟩ := h
          subst h2
          exact ih (Topology.Merge newTopo topo) s3 r2.1 hrest

/-- C15: if every provider succeeds, `GetTopology` returns the topology obtained by merging
their results, in registration order, into an initially empty topology; if the providers
before some provider succeed and that provider fails, `GetTopology` returns the error of
that provider and no topology, whatever providers come after it: they are not called, the
world is left in the state after the failing call. -/
theorem gettopology_fail_fast_fold {σ ε : Type} (s : σ) :
    (∀ (providers : List (TopologyProvider σ ε)) topos s1,
      Spec.allSucceed providers s = some (topos, s1) →
      TopologyFactory.GetTopology providers s = (Except.ok (Spec.mergeAll topos), s1)) ∧
    (∀ (pre : List (TopologyProvider σ ε)) prov post topos s1 err s2,
      Spec.allSucceed pre s = some (topos, s1) → prov s1 = (Except.error err, s2) →
      TopologyFactory.GetTopology (pre ++ prov :: post) s = (Except.error err, s2)) :=
  ⟨fun providers topos s1 h => TopologyFactory.loop_ok providers _ s s1 topos h,
    fun pre prov post topos s1 err s2 h hp =>
      TopologyFactory.loop_error pre prov post _ s s1 s2 topos err h hp⟩

/-- C15 on three providers counting their calls: two succeeding providers give the merge of
their topologies after two calls; with a failing provider in second place the error is
returned after two calls and the third provider is not called. -/
theorem gettopology_fail_fast_fold_witness :
    TopologyFactory.GetTopology
        [Sample.provide (Sample.single 0 Sample.nicNodeUnset),
          Sample.provide (Sample.single 0 Sample.nicNodeSet)] 0 =
      (Except.ok (Topology.Merge (Topology.Merge (some ⟨none⟩)
          (some (Sample.single 0 Sample.nicNodeUnset)))
          (some (Sample.single 0 Sample.nicNodeSet))), 2) ∧
    TopologyFactory.GetTopology
        ([Sample.provide (Sample.single 0 Sample.nicNodeUnset)] ++
          Sample.failWith "no fabric" :: [Sample.provide (Sample.single 0 Sample.nicNodeSet)])
        0 = (Except.error "no fabric", 2) :=
  ⟨(gettopology_fail_fast_fold 0).1
      [Sample.provide (Sample.single 0 Sample.nicNodeUnset),
        Sample.provide (Sample.single 0 Sample.nicNodeSet)]
      [some (Sample.single 0 Sample.nicNodeUnset), some (Sample.single 0 Sample.nicNodeSet)]
      2 rfl,
    (gettopology_fail_fast_fold 0).2 [Sample.provide (Sample.single 0 Sample.nicNodeUnset)]
      (Sample.failWith "no fabric") [Sample.provide (Sample.single 0 Sample.nicNodeSet)]
      [some (Sample.single 0 Sample.nicNodeUnset)] 1 "no fabric" 2 rfl rfl⟩

/-! ## AllDevices -/

theorem GoMap.setL_keys_of_not_mem {K V : Type} [DecidableEq K] (k : K) (v : V)
    (l : List (K × V)) (h : k ∉ l.map Prod.fst) :
    (GoMap.setL k v l).map Prod.fst = l.map Prod.fst ++ [k] := by
  induction l with
  | nil => rfl
  | cons e rest ih =>
    simp only [List.map_cons, List.mem_cons, not_or] at h
    have h1 : ¬ e.1 = k := fun h2 => h.1 h2.symm
    simp [GoMap.setL, h1, ih h.2]

theorem AllDevices.bucketLoop_cons (acc : GoMap String PCIDevice) (d : PCIDevice)
    (rest : List PCIDevice) :
    AllDevices.bucketLoop acc (d :: rest) = AllDevices.bucketLoop (acc.set d.Name d) rest := rfl

theorem AllDevices.bucketLoop_append (acc : GoMap String PCIDevice) (l1 l2 : List PCIDevice) :
    AllDevices.bucketLoop acc (l1 ++ l2) =
      AllDevices.bucketLoop (AllDevices.bucketLoop acc l1) l2 := by
  simp [AllDevices.bucketLoop, List.foldl_append]

/-- A value of the result is a device of the list with that name, or was there before. -/
theorem AllDevices.bucketLoop_get (l : List PCIDevice) (acc : GoMap String PCIDevice)
    (nm : String) (v : PCIDevice) (h : (AllDevices.bucketLoop acc l).get nm = some v) :
    (v ∈ l ∧ v.Name = nm) ∨ acc.get nm = some v := by
  induction l generalizing acc with
  | nil => exact Or.inr h
  | cons d rest ih =>
    rw [AllDevices.bucketLoop_cons] at h
    rcases ih _ h with h1 | h1
    · exact Or.inl ⟨List.mem_cons_of_mem _ h1.1, h1.2⟩
    · rw [GoMap.get_set] at h1
      by_cases hn : nm = d.Name
      · simp only [hn, if_true, Option.some.injEq] at h1
        subst h1
        exact Or.inl ⟨List.mem_cons_self _ _, hn.symm⟩
      · simp only [hn, if_false] at h1
        exact Or.inr h1

theorem AllDevices.bucketLoop_keeps (l : List PCIDevice) (acc : GoMap String PCIDevice)
    (nm : String) (h : ∃ v, acc.get nm = some v) :
    ∃ v, (AllDevices.bucketLoop acc l).get nm = some v := by
  induction l generalizing acc with
  | nil => exact h
  | cons d rest ih =>
    rw [AllDevices.bucketLoop_cons]
    apply ih
    rw [GoMap.get_set]
    by_cases hn : nm = d.Name
    · exact ⟨d, by simp [hn]⟩
    · simpa [hn] using h

theorem AllDevices.bucketLoop_has (l : List PCIDevice) (acc : GoMap String PCIDevice)
    (x : PCIDevice) (hx : x ∈ l) : ∃ v, (AllDevices.bucketLoop acc l).get x.Name = some v := by
  induction l generalizing acc with
  | nil => simp at hx
  | cons d rest ih =>
    rw [AllDevices.bucketLoop_cons]
    rcases List.mem_cons.1 hx with h | h
    · subst h
      exact AllDevices.bucketLoop_keeps rest _ _ ⟨x, GoMap.get_set_eq _ _ _⟩
    · exact ih _ h

theorem AllDevices.bucketLoop_skip (l : List PCIDevice) (acc : GoMap String PCIDevice)
    (nm : String) (h : nm ∉ l.map PCIDevice.Name) :
    (AllDevices.bucketLoop acc l).get nm = acc.get nm := by
  induction l generalizing acc with
  | nil => rfl
  | cons d rest ih =>
    simp only [List.map_cons, List.mem_cons, not_or] at h
    rw [AllDevices.bucketLoop_cons, ih _ h.2, GoMap.get_set, if_neg h.1]

theorem AllDevices.bucketLoop_distinct (l : List PCIDevice) (acc : GoMap String PCIDevice)
    (hn : (acc.keys ++ l.map PCIDevice.Name).Nodup) :
    (AllDevices.bucketLoop acc l).keys = acc.keys ++ l.map PCIDevice.Name ∧
      ∀ x ∈ l, (AllDevices.bucketLoop acc l).get x.Name = some x := by
  induction l generalizing acc with
  | nil => exact ⟨by simp [AllDevices.bucketLoop], fun x hx => by simp at hx⟩
  | cons d rest ih =>
    have hd : d.Name ∉ acc.keys := by
      intro hmem
      have := List.nodup_append.1 hn
      exact this.2.2 hmem (by simp)
    have hkeys : (acc.set d.Name d).keys = acc.keys ++ [d.Name] :=
      GoMap.setL_keys_of_not_mem _ _ _ hd
    have hn1 : ((acc.set d.Name d).keys ++ rest.map PCIDevice.Name).Nodup := by
      rw [hkeys, List.append_assoc]
      simpa using hn
    obtain ⟨h1, h2⟩ := ih (acc.set d.Name d) hn1
    rw [AllDevices.bucketLoop_cons]
    refine ⟨by rw [h1, hkeys]; simp, fun x hx => ?_⟩
    rcases List.mem_cons.1 hx with h | h
    · subst h
      have hrest : x.Name ∉ rest.map PCIDevice.Name := by
        have h3 := (List.nodup_append.1 hn).2.1
        simp only [List.map_cons, List.nodup_cons] at h3
        exact h3.1
      rw [AllDevices.bucketLoop_skip rest _ _ hrest, GoMap.get_set_eq]
    · exact h2 x h

theorem AllDevices.nodeLoop_eq (n : NUMANode) (acc : GoMap String PCIDevice) :
    AllDevices.nodeLoop acc n = AllDevices.bucketLoop acc n.flatDevices := by
  have key : ∀ (l : List (PCIAddress × List PCIDevice)) (acc : GoMap String PCIDevice),
      l.foldl (fun acc e => AllDevices.bucketLoop acc e.2) acc =
        AllDevices.bucketLoop acc (l.flatMap (fun e => e.2)) := by
    intro l
    induction l with
    | nil => intro acc; rfl
    | cons e rest ih =>
      intro acc
      rw [List.foldl_cons, ih, List.flatMap_cons, AllDevices.bucketLoop_append]
  exact key _ acc

theorem Topology.AllDevices_eq (t : Option Topology) :
    Topology.AllDevices t = AllDevices.bucketLoop GoMap.empty (Topology.flatDevices t) := by
  cases t with
  | none => rfl
  | some topo =>
    have key : ∀ (l : List (Nat × NUMANode)) (acc : GoMap String PCIDevice),
        l.foldl (fun acc e => AllDevices.nodeLoop acc e.2) acc =
          AllDevices.bucketLoop acc (l.flatMap (fun e => e.2.flatDevices)) := by
      intro l
      induction l with
      | nil => intro acc; rfl
      | cons e rest ih =>
        intro acc
        rw [List.foldl_cons, ih, List.flatMap_cons, AllDevices.bucketLoop_append,
          AllDevices.nodeLoop_eq]
    exact key _ _

theorem NUMANode.mem_node_flatDevices (n : NUMANode) (x : PCIDevice) :
    x ∈ n.flatDevices ↔ ∃ a, x ∈ n.PCIDevices.bucket a := by
  simp only [NUMANode.flatDevices, List.mem_flatMap]
  cases hd : n.PCIDevices with
  | none => simp [rangeOf, bucket_none]
  | some m =>
    simp only [rangeOf]
    constructor
    · rintro ⟨e, he, hx⟩
      exact ⟨e.1, by rw [bucket_mem_entries m e he]; exact hx⟩
    · rintro ⟨a, hx⟩
      cases hg : GoMap.getL a m.entries with
      | none => simp [bucket_eq_getL, hg] at hx
      | some b =>
        exact ⟨(a, b), GoMap.mem_of_getL_eq_some hg, by simpa [bucket_eq_getL, hg] using hx⟩

theorem Topology.mem_flatDevices (t : Option Topology) (x : PCIDevice) :
    x ∈ Topology.flatDevices t ↔
      ∃ id n a, Topology.nodeAt t id = some n ∧ x ∈ n.PCIDevices.bucket a := by
  cases t with
  | none => simp [Topology.flatDevices, Topology.nodeAt]
  | some topo =>
    simp only [Topology.flatDevices, List.mem_flatMap, NUMANode.mem_node_flatDevices]
    constructor
    · rintro ⟨e, he, a, hx⟩
      refine ⟨e.1, e.2, a, ?_, hx⟩
      cases hm : topo.NUMANodes with
      | none => simp [hm, rangeOf] at he
      | some m =>
        rw [hm] at he
        have h1 := nodeAt_of_mem_entries m e he
        simpa [Topology.nodeAt, hm] using h1
    · rintro ⟨id, n, a, hn, hx⟩
      exact ⟨(id, n), mem_entries_of_nodeAt topo id n hn, a, hx⟩

/-- C17: a name is a key of `AllDevices` exactly when some device with that name is in the
flat index of some node; the value under a key is a device of that name from the flat index
of some node; when the names of all devices of the flat indexes are pairwise distinct, every
device is the value under its name and the result has as many entries as there are devices;
when no node has a device (nil topology, no nodes, nodes without devices) the result has no
entry. -/
theorem alldevices_flattens_by_name (t : Option Topology) :
    (∀ nm, (∃ v, (Topology.AllDevices t).get nm = some v) ↔
      ∃ id n a x, Topology.nodeAt t id = some n ∧ x ∈ n.PCIDevices.bucket a ∧ x.Name = nm) ∧
    (∀ nm v, (Topology.AllDevices t).get nm = some v →
      v.Name = nm ∧ ∃ id n a, Topology.nodeAt t id = some n ∧ v ∈ n.PCIDevices.bucket a) ∧
    (((Topology.flatDevices t).map PCIDevice.Name).Nodup →
      (Topology.AllDevices t).entries.length = (Topology.flatDevices t).length ∧
      ∀ id n a x, Topology.nodeAt t id = some n → x ∈ n.PCIDevices.bucket a →
        (Topology.AllDevices t).get x.Name = some x) ∧
    ((∀ id n a, Topology.nodeAt t id = some n → n.PCIDevices.bucket a = []) →
      (Topology.AllDevices t).entries = []) := by
  have hget : ∀ nm v, (Topology.AllDevices t).get nm = some v →
      v.Name = nm ∧ ∃ id n a, Topology.nodeAt t id = some n ∧ v ∈ n.PCIDevices.bucket a := by
    intro nm v h
    rw [Topology.AllDevices_eq] at h
    rcases AllDevices.bucketLoop_get _ _ nm v h with h1 | h1
    · exact ⟨h1.2, (Topology.mem_flatDevices t v).1 h1.1⟩
    · simp [GoMap.get, GoMap.empty, GoMap.getL] at h1
  refine ⟨fun nm => ⟨?_, ?_⟩, hget, fun hn => ?_, fun hall => ?_⟩
  · rintro ⟨v, h⟩
    obtain ⟨h1, id, n, a, h2, h3⟩ := hget nm v h
    exact ⟨id, n, a, v, h2, h3, h1⟩
  · rintro ⟨id, n, a, x, h1, h2, h3⟩
    rw [Topology.AllDevices_eq, ← h3]
    exact AllDevices.bucketLoop_has _ _ x ((Topology.mem_flatDevices t x).2 ⟨id, n, a, h1, h2⟩)
  · have h1 := AllDevices.bucketLoop_distinct (Topology.flatDevices t) GoMap.empty
      (by simpa [GoMap.keys, GoMap.empty] using hn)
    rw [← Topology.AllDevices_eq] at h1
    refine ⟨?_, fun id n a x hnode hx =>
      h1.2 x ((Topology.mem_flatDevices t x).2 ⟨id, n, a, hnode, hx⟩)⟩
    have h2 := congrArg List.length h1.1
    simpa [GoMap.keys, GoMap.empty] using h2
  · have h1 : Topology.flatDevices t = [] := by
      rw [List.eq_nil_iff_forall_not_mem]
      intro x hx
      obtain ⟨id, n, a, h2, h3⟩ := (Topology.mem_flatDevices t x).1 hx
      rw [hall id n a h2] at h3
      simp at h3
    rw [Topology.AllDevices_eq, h1]
    rfl

/-- C17 on node 1 with `test0` and `test1` sharing one address: both names are keys, each
with its device, and the result has two entries. -/
theorem alldevices_flattens_by_name_witness :
    (Topology.AllDevices (some (Sample.single 1 Sample.sharedAddrNode))).entries.length = 2 ∧
    (Topology.AllDevices (some (Sample.single 1 Sample.sharedAddrNode))).get "test1" =
      some ⟨"test1", DeviceTypeOFIDomain, Sample.addr 1 1 1, Float64.zero⟩ ∧
    (Topology.AllDevices none).entries = [] := by
  have h := (alldevices_flattens_by_name (some (Sample.single 1 Sample.sharedAddrNode))).2.2.1
    (by decide)
  exact ⟨h.1.trans (by decide),
    h.2 1 Sample.sharedAddrNode (Sample.addr 1 1 1)
      ⟨"test1", DeviceTypeOFIDomain, Sample.addr 1 1 1, Float64.zero⟩ (by decide) (by decide),
    (alldevices_flattens_by_name none).2.2.2 (fun id n a hn => by simp [Topology.nodeAt] at hn)⟩

/-! ## Keys -/

theorem PCIAddress.lt_irrefl (a : PCIAddress) : ¬ PCIAddress.lt a a := by
  unfold PCIAddress.lt
  omega

theorem PCIAddress.lt_trans {a b c : PCIAddress} (h1 : PCIAddress.lt a b)
    (h2 : PCIAddress.lt b c) : PCIAddress.lt a c := by
  unfold PCIAddress.lt at *
  omega

theorem PCIAddress.lt_of_not_lt {a b : PCIAddress} (hne : a ≠ b) (h : ¬ PCIAddress.lt a b) :
    PCIAddress.lt b a := by
  have h1 : ¬ (a.Domain = b.Domain ∧ a.Bus = b.Bus ∧ a.Device = b.Device ∧
      a.Function = b.Function) := by
    rintro ⟨h2, h3, h4, h5⟩
    apply hne
    cases a
    cases b
    simp_all
  unfold PCIAddress.lt at *
  omega

theorem PCIAddressSet.mem_Add (a x : PCIAddress) (set : PCIAddressSet) :
    x ∈ PCIAddressSet.Add a set ↔ x = a ∨ x ∈ set := by
  induction set with
  | nil => simp [PCIAddressSet.Add]
  | cons b rest ih =>
    simp only [PCIAddressSet.Add]
    by_cases h1 : a = b
    · subst h1
      simp
    · by_cases h2 : PCIAddress.lt a b
      · simp [h1, h2]
      · simp only [h1, h2, if_false, List.mem_cons, ih]
        tauto

theorem PCIAddressSet.pairwise_Add (a : PCIAddress) (set : PCIAddressSet)
    (h : List.Pairwise PCIAddress.lt set) : List.Pairwise PCIAddress.lt (PCIAddressSet.Add a set) := by
  induction set with
  | nil => simp [PCIAddressSet.Add]
  | cons b rest ih =>
    rw [List.pairwise_cons] at h
    simp only [PCIAddressSet.Add]
    by_cases h1 : a = b
    · simp only [h1, if_true]
      exact List.pairwise_cons.2 h
    · by_cases h2 : PCIAddress.lt a b
      · simp only [h1, h2, if_false, if_true]
        refine List.pairwise_cons.2 ⟨fun x hx => ?_, List.pairwise_cons.2 h⟩
        rcases List.mem_cons.1 hx with h3 | h3
        · rw [h3]
          exact h2
        · exact PCIAddress.lt_trans h2 (h.1 x h3)
      · simp only [h1, h2, if_false]
        refine List.pairwise_cons.2 ⟨fun x hx => ?_, ih h.2⟩
        rcases (PCIAddressSet.mem_Add a x rest).1 hx with h3 | h3
        · rw [h3]
          exact PCIAddress.lt_of_not_lt h1 h2
        · exact h.1 x h3

theorem PCIAddressSet.length_Add (a : PCIAddress) (set : PCIAddressSet) (h : a ∉ set) :
    (PCIAddressSet.Add a set).length = set.length + 1 := by
  induction set with
  | nil => rfl
  | cons b rest ih =>
    simp only [List.mem_cons, not_or] at h
    simp only [PCIAddressSet.Add, h.1, if_false]
    by_cases h2 : PCIAddress.lt a b
    · simp [h2]
    · simp [h2, ih h.2]

theorem PCIDevices.Keys_fold (l : List (PCIAddress × List PCIDevice))
    (hn : (l.map Prod.fst).Nodup) (set : PCIAddressSet)
    (hs : List.Pairwise PCIAddress.lt set) (hd : ∀ a ∈ l.map Prod.fst, a ∉ set) :
    (∀ x, x ∈ l.foldl (fun set e => PCIAddressSet.Add e.1 set) set ↔
      x ∈ set ∨ x ∈ l.map Prod.fst) ∧
    List.Pairwise PCIAddress.lt (l.foldl (fun set e => PCIAddressSet.Add e.1 set) set) ∧
    (l.foldl (fun set e => PCIAddressSet.Add e.1 set) set).length = set.length + l.length := by
  induction l generalizing set with
  | nil => simp [hs]
  | cons e rest ih =>
    simp only [List.map_cons, List.nodup_cons] at hn
    have he : e.1 ∉ set := hd e.1 (by simp)
    have hd1 : ∀ a ∈ rest.map Prod.fst, a ∉ PCIAddressSet.Add e.1 set := by
      intro a ha hmem
      rcases (PCIAddressSet.mem_Add e.1 a set).1 hmem with h | h
      · exact hn.1 (h ▸ ha)
      · exact hd a (by simp [List.mem_map.1 ha]) h
    obtain ⟨h1, h2, h3⟩ := ih hn.2 (PCIAddressSet.Add e.1 set)
      (PCIAddressSet.pairwise_Add e.1 set hs) hd1
    rw [List.foldl_cons]
    refine ⟨fun x => ?_, h2, ?_⟩
    · rw [h1 x, PCIAddressSet.mem_Add, List.map_cons, List.mem_cons]
      tauto
    · rw [h3, PCIAddressSet.length_Add e.1 set he, List.length_cons]
      omega

theorem lookupOf_isSome_iff {V : Type} (d : Option (GoMap PCIAddress V)) (a : PCIAddress) :
    (lookupOf d a).isSome = true ↔ a ∈ (rangeOf d).map Prod.fst := by
  cases d with
  | none => simp [lookupOf, rangeOf]
  | some m =>
    simp only [lookupOf, rangeOf, GoMap.get]
    constructor
    · intro h
      cases hg : GoMap.getL a m.entries with
      | none => simp [hg] at h
      | some v => exact List.mem_map.2 ⟨(a, v), GoMap.mem_of_getL_eq_some hg, rfl⟩
    · intro h
      obtain ⟨e, he, hea⟩ := List.mem_map.1 h
      have := GoMap.getL_eq_some_of_mem m.nodupKeys (k := e.1) (v := e.2) he
      rw [← hea, this]
      rfl

/-- C19: for every collection, nil and empty included, `Keys` returns each address that is a
key of the collection (also the keys of empty buckets) and nothing else, each exactly once,
in ascending order by domain, then bus, then device, then function; its length is the number
of buckets. -/
theorem keys_sorted_exact (d : PCIDevices) :
    (∀ a, a ∈ PCIDevices.Keys d ↔ (lookupOf d a).isSome = true) ∧
    (PCIDevices.Keys d).Nodup ∧
    List.Pairwise PCIAddress.lt (PCIDevices.Keys d) ∧
    (PCIDevices.Keys d).length = (rangeOf d).length := by
  have hn : ((rangeOf d).map Prod.fst).Nodup := by
    cases d with
    | none => simp [rangeOf]
    | some m => exact m.nodupKeys
  obtain ⟨h1, h2, h3⟩ := PCIDevices.Keys_fold (rangeOf d) hn [] List.Pairwise.nil
    (fun a _ => by simp)
  refine ⟨fun a => ?_, ?_, h2, by simpa using h3⟩
  · rw [lookupOf_isSome_iff]
    simpa using h1 a
  · refine List.Pairwise.imp ?_ h2
    intro a b hab heq
    rw [heq] at hab
    exact PCIAddress.lt_irrefl b hab

/-- C19 on a collection iterated as `0000:02:00.0` (two devices), `0000:00:01.0` (empty
bucket), `0000:01:00.1`; on the nil collection. -/
theorem keys_sorted_exact_witness :
    PCIDevices.Keys Sample.unsortedIndex =
      [Sample.addr 0 1 0, Sample.addr 1 0 1, Sample.addr 2 0 0] ∧
    (PCIDevices.Keys Sample.unsortedIndex).length = 3 ∧
    PCIDevices.Keys none = [] :=
  ⟨by decide, (keys_sorted_exact Sample.unsortedIndex).2.2.2.trans (by decide), by decide⟩

/-! ## Nothing is removed -/

theorem PCIBus.keeps_self (b : PCIBus) : PCIBus.keeps b b :=
  ⟨rfl, rfl, fun _ => ⟨[], by simp⟩⟩

theorem PCIBus.keeps_all (l : List PCIBus) : List.Forall₂ PCIBus.keeps l l := by
  induction l with
  | nil => exact List.Forall₂.nil
  | cons b rest ih => exact List.Forall₂.cons (PCIBus.keeps_self b) ih

theorem NUMANode.keeps_refl (n : NUMANode) : NUMANode.keeps n n :=
  ⟨⟨[], by simp⟩, ⟨n.PCIBuses, [], by simp, PCIBus.keeps_all _⟩, fun _ => ⟨[], by simp⟩⟩

theorem PCIBus.keeps_after_add (b : PCIBus) (dev : PCIDevice) :
    PCIBus.keeps b (PCIBus.addDeviceCore b dev) := by
  simp only [PCIBus.addDeviceCore]
  by_cases hc : PCIBus.Contains (some b) dev.PCIAddr = true
  · simp only [hc, Bool.not_true, Bool.false_eq_true, if_false]
    refine ⟨rfl, rfl, fun a => ?_⟩
    cases hd : b.PCIDevices with
    | none =>
      rw [bucket_appendAt]
      by_cases ha : a = dev.PCIAddr
      · exact ⟨[dev.ident], by simp [ha, bucket_none, bucket_empty]⟩
      · exact ⟨[], by simp [ha, bucket_none, bucket_empty]⟩
    | some m =>
      rw [bucket_appendAt]
      by_cases ha : a = dev.PCIAddr
      · exact ⟨[dev.ident], by simp [ha]⟩
      · exact ⟨[], by simp [ha]⟩
  · simp only [hc, Bool.not_false, if_true]
    exact PCIBus.keeps_self b

theorem NUMANode.keeps_addToFirstBus (dev : PCIDevice) (l : List PCIBus) :
    List.Forall₂ PCIBus.keeps l (NUMANode.addToFirstBus dev l) := by
  induction l with
  | nil => exact List.Forall₂.nil
  | cons b rest ih =>
    simp only [NUMANode.addToFirstBus]
    split
    · exact List.Forall₂.cons (PCIBus.keeps_after_add b dev) (PCIBus.keeps_all rest)
    · exact List.Forall₂.cons (PCIBus.keeps_self b) ih

theorem NUMANode.keeps_addDeviceCore (n : NUMANode) (dev : PCIDevice) :
    NUMANode.keeps n (NUMANode.addDeviceCore n dev) := by
  refine ⟨⟨[], by simp [NUMANode.addDeviceCore]⟩,
    ⟨NUMANode.addToFirstBus dev n.PCIBuses, [], by simp [NUMANode.addDeviceCore],
      NUMANode.keeps_addToFirstBus dev n.PCIBuses⟩, fun a => ?_⟩
  by_cases ha : a = dev.PCIAddr
  · rw [ha, NUMANode.addDeviceCore_flat]
    exact ⟨[dev.ident], by simp⟩
  · have h := NUMANode.addDeviceCore_other n dev a ha
    refine ⟨[], ?_⟩
    simp only [PCIDevices.bucket, h, List.append_nil]

theorem map_head_of_getElem {α β : Type} (f : α → β) (l1 l2 : List α)
    (h : ∀ (i : Nat) (x : α), l1[i]? = some x → ∃ y, l2[i]? = some y ∧ f y = f x) :
    ∃ ext, l2.map f = l1.map f ++ ext := by
  induction l1 generalizing l2 with
  | nil => exact ⟨l2.map f, by simp⟩
  | cons x rest ih =>
    obtain ⟨y, hy, hf⟩ := h 0 x (by simp)
    cases l2 with
    | nil => simp at hy
    | cons y2 rest2 =>
      simp only [List.getElem?_cons_zero, Option.some.injEq] at hy
      subst hy
      obtain ⟨ext, hext⟩ := ih rest2 (fun i x1 hx1 => by
        have := h (i + 1) x1 (by simpa using hx1)
        simpa using this)
      exact ⟨ext, by simp [hf, hext]⟩

theorem Merge.keeps_node (current node : NUMANode) :
    NUMANode.keeps current (Merge.node current node) := by
  refine ⟨⟨_, Merge.node_Cores current node⟩,
    ⟨current.PCIBuses, _, Merge.node_PCIBuses current node, PCIBus.keeps_all _⟩, fun a => ?_⟩
  rw [Merge.node_PCIDevices]
  apply map_head_of_getElem
  intro i x hx
  refine ⟨_, Merge.devices_getElem _ _ a i x hx, ?_⟩
  simp [PCIDevice.ident, Merge.visitAll_Name, Merge.visitAll_PCIAddr]

theorem NUMANode.keeps_mem (old new : NUMANode) (h : NUMANode.keeps old new) (a : PCIAddress)
    (x : PCIDevice) (hx : x ∈ old.PCIDevices.bucket a) :
    ∃ y ∈ new.PCIDevices.bucket a, y.Name = x.Name ∧ y.PCIAddr = x.PCIAddr := by
  obtain ⟨ext, hext⟩ := h.2.2 a
  have h1 : x.ident ∈ (new.PCIDevices.bucket a).map PCIDevice.ident := by
    rw [hext]
    exact List.mem_append_left _ (List.mem_map_of_mem PCIDevice.ident hx)
  obtain ⟨y, hy, hyx⟩ := List.mem_map.1 h1
  simp only [PCIDevice.ident, Prod.mk.injEq] at hyx
  exact ⟨y, hy, hyx⟩

/-- C16: a node ID present in a topology is still present after any `AddDevice` and after any
`Merge` (nil arguments included), and for the node under it the old cores are at the head of
the new core sequence, the old buses (each with its range and, by name and address, with the
devices it indexed) at the head of the new bus sequence, and in every flat-index bucket the
old devices, by name and address, at the head of the new bucket; so every device of a bucket,
also one of several sharing an address, is still in that bucket. -/
theorem nothing_is_removed (t : Topology) (id : Nat) (old : NUMANode)
    (hold : Topology.nodeAt (some t) id = some old) :
    (∀ numaID dev, ∃ new,
      Topology.nodeAt (Topology.AddDevice (some t) numaID dev) id = some new ∧
      NUMANode.keeps old new ∧
      ∀ a x, x ∈ old.PCIDevices.bucket a →
        ∃ y ∈ new.PCIDevices.bucket a, y.Name = x.Name ∧ y.PCIAddr = x.PCIAddr) ∧
    (∀ incoming, ∃ new,
      Topology.nodeAt (Topology.Merge (some t) incoming) id = some new ∧
      NUMANode.keeps old new ∧
      ∀ a x, x ∈ old.PCIDevices.bucket a →
        ∃ y ∈ new.PCIDevices.bucket a, y.Name = x.Name ∧ y.PCIAddr = x.PCIAddr) := by
  have fin : ∀ (r : Option Topology) (new : NUMANode), Topology.nodeAt r id = some new →
      NUMANode.keeps old new → ∃ new,
      Topology.nodeAt r id = some new ∧ NUMANode.keeps old new ∧
      ∀ a x, x ∈ old.PCIDevices.bucket a →
        ∃ y ∈ new.PCIDevices.bucket a, y.Name = x.Name ∧ y.PCIAddr = x.PCIAddr :=
    fun r new h1 h2 => ⟨new, h1, h2, NUMANode.keeps_mem old new h2⟩
  constructor
  · intro numaID dev
    cases dev with
    | none => exact fin _ old hold (NUMANode.keeps_refl old)
    | some d =>
      by_cases hid : id = numaID
      · subst hid
        refine fin _ _ (nodeAt_AddDevice t id d) ?_
        rw [hold]
        exact NUMANode.keeps_addDeviceCore old d
      · refine fin _ old ?_ (NUMANode.keeps_refl old)
        rw [nodeAt_AddDevice_other t numaID id d hid, hold]
  · intro incoming
    cases incoming with
    | none => exact fin _ old hold (NUMANode.keeps_refl old)
    | some inc =>
      cases hnode : Topology.nodeAt (some inc) id with
      | none =>
        refine fin _ old ?_ (NUMANode.keeps_refl old)
        rw [nodeAt_Merge, hnode, hold]
      | some node =>
        refine fin _ (Merge.node old node) ?_ (Merge.keeps_node old node)
        rw [nodeAt_Merge, hnode, hold]

/-- C16 on node 1 with `test0` and `test1` sharing `0000:01:01.1`: after `AddDevice` of a
third device at that address and after `Merge` of a topology with another device named
`test0` there, both are still in the bucket, in their places.  And on node 0 owning `bus05`
with `nic0` (type and link speed unset) attached, merged with a topology holding `nic0` with
type and link speed set and a second device: the bus still indexes `nic0`, the flat index
holds `nic0` filled, followed by the second device. -/
theorem nothing_is_removed_witness :
    (∃ new, Topology.nodeAt (Topology.AddDevice (some (Sample.single 1 Sample.sharedAddrNode))
          1 (some ⟨"test2", DeviceTypeUnknown, Sample.addr 1 1 1, Float64.zero⟩)) 1 = some new ∧
        NUMANode.keeps Sample.sharedAddrNode new ∧
        (new.PCIDevices.bucket (Sample.addr 1 1 1)).map PCIDevice.Name =
          ["test0", "test1", "test2"]) ∧
    (∃ new, Topology.nodeAt (Topology.Merge (some (Sample.single 1 Sample.sharedAddrNode))
          (some (Sample.single 1 ⟨1, [], [], Sample.index
            [⟨"test0", DeviceTypeUnknown, Sample.addr 1 1 1, Sample.speed100⟩]⟩))) 1 = some new ∧
        NUMANode.keeps Sample.sharedAddrNode new ∧
        (new.PCIDevices.bucket (Sample.addr 1 1 1)).map PCIDevice.Name = ["test0", "test1"]) ∧
    (∃ new, Topology.nodeAt (Topology.Merge (some (Sample.single 0 Sample.busNicNode))
          (some (Sample.single 0 ⟨0, [], [], Sample.index [Sample.nicSet, Sample.devIn]⟩)))
          0 = some new ∧
        NUMANode.keeps Sample.busNicNode new ∧
        new.PCIBuses.map (fun b =>
            (b.PCIDevices.bucket (Sample.addr 0 0 1)).map PCIDevice.ident) =
          [[("nic0", Sample.addr 0 0 1)]] ∧
        new.PCIDevices.bucket (Sample.addr 0 0 1) = [Sample.nicSet] ∧
        new.PCIDevices.bucket (Sample.addr 1 0 0) = [Sample.devIn]) := by
  have h := nothing_is_removed (Sample.single 1 Sample.sharedAddrNode) 1 Sample.sharedAddrNode
    (by decide)
  have h0 := nothing_is_removed (Sample.single 0 Sample.busNicNode) 0 Sample.busNicNode
    (by decide)
  refine ⟨?_, ?_, ?_⟩
  · obtain ⟨new, h1, h2, _⟩ :=
      h.1 1 (some ⟨"test2", DeviceTypeUnknown, Sample.addr 1 1 1, Float64.zero⟩)
    refine ⟨new, h1, h2, ?_⟩
    have h3 : Topology.nodeAt (Topology.AddDevice (some (Sample.single 1 Sample.sharedAddrNode))
        1 (some ⟨"test2", DeviceTypeUnknown, Sample.addr 1 1 1, Float64.zero⟩)) 1 = some _ := rfl
    rw [h3] at h1
    rw [← Option.some.inj h1]
    decide
  · obtain ⟨new, h1, h2, _⟩ := h.2 (some (Sample.single 1 ⟨1, [], [], Sample.index
      [⟨"test0", DeviceTypeUnknown, Sample.addr 1 1 1, Sample.speed100⟩]⟩))
    refine ⟨new, h1, h2, ?_⟩
    have h3 : Topology.nodeAt (Topology.Merge (some (Sample.single 1 Sample.sharedAddrNode))
        (some (Sample.single 1 ⟨1, [], [], Sample.index
          [⟨"test0", DeviceTypeUnknown, Sample.addr 1 1 1, Sample.speed100⟩]⟩))) 1 = some _ := rfl
    rw [h3] at h1
    rw [← Option.some.inj h1]
    decide
  · obtain ⟨new, h1, h2, _⟩ := h0.2 (some (Sample.single 0
      ⟨0, [], [], Sample.index [Sample.nicSet, Sample.devIn]⟩))
    refine ⟨new, h1, h2, ?_⟩
    have h3 : Topology.nodeAt (Topology.Merge (some (Sample.single 0 Sample.busNicNode))
        (some (Sample.single 0 ⟨0, [], [], Sample.index [Sample.nicSet, Sample.devIn]⟩)))
        0 = some _ := rfl
    rw [h3] at h1
    rw [← Option.some.inj h1]
    decide

/-! ## Flat index against bus indexes -/

theorem PCIBus.Contains_addDeviceCore (b : PCIBus) (dev : PCIDevice) (q : PCIAddress) :
    PCIBus.Contains (some (PCIBus.addDeviceCore b dev)) q = PCIBus.Contains (some b) q := by
  have h := PCIBus.keeps_after_add b dev
  simp only [PCIBus.Contains, h.1, h.2.1]

theorem PCIBus.keeps_bucket_mem (b b1 : PCIBus) (h : PCIBus.keeps b b1) (a : PCIAddress)
    (i : String × PCIAddress) (hx : i ∈ (b.PCIDevices.bucket a).map PCIDevice.ident) :
    i ∈ (b1.PCIDevices.bucket a).map PCIDevice.ident := by
  obtain ⟨ext, hext⟩ := h.2.2 a
  rw [hext]
  exact List.mem_append_left _ hx

theorem PCIBus.find_cons_pos (q : PCIAddress) (bus : PCIBus) (rest : List PCIBus)
    (h : PCIBus.Contains (some bus) q = true) :
    (bus :: rest).find? (fun b => PCIBus.Contains (some b) q) = some bus := by
  simp [List.find?_cons, h]

theorem PCIBus.find_cons_neg (q : PCIAddress) (bus : PCIBus) (rest : List PCIBus)
    (h : PCIBus.Contains (some bus) q = false) :
    (bus :: rest).find? (fun b => PCIBus.Contains (some b) q) =
      rest.find? (fun b => PCIBus.Contains (some b) q) := by
  simp [List.find?_cons, h]

/-- The first bus containing an address after the bus loop of `AddDevice` is the first such
bus before it, with what it indexed. -/
theorem NUMANode.find_addToFirstBus (dev : PCIDevice) (q : PCIAddress) (buses : List PCIBus)
    (b1 : PCIBus)
    (h : (NUMANode.addToFirstBus dev buses).find?
      (fun bus => PCIBus.Contains (some bus) q) = some b1) :
    ∃ b, buses.find? (fun bus => PCIBus.Contains (some bus) q) = some b ∧ PCIBus.keeps b b1 := by
  induction buses with
  | nil => simp [NUMANode.addToFirstBus] at h
  | cons bus rest ih =>
    simp only [NUMANode.addToFirstBus] at h
    cases hq : PCIBus.Contains (some bus) q with
    | true =>
      refine ⟨bus, PCIBus.find_cons_pos q bus rest hq, ?_⟩
      cases hd : PCIBus.Contains (some bus) dev.PCIAddr with
      | true =>
        rw [hd, if_pos rfl, PCIBus.find_cons_pos q _ rest
          (by rw [PCIBus.Contains_addDeviceCore]; exact hq)] at h
        rw [← Option.some.inj h]
        exact PCIBus.keeps_after_add bus dev
      | false =>
        rw [hd, if_neg (by simp), PCIBus.find_cons_pos q _ _ hq] at h
        rw [← Option.some.inj h]
        exact PCIBus.keeps_self bus
    | false =>
      rw [PCIBus.find_cons_neg q bus rest hq]
      cases hd : PCIBus.Contains (some bus) dev.PCIAddr with
      | true =>
        rw [hd, if_pos rfl, PCIBus.find_cons_neg q _ rest
          (by rw [PCIBus.Contains_addDeviceCore]; exact hq)] at h
        exact ⟨b1, h, PCIBus.keeps_self b1⟩
      | false =>
        rw [hd, if_neg (by simp), PCIBus.find_cons_neg q _ _ hq] at h
        exact ih h

theorem NUMANode.find_addToFirstBus_self (dev : PCIDevice) (buses : List PCIBus) (b1 : PCIBus)
    (h : (NUMANode.addToFirstBus dev buses).find?
      (fun bus => PCIBus.Contains (some bus) dev.PCIAddr) = some b1) :
    dev ∈ b1.PCIDevices.bucket dev.PCIAddr := by
  induction buses with
  | nil => simp [NUMANode.addToFirstBus] at h
  | cons bus rest ih =>
    simp only [NUMANode.addToFirstBus] at h
    cases hd : PCIBus.Contains (some bus) dev.PCIAddr with
    | true =>
      rw [hd, if_pos rfl, PCIBus.find_cons_pos _ _ rest
        (by rw [PCIBus.Contains_addDeviceCore]; exact hd)] at h
      rw [← Option.some.inj h, (PCIBus.addDeviceCore_spec bus dev hd).2.2.1]
      simp
    | false =>
      rw [hd, if_neg (by simp), PCIBus.find_cons_neg _ _ _ hd] at h
      exact ih h

theorem NUMANode.firstBusIndexed_addDeviceCore (n : NUMANode) (dev : PCIDevice)
    (h : n.firstBusIndexed) : (NUMANode.addDeviceCore n dev).firstBusIndexed := by
  intro a x hx b1 hb1
  have hb2 : (NUMANode.addToFirstBus dev n.PCIBuses).find?
      (fun bus => PCIBus.Contains (some bus) x.PCIAddr) = some b1 := hb1
  have hold : x ∈ n.PCIDevices.bucket a ∨ x = dev := by
    by_cases ha : a = dev.PCIAddr
    · rw [ha, NUMANode.addDeviceCore_flat, List.mem_append] at hx
      rcases hx with hx | hx
      · exact Or.inl (ha ▸ hx)
      · exact Or.inr (by simpa using hx)
    · have h1 := NUMANode.addDeviceCore_other n dev a ha
      simp only [PCIDevices.bucket, h1] at hx
      exact Or.inl hx
  rcases hold with hx1 | hx1
  · obtain ⟨b, hb, hk⟩ := NUMANode.find_addToFirstBus dev x.PCIAddr n.PCIBuses b1 hb2
    exact PCIBus.keeps_bucket_mem b b1 hk _ x.ident (h a x hx1 b hb)
  · subst hx1
    exact List.mem_map_of_mem _ (NUMANode.find_addToFirstBus_self x n.PCIBuses b1 hb2)

theorem PCIBus.find_eq_none (buses : List PCIBus) (q : PCIAddress) :
    buses.find? (fun b => PCIBus.Contains (some b) q) = none ↔ PCIBus.noneContains buses q := by
  simp [PCIBus.noneContains, List.find?_eq_none]

theorem NUMANode.firstBusIndexed_addPCIBusCore (n : NUMANode) (bus : PCIBus)
    (hnew : n.acceptsBus bus)
    (h : n.firstBusIndexed) : (NUMANode.addPCIBusCore n bus).firstBusIndexed := by
  intro a x hx b1 hb1
  have hx1 : x ∈ n.PCIDevices.bucket a := hx
  have hb2 : (n.PCIBuses ++ [bus]).find?
      (fun bus => PCIBus.Contains (some bus) x.PCIAddr) = some b1 := hb1
  rw [List.find?_append] at hb2
  cases hf : n.PCIBuses.find? (fun bus => PCIBus.Contains (some bus) x.PCIAddr) with
  | some b =>
    rw [hf] at hb2
    have hb3 : b = b1 := by simpa [Option.or] using hb2
    rw [← hb3]
    exact h a x hx1 b hf
  | none =>
    have hlast : [bus].find? (fun bus => PCIBus.Contains (some bus) x.PCIAddr) = none := by
      simp [hnew a x hx1 ((PCIBus.find_eq_none _ _).1 hf)]
    rw [hf, hlast] at hb2
    simp at hb2

theorem nodeAt_putNode (t : Topology) (id other : Nat) (n n1 : NUMANode)
    (hn : Topology.nodeAt (some t) id = some n) :
    Topology.nodeAt (some (t.putNode id n1)) other =
      if other = id then some n1 else Topology.nodeAt (some t) other := by
  cases hm : t.NUMANodes with
  | none => simp [Topology.nodeAt, hm, lookupOf] at hn
  | some m => simp only [Topology.putNode, hm, Topology.nodeAt, lookupOf, GoMap.get_set]

theorem NUMANode.firstBusIndexed_fresh (id : Nat) :
    NUMANode.firstBusIndexed
      { ID := id, Cores := [], PCIBuses := [], PCIDevices := some GoMap.empty } := by
  intro a x hx
  simp [bucket_empty] at hx

/-- C12 as stated fails, on three topologies reachable from the empty topology.  First:
`AddDevice` of a device at `0000:01:00.0` on node 0, then `AddPCIBus` of the bus
`[0000:00:00.0, 0000:05:00.0]`: the bus does not index the device.  Second: a node with a
device outside that bus and that bus, merged with a topology holding the device at
`0000:01:00.0`: the device comes into the flat index only.  Third: two buses containing
`0000:01:00.0` are added, then the device: only the first bus indexes it. -/
theorem reachable_not_bus_indexed :
    (Topology.Reachable (Sample.single 0 Sample.devThenBusNode) ∧
      ¬ Sample.devThenBusNode.busIndexed) ∧
    (Topology.Reachable (Sample.single 0 Sample.mergedLateNode) ∧
      ¬ Sample.mergedLateNode.busIndexed) ∧
    (Topology.Reachable (Sample.single 0 Sample.overlapNode) ∧
      ¬ Sample.overlapNode.busIndexed) := by
  have hIn : Topology.Reachable (Sample.single 0 Sample.devInNode) :=
    Topology.Reachable.addDevice _ _ 0 Sample.devIn Topology.Reachable.empty (by decide)
  have hFar : Topology.Reachable (Sample.single 0 Sample.farNode) :=
    Topology.Reachable.addDevice _ _ 0 Sample.devFar Topology.Reachable.empty (by decide)
  have hFarBus : Topology.Reachable (Sample.single 0 Sample.farBusNode) :=
    Topology.Reachable.addPCIBus _ _ 0 Sample.farNode Sample.bus05 hFar (by decide) (by decide)
  refine ⟨⟨?_, fun h => ?_⟩, ⟨?_, fun h => ?_⟩, ⟨?_, fun h => ?_⟩⟩
  · exact Topology.Reachable.addPCIBus _ _ 0 Sample.devInNode Sample.bus05 hIn (by decide)
      (by decide)
  · exact absurd (h (Sample.addr 1 0 0) Sample.devIn (by decide) Sample.bus05 (by decide)
      (by decide)) (by decide)
  · exact Topology.Reachable.merge _ (Sample.single 0 Sample.devInNode) _ hFarBus hIn
      (by decide)
  · exact absurd (h (Sample.addr 1 0 0) Sample.devIn (by decide) Sample.bus05 (by decide)
      (by decide)) (by decide)
  · have h2 : Topology.Reachable (Sample.single 0 Sample.farTwoBusNode) :=
      Topology.Reachable.addPCIBus _ _ 0 Sample.farBusNode Sample.bus06 hFarBus (by decide)
        (by decide)
    exact Topology.Reachable.addDevice _ _ 0 Sample.devIn h2 (by decide)
  · exact absurd (h (Sample.addr 1 0 0) Sample.devIn (by decide) Sample.bus06 (by decide)
      (by decide)) (by decide)

/-! ## DeviceType -/

/-- C21: `DeviceType.String` returns a string for every value: "network interface" for
`DeviceTypeNetInterface` (1), "OFI domain" for `DeviceTypeOFIDomain` (2) and "unknown device
type" for every other value, 0, 999 and 0xffffffff among them; only 1 and 2 get a label of
their own. -/
theorem devicetype_string_total (t : DeviceType) :
    DeviceType.String DeviceTypeNetInterface = "network interface" ∧
    DeviceTypeNetInterface = 1 ∧
    DeviceType.String DeviceTypeOFIDomain = "OFI domain" ∧
    DeviceTypeOFIDomain = 2 ∧
    (t ≠ 1 → t ≠ 2 → DeviceType.String t = "unknown device type") ∧
    (DeviceType.String t ≠ "unknown device type" ↔ t = 1 ∨ t = 2) ∧
    DeviceType.String 0 = "unknown device type" ∧
    DeviceType.String 999 = "unknown device type" ∧
    DeviceType.String 0xffffffff = "unknown device type" := by
  refine ⟨by decide, rfl, by decide, rfl, fun h1 h2 => ?_, ?_, by decide, by decide, by decide⟩
  · simp [DeviceType.String, DeviceTypeNetInterface, DeviceTypeOFIDomain, h1, h2]
  · by_cases h1 : t = 1
    · subst h1
      simp only [true_or, iff_true]
      decide
    · by_cases h2 : t = 2
      · subst h2
        simp only [or_true, iff_true]
        decide
      · simp [DeviceType.String, DeviceTypeNetInterface, DeviceTypeOFIDomain, h1, h2]

/-- C21 at `DeviceType(999)` and at a value above 32 bits. -/
theorem devicetype_string_total_witness :
    DeviceType.String 999 = "unknown device type" ∧
    DeviceType.String 18446744073709551615 = "unknown device type" :=
  ⟨(devicetype_string_total 999).2.2.2.2.1 (by decide) (by decide),
    (devicetype_string_total 18446744073709551615).2.2.2.2.1 (by decide) (by decide)⟩

/-! ## Index keys and device addresses -/

theorem PCIDevices.keyed_Add (d : PCIDevices) (dev : Option PCIDevice)
    (h : PCIDevices.keyed d) : PCIDevices.keyed (PCIDevices.Add d dev) := by
  cases dev with
  | none => cases d <;> exact h
  | some dv => exact PCIDevices.Add_keyed d dv h

theorem PCIDevices.keyed_empty : PCIDevices.keyed (some GoMap.empty) := by
  intro a x hx
  simp [bucket_empty] at hx

theorem PCIBus.keyed_after_add (b : PCIBus) (dev : PCIDevice)
    (h : PCIDevices.keyed b.PCIDevices) :
    PCIDevices.keyed (PCIBus.addDeviceCore b dev).PCIDevices := by
  simp only [PCIBus.addDeviceCore]
  split
  · exact h
  · cases hd : b.PCIDevices with
    | none => exact PCIDevices.Add_keyed (some GoMap.empty) dev PCIDevices.keyed_empty
    | some m =>
      rw [hd] at h
      exact PCIDevices.Add_keyed (some m) dev h

theorem NUMANode.mem_addToFirstBus (dev : PCIDevice) (l : List PCIBus) (b1 : PCIBus)
    (h : b1 ∈ NUMANode.addToFirstBus dev l) :
    b1 ∈ l ∨ ∃ b ∈ l, b1 = PCIBus.addDeviceCore b dev := by
  induction l with
  | nil => simp [NUMANode.addToFirstBus] at h
  | cons bus rest ih =>
    simp only [NUMANode.addToFirstBus] at h
    split at h
    · rcases List.mem_cons.1 h with h1 | h1
      · exact Or.inr ⟨bus, List.mem_cons_self _ _, h1⟩
      · exact Or.inl (List.mem_cons_of_mem _ h1)
    · rcases List.mem_cons.1 h with h1 | h1
      · exact Or.inl (h1 ▸ List.mem_cons_self _ _)
      · rcases ih h1 with h2 | ⟨b, hb, h2⟩
        · exact Or.inl (List.mem_cons_of_mem _ h2)
        · exact Or.inr ⟨b, List.mem_cons_of_mem _ hb, h2⟩

theorem NUMANode.keyed_addDeviceCore (n : NUMANode) (dev : PCIDevice) (h : n.keyed) :
    (NUMANode.addDeviceCore n dev).keyed := by
  constructor
  · simp only [NUMANode.addDeviceCore]
    cases hd : n.PCIDevices with
    | none => exact PCIDevices.Add_keyed (some GoMap.empty) dev PCIDevices.keyed_empty
    | some m =>
      have h1 := h.1
      rw [hd] at h1
      exact PCIDevices.Add_keyed (some m) dev h1
  · intro b1 hb1
    have hb2 : b1 ∈ NUMANode.addToFirstBus dev n.PCIBuses := hb1
    rcases NUMANode.mem_addToFirstBus dev n.PCIBuses b1 hb2 with h1 | ⟨b, hb, h1⟩
    · exact h.2 b1 h1
    · rw [h1]
      exact PCIBus.keyed_after_add b dev (h.2 b hb)

theorem Merge.mem_touchFirst (n : Nat) (nd : PCIDevice) (b : List PCIDevice) (x : PCIDevice)
    (h : x ∈ Merge.touchFirst n nd b) :
    ∃ y ∈ b, x.PCIAddr = y.PCIAddr ∧ x.Name = y.Name := by
  simp only [Merge.touchFirst, List.mem_append, List.mem_map] at h
  rcases h with ⟨y, hy, hxy⟩ | h
  · exact ⟨y, List.mem_of_mem_take hy, by rw [← hxy, Merge.visitOld_PCIAddr],
      by rw [← hxy, Merge.visitOld_Name]⟩
  · exact ⟨x, List.mem_of_mem_drop h, rfl, rfl⟩

theorem Merge.keyed_devStep (key : PCIAddress) (n : Nat) (d : PCIDevices) (nd : PCIDevice)
    (h : PCIDevices.keyed d) : PCIDevices.keyed (Merge.devStep key n d nd) := by
  cases d with
  | none =>
    rw [Merge.devStep_none]
    exact h
  | some m =>
    obtain ⟨m1, h1, h2⟩ := Merge.devStep_some key n m nd
    rw [h1]
    intro a x hx
    rw [h2 a, List.mem_append] at hx
    rcases hx with hx | hx
    · by_cases hk : a = key
      · rw [if_pos hk] at hx
        obtain ⟨y, hy, hxy, _⟩ := Merge.mem_touchFirst n nd _ x hx
        rw [hxy]
        exact h a y hy
      · rw [if_neg hk] at hx
        exact h a x hx
    · split at hx
      · rename_i hc
        rw [List.mem_singleton.1 hx]
        exact hc.2.symm
      · simp at hx

theorem Merge.keyed_devices (d newDevices : PCIDevices) (h : PCIDevices.keyed d) :
    PCIDevices.keyed (Merge.devices d newDevices) := by
  have inner : ∀ (key : PCIAddress) (n : Nat) (l : List PCIDevice) (d : PCIDevices),
      PCIDevices.keyed d → PCIDevices.keyed (l.foldl (Merge.devStep key n) d) := by
    intro key n l
    induction l with
    | nil => exact fun d hd => hd
    | cons nd rest ih => exact fun d hd => ih _ (Merge.keyed_devStep key n d nd hd)
  have outer : ∀ (l : List (PCIAddress × List PCIDevice)) (d : PCIDevices),
      PCIDevices.keyed d → PCIDevices.keyed (l.foldl Merge.bucketStep d) := by
    intro l
    induction l with
    | nil => exact fun d hd => hd
    | cons e rest ih => exact fun d hd => ih _ (inner e.1 _ e.2 d hd)
  exact outer _ d h

theorem Merge.keyed_node (current node : NUMANode) (hc : current.keyed) (hn : node.keyed) :
    (Merge.node current node).keyed := by
  constructor
  · rw [Merge.node_PCIDevices]
    exact Merge.keyed_devices _ _ hc.1
  · intro b hb
    rw [Merge.node_PCIBuses, List.mem_append] at hb
    rcases hb with hb | hb
    · exact hc.2 b hb
    · rcases Spec.appendedBuses_sound current.PCIBuses node.PCIBuses [] b hb with h | h
      · simp at h
      · exact hn.2 b h.1

/-- C23: if every device of an index is in the bucket keyed by its own PCI address, this
still holds after `PCIDevices.Add` and after `PCIBus.AddDevice`; if it holds for the flat
index and every bus index of a node, it still holds after `NUMANode.AddDevice`; if it holds
for every node of a topology, it still holds after `Topology.AddDevice` and after
`Topology.Merge` with an incoming topology for which it holds.  Nil receivers and nil
arguments are included. -/
theorem index_keys_match_addresses (dev : Option PCIDevice) :
    (∀ d, PCIDevices.keyed d → PCIDevices.keyed (PCIDevices.Add d dev)) ∧
    (∀ b b1, PCIDevices.keyed b.PCIDevices → PCIBus.AddDevice (some b) dev = some b1 →
      PCIDevices.keyed b1.PCIDevices) ∧
    (∀ n n1, NUMANode.keyed n → NUMANode.AddDevice (some n) dev = some n1 → n1.keyed) ∧
    (∀ t numaID, Topology.keyed t → Topology.keyed (Topology.AddDevice t numaID dev)) ∧
    (∀ t incoming, Topology.keyed t → Topology.keyed incoming →
      Topology.keyed (Topology.Merge t incoming)) := by
  refine ⟨fun d h => PCIDevices.keyed_Add d dev h, fun b b1 h heq => ?_, fun n n1 h heq => ?_,
    fun t numaID h => ?_, fun t incoming ht hi => ?_⟩
  · cases dev with
    | none =>
      simp only [PCIBus.AddDevice, Option.some.injEq] at heq
      rw [← heq]
      exact h
    | some dv =>
      simp only [PCIBus.AddDevice, Option.some.injEq] at heq
      rw [← heq]
      exact PCIBus.keyed_after_add b dv h
  · cases dev with
    | none =>
      simp only [NUMANode.AddDevice, Option.some.injEq] at heq
      rw [← heq]
      exact h
    | some dv =>
      simp only [NUMANode.AddDevice, Option.some.injEq] at heq
      rw [← heq]
      exact NUMANode.keyed_addDeviceCore n dv h
  · cases t with
    | none => exact h
    | some topo =>
      cases dev with
      | none => exact h
      | some dv =>
        intro id n hn
        by_cases hid : id = numaID
        · subst hid
          rw [nodeAt_AddDevice] at hn
          rw [← Option.some.inj hn]
          apply NUMANode.keyed_addDeviceCore
          cases hold : Topology.nodeAt (some topo) id with
          | none => exact ⟨PCIDevices.keyed_empty, fun b hb => by simp at hb⟩
          | some old => exact h id old hold
        · rw [nodeAt_AddDevice_other topo numaID id dv hid] at hn
          exact h id n hn
  · cases t with
    | none => exact ht
    | some topo =>
      cases incoming with
      | none => exact ht
      | some inc =>
        intro id n hn
        rw [nodeAt_Merge] at hn
        cases hnode : Topology.nodeAt (some inc) id with
        | none =>
          rw [hnode] at hn
          exact ht id n hn
        | some node =>
          rw [hnode] at hn
          cases hcur : Topology.nodeAt (some topo) id with
          | none =>
            rw [hcur] at hn
            rw [← Option.some.inj hn]
            exact hi id node hnode
          | some cur =>
            rw [hcur] at hn
            rw [← Option.some.inj hn]
            exact Merge.keyed_node cur node (ht id cur hcur) (hi id node hnode)

/-- C23 on node 0 with a bus and node 0 with a device at `0000:01:00.0`: both topologies are
keyed by the device addresses, and so is their merge. -/
theorem index_keys_match_addresses_witness :
    Topology.keyed (some (Sample.single 0 Sample.coreBusNode)) ∧
    Topology.keyed (some (Sample.single 0 Sample.devInNode)) ∧
    Topology.keyed (Topology.Merge (some (Sample.single 0 Sample.coreBusNode))
      (some (Sample.single 0 Sample.devInNode))) := by
  have h1 : Topology.keyed (some (Sample.single 0 Sample.coreBusNode)) := by
    intro id n hn
    rw [Sample.nodeAt_single 0 id _ n hn]
    refine ⟨(Sample.index_keyed []).2, fun b hb => ?_⟩
    have hb1 : b = Sample.bus05 := by simpa [Sample.coreBusNode] using hb
    rw [hb1]
    intro a x hx
    simp [Sample.bus05, bucket_none] at hx
  have h2 : Topology.keyed (some (Sample.single 0 Sample.devInNode)) := by
    intro id n hn
    rw [Sample.nodeAt_single 0 id _ n hn]
    exact ⟨(Sample.index_keyed [Sample.devIn]).2, fun b hb => by simp [Sample.devInNode] at hb⟩
  exact ⟨h1, h2, (index_keys_match_addresses none).2.2.2.2 _ _ h1 h2⟩

/-! ## Merge and duplicates -/

theorem nodup_snoc {α : Type} (l : List α) (a : α) (h : l.Nodup) (ha : a ∉ l) :
    (l ++ [a]).Nodup := by
  rw [List.nodup_append]
  refine ⟨h, by simp, ?_⟩
  intro x hx hx1
  rw [List.mem_singleton.1 hx1] at hx
  exact ha hx

theorem Spec.appendedCores_nodup (old l appended : List CPUCore)
    (h : ((old ++ appended).map CPUCore.ID).Nodup) :
    ((old ++ Spec.appendedCores old appended l).map CPUCore.ID).Nodup := by
  induction l generalizing appended with
  | nil => exact h
  | cons core rest ih =>
    simp only [Spec.appendedCores]
    by_cases hc : core.ID ∈ old.map CPUCore.ID ∨ core.ID ∈ appended.map CPUCore.ID
    · rw [if_pos hc]
      exact ih appended h
    · rw [if_neg hc]
      apply ih
      rw [← List.append_assoc, List.map_append]
      apply nodup_snoc _ _ h
      rw [List.map_append, List.mem_append]
      exact hc

theorem Spec.appendedBuses_nodup (old l appended : List PCIBus)
    (h : ((old ++ appended).map (fun b => (b.LowAddress, b.HighAddress))).Nodup) :
    ((old ++ Spec.appendedBuses old appended l).map
      (fun b => (b.LowAddress, b.HighAddress))).Nodup := by
  induction l generalizing appended with
  | nil => exact h
  | cons bus rest ih =>
    simp only [Spec.appendedBuses]
    by_cases hc : (∃ b ∈ old ++ appended, Spec.sameBus b bus)
    · rw [if_pos hc]
      exact ih appended h
    · rw [if_neg hc]
      apply ih
      rw [← List.append_assoc, List.map_append]
      apply nodup_snoc _ _ h
      intro hmem
      obtain ⟨b, hb, hr⟩ := List.mem_map.1 hmem
      simp only [Prod.mk.injEq] at hr
      exact hc ⟨b, hb, hr.1, hr.2⟩

theorem Merge.drop_touchFirst (n : Nat) (nd : PCIDevice) (b tail : List PCIDevice)
    (hn : n ≤ b.length) : (Merge.touchFirst n nd b ++ tail).drop n = b.drop n ++ tail := by
  have h1 : n ≤ (Merge.touchFirst n nd b).length := by
    rw [Merge.touchFirst_length]
    exact hn
  rw [List.drop_append_of_le_length h1]
  congr 1
  have h2 : ((b.take n).map (Merge.visitOld nd)).length = n := by
    simp only [List.length_map, List.length_take]
    omega
  exact List.drop_left' h2

/-- The incoming devices of one bucket, stored under their own address and with pairwise
distinct names, leave the names of the receiver bucket at that address pairwise distinct. -/
theorem Merge.devFold_nodup (key : PCIAddress) (n : Nat) (l : List PCIDevice)
    (hl : ∀ nd ∈ l, nd.PCIAddr = key) (hn : (l.map PCIDevice.Name).Nodup)
    (m : GoMap PCIAddress (List PCIDevice))
    (h1 : ((PCIDevices.bucket (some m) key).map PCIDevice.Name).Nodup)
    (h2 : n ≤ (PCIDevices.bucket (some m) key).length)
    (h3 : ∀ x ∈ (PCIDevices.bucket (some m) key).drop n, x.Name ∉ l.map PCIDevice.Name) :
    ∃ m1, l.foldl (Merge.devStep key n) (some m) = some m1 ∧
      ((PCIDevices.bucket (some m1) key).map PCIDevice.Name).Nodup := by
  induction l generalizing m with
  | nil => exact ⟨m, rfl, h1⟩
  | cons nd rest ih =>
    obtain ⟨m1, e1, f⟩ := Merge.devStep_some key n m nd
    have hb := f key
    simp only [if_true] at hb
    have hkey : nd.PCIAddr = key := hl nd (List.mem_cons_self _ _)
    simp only [List.map_cons, List.nodup_cons] at hn
    rw [List.foldl_cons, e1]
    by_cases hex : ((PCIDevices.bucket (some m) key).take n).any
        (fun oldDev => decide (nd.Name = oldDev.Name)) = true
    · have hb1 : PCIDevices.bucket (some m1) key =
          Merge.touchFirst n nd (PCIDevices.bucket (some m) key) ++ [] := by
        rw [hb]
        simp [hex]
      apply ih (fun y hy => hl y (List.mem_cons_of_mem _ hy)) hn.2 m1
      · rw [hb1, List.append_nil, Merge.touchFirst_names]
        exact h1
      · rw [hb1, List.append_nil, Merge.touchFirst_length]
        exact h2
      · intro x hx
        rw [hb1, Merge.drop_touchFirst n nd _ _ h2, List.append_nil] at hx
        intro hmem
        exact h3 x hx (List.mem_cons_of_mem _ hmem)
    · have hex1 : ((PCIDevices.bucket (some m) key).take n).any
          (fun oldDev => decide (nd.Name = oldDev.Name)) = false := by simpa using hex
      have hb1 : PCIDevices.bucket (some m1) key =
          Merge.touchFirst n nd (PCIDevices.bucket (some m) key) ++ [nd] := by
        rw [hb]
        simp [hex1, hkey]
      have hnew : nd.Name ∉ (PCIDevices.bucket (some m) key).map PCIDevice.Name := by
        intro hmem
        obtain ⟨y, hy, hyn⟩ := List.mem_map.1 hmem
        rw [← List.take_append_drop n (PCIDevices.bucket (some m) key), List.mem_append] at hy
        rcases hy with hy | hy
        · rw [List.any_eq_false] at hex1
          exact hex1 y hy (by simp [hyn])
        · exact h3 y hy (by simp [hyn])
      apply ih (fun y hy => hl y (List.mem_cons_of_mem _ hy)) hn.2 m1
      · rw [hb1, List.map_append, Merge.touchFirst_names]
        exact nodup_snoc _ _ h1 hnew
      · rw [hb1, List.length_append, Merge.touchFirst_length]
        omega
      · intro x hx
        rw [hb1, Merge.drop_touchFirst n nd _ _ h2, List.mem_append] at hx
        rcases hx with hx | hx
        · intro hmem
          exact h3 x hx (List.mem_cons_of_mem _ hmem)
        · rw [List.mem_singleton.1 hx]
          exact hn.1

theorem Merge.bucketFold_nodup (a : PCIAddress) (l : List (PCIAddress × List PCIDevice))
    (hwf : ∀ en ∈ l, ∀ x ∈ en.2, x.PCIAddr = en.1)
    (hnames : ∀ en ∈ l, (en.2.map PCIDevice.Name).Nodup)
    (m : GoMap PCIAddress (List PCIDevice))
    (h : ((PCIDevices.bucket (some m) a).map PCIDevice.Name).Nodup) :
    ∃ m1, l.foldl Merge.bucketStep (some m) = some m1 ∧
      ((PCIDevices.bucket (some m1) a).map PCIDevice.Name).Nodup := by
  induction l generalizing m with
  | nil => exact ⟨m, rfl, h⟩
  | cons e rest ih =>
    have hwf1 := hwf e (List.mem_cons_self _ _)
    have hrest := ih (fun y hy => hwf y (List.mem_cons_of_mem _ hy))
      (fun y hy => hnames y (List.mem_cons_of_mem _ hy))
    rw [List.foldl_cons, Merge.bucketStep]
    by_cases hk : a = e.1
    · subst hk
      obtain ⟨m1, e1, h1⟩ := Merge.devFold_nodup e.1 (PCIDevices.bucket (some m) e.1).length
        e.2 hwf1 (hnames e (List.mem_cons_self _ _)) m h (le_refl _)
        (fun x hx => by simp at hx)
      rw [e1]
      exact hrest m1 h1
    · obtain ⟨m1, e1, h1⟩ := Merge.devFold_other e.1 a hk
        (PCIDevices.bucket (some m) e.1).length e.2 hwf1 m
      rw [e1]
      exact hrest m1 (by rw [h1]; exact h)

theorem Merge.devices_nodup (d newDevices : PCIDevices)
    (hwf : PCIDevices.keyed newDevices)
    (hnames : ∀ a, ((PCIDevices.bucket newDevices a).map PCIDevice.Name).Nodup)
    (a : PCIAddress) (h : ((PCIDevices.bucket d a).map PCIDevice.Name).Nodup) :
    ((PCIDevices.bucket (Merge.devices d newDevices) a).map PCIDevice.Name).Nodup := by
  cases d with
  | none =>
    rw [Merge.devices_none]
    exact h
  | some m =>
    cases newDevices with
    | none => exact h
    | some mi =>
      obtain ⟨m1, e1, h1⟩ := Merge.bucketFold_nodup a mi.entries
        (fun en hen x hx => hwf en.1 x (by rw [bucket_mem_entries mi en hen]; exact hx))
        (fun en hen => by
          have := hnames en.1
          rw [bucket_mem_entries mi en hen] at this
          exact this) m h
      simp only [Merge.devices, rangeOf]
      rw [e1]
      exact h1

theorem Merge.dupFree_node (current node : NUMANode) (hc : current.dupFree)
    (hn : node.dupFree) : (Merge.node current node).dupFree := by
  refine ⟨?_, ?_, ?_, fun a => ?_⟩
  · simp only [NUMANode.coreIDs, Merge.node_Cores]
    exact Spec.appendedCores_nodup current.Cores node.Cores [] (by simpa using hc.1)
  · simp only [NUMANode.busRanges, Merge.node_PCIBuses]
    exact Spec.appendedBuses_nodup current.PCIBuses node.PCIBuses [] (by simpa using hc.2.1)
  · exact Merge.keyed_node current node hc.2.2.1 hn.2.2.1
  · simp only [NUMANode.deviceNames, Merge.node_PCIDevices]
    exact Merge.devices_nodup _ _ hn.2.2.1.1 hn.2.2.2 a (hc.2.2.2 a)

/-- C22: if every node of the receiver and every node of the incoming topology is free of
duplicates (pairwise distinct core IDs, pairwise distinct bus ranges, every device of the
flat index and of the bus indexes under its own address, pairwise distinct device names
within each flat-index bucket), then every node of the receiver after `Merge` is free of
duplicates.  Nil receiver and nil incoming topology are included. -/
theorem merge_preserves_dup_free (t incoming : Option Topology)
    (ht : ∀ id n, Topology.nodeAt t id = some n → n.dupFree)
    (hi : ∀ id n, Topology.nodeAt incoming id = some n → n.dupFree) :
    ∀ id n, Topology.nodeAt (Topology.Merge t incoming) id = some n → n.dupFree := by
  intro id n hn
  cases t with
  | none => exact ht id n hn
  | some topo =>
    cases incoming with
    | none => exact ht id n hn
    | some inc =>
      rw [nodeAt_Merge] at hn
      cases hnode : Topology.nodeAt (some inc) id with
      | none =>
        rw [hnode] at hn
        exact ht id n hn
      | some node =>
        rw [hnode] at hn
        cases hcur : Topology.nodeAt (some topo) id with
        | none =>
          rw [hcur] at hn
          rw [← Option.some.inj hn]
          exact hi id node hnode
        | some cur =>
          rw [hcur] at hn
          rw [← Option.some.inj hn]
          exact Merge.dupFree_node cur node (ht id cur hcur) (hi id node hnode)

theorem Sample.index_one (d : PCIDevice) (a : PCIAddress) :
    PCIDevices.bucket (Sample.index [d]) a = if a = d.PCIAddr then [d] else [] := by
  simp only [Sample.index, List.foldl_cons, List.foldl_nil, PCIDevices.Add]
  rw [bucket_appendAt]
  simp [bucket_empty]

theorem Sample.dupFree_one (id : Nat) (cores : List CPUCore) (d : PCIDevice)
    (hc : (cores.map CPUCore.ID).Nodup) :
    NUMANode.dupFree ⟨id, cores, [Sample.bus05], Sample.index [d]⟩ := by
  refine ⟨hc, by simp [NUMANode.busRanges], ⟨(Sample.index_keyed [d]).2, fun b hb => ?_⟩,
    fun a => ?_⟩
  · have hb1 : b = Sample.bus05 := by simpa using hb
    rw [hb1]
    intro a x hx
    simp [Sample.bus05, bucket_none] at hx
  · simp only [NUMANode.deviceNames]
    rw [Sample.index_one]
    by_cases h : a = d.PCIAddr
    · simp [h]
    · simp [h]

/-- C22 on node 0 holding core 2, `bus05` and the device `nicUnset`, merged with node 0
holding cores 2 and 4, `bus05` and the device `nicSet` of the same name and address: both
are free of duplicates, and so is the merged node. -/
theorem merge_preserves_dup_free_witness :
    (∀ id n, Topology.nodeAt
        (some (Sample.single 0 ⟨0, [⟨2⟩], [Sample.bus05], Sample.index [Sample.nicUnset]⟩))
        id = some n → n.dupFree) ∧
    (∀ id n, Topology.nodeAt
        (some (Sample.single 0 ⟨0, [⟨2⟩, ⟨4⟩], [Sample.bus05], Sample.index [Sample.nicSet]⟩))
        id = some n → n.dupFree) ∧
    (∀ id n, Topology.nodeAt (Topology.Merge
        (some (Sample.single 0 ⟨0, [⟨2⟩], [Sample.bus05], Sample.index [Sample.nicUnset]⟩))
        (some (Sample.single 0 ⟨0, [⟨2⟩, ⟨4⟩], [Sample.bus05], Sample.index [Sample.nicSet]⟩)))
        id = some n → n.dupFree) := by
  have h1 : ∀ id n, Topology.nodeAt
      (some (Sample.single 0 ⟨0, [⟨2⟩], [Sample.bus05], Sample.index [Sample.nicUnset]⟩))
      id = some n → n.dupFree := by
    intro id n hn
    rw [Sample.nodeAt_single 0 id _ n hn]
    exact Sample.dupFree_one 0 _ _ (by decide)
  have h2 : ∀ id n, Topology.nodeAt
      (some (Sample.single 0 ⟨0, [⟨2⟩, ⟨4⟩], [Sample.bus05], Sample.index [Sample.nicSet]⟩))
      id = some n → n.dupFree := by
    intro id n hn
    rw [Sample.nodeAt_single 0 id _ n hn]
    exact Sample.dupFree_one 0 _ _ (by decide)
  exact ⟨h1, h2, merge_preserves_dup_free _ _ h1 h2⟩

/-! ## Flat index against bus indexes: built topologies -/

theorem PCIBus.Contains_of_same_range (b bus : PCIBus) (q : PCIAddress)
    (h : Spec.sameBus b bus) :
    PCIBus.Contains (some b) q = PCIBus.Contains (some bus) q := by
  simp only [PCIBus.Contains, h.1, h.2]

theorem Spec.appendedBuses_frame (old l appended : List PCIBus) :
    ∃ ext, Spec.appendedBuses old appended l = appended ++ ext := by
  induction l generalizing appended with
  | nil => exact ⟨[], by simp [Spec.appendedBuses]⟩
  | cons bus rest ih =>
    simp only [Spec.appendedBuses]
    by_cases h : (∃ b ∈ old ++ appended, Spec.sameBus b bus)
    · rw [if_pos h]
      exact ih appended
    · rw [if_neg h]
      obtain ⟨ext, hext⟩ := ih (appended ++ [bus])
      exact ⟨bus :: ext, by rw [hext]; simp⟩

/-- When no receiver bus contains an address, the first appended bus that contains it is
the first incoming bus that contains it. -/
theorem Spec.find_appendedBuses (old : List PCIBus) (q : PCIAddress)
    (hold : PCIBus.noneContains old q) (l appended : List PCIBus)
    (hacc : PCIBus.noneContains appended q) :
    (Spec.appendedBuses old appended l).find? (fun b => PCIBus.Contains (some b) q) =
      l.find? (fun b => PCIBus.Contains (some b) q) := by
  induction l generalizing appended with
  | nil =>
    simp only [Spec.appendedBuses, List.find?_nil]
    exact (PCIBus.find_eq_none _ _).2 hacc
  | cons bus rest ih =>
    simp only [Spec.appendedBuses]
    by_cases hd : (∃ b ∈ old ++ appended, Spec.sameBus b bus)
    · rw [if_pos hd]
      obtain ⟨b, hb, hs⟩ := hd
      have hc : PCIBus.Contains (some bus) q = false := by
        rw [← PCIBus.Contains_of_same_range b bus q hs]
        rcases List.mem_append.1 hb with h1 | h1
        · exact hold b h1
        · exact hacc b h1
      rw [PCIBus.find_cons_neg q bus rest hc]
      exact ih appended hacc
    · rw [if_neg hd]
      cases hc : PCIBus.Contains (some bus) q with
      | true =>
        rw [PCIBus.find_cons_pos q bus rest hc]
        obtain ⟨ext, hext⟩ := Spec.appendedBuses_frame old rest (appended ++ [bus])
        rw [hext, List.append_assoc, List.find?_append, (PCIBus.find_eq_none _ _).2 hacc]
        simp [hc]
      | false =>
        rw [PCIBus.find_cons_neg q bus rest hc]
        apply ih
        intro b hb
        rcases List.mem_append.1 hb with h1 | h1
        · exact hacc b h1
        · rw [List.mem_singleton.1 h1]
          exact hc

/-- Where a device of a bucket comes from after the incoming devices of one bucket have been
handled: by name and address it was there before, or it is an incoming device whose name
the `oldDevs` slice did not hold. -/
theorem Merge.devFold_origin (key : PCIAddress) (n : Nat) (l : List PCIDevice)
    (hl : ∀ nd ∈ l, nd.PCIAddr = key) (m : GoMap PCIAddress (List PCIDevice))
    (hn : n ≤ (PCIDevices.bucket (some m) key).length) :
    ∃ m1, l.foldl (Merge.devStep key n) (some m) = some m1 ∧
      ∀ a x, x ∈ PCIDevices.bucket (some m1) a →
        (∃ y ∈ PCIDevices.bucket (some m) a, y.ident = x.ident) ∨
        (a = key ∧ ∃ e ∈ l, e.ident = x.ident ∧
          e.Name ∉ ((PCIDevices.bucket (some m) key).take n).map PCIDevice.Name) := by
  induction l generalizing m with
  | nil => exact ⟨m, rfl, fun a x hx => Or.inl ⟨x, hx, rfl⟩⟩
  | cons nd rest ih =>
    obtain ⟨m1, e1, f⟩ := Merge.devStep_some key n m nd
    have hkey : nd.PCIAddr = key := hl nd (List.mem_cons_self _ _)
    have hb := f key
    simp only [if_true] at hb
    have hlen1 : n ≤ (PCIDevices.bucket (some m1) key).length := by
      rw [hb, List.length_append, Merge.touchFirst_length]
      omega
    have htake : ((PCIDevices.bucket (some m1) key).take n).map PCIDevice.Name =
        ((PCIDevices.bucket (some m) key).take n).map PCIDevice.Name := by
      rw [hb]
      exact Merge.take_names_step n nd _ _ hn
    obtain ⟨m2, e2, g⟩ := ih (fun y hy => hl y (List.mem_cons_of_mem _ hy)) m1 hlen1
    refine ⟨m2, by rw [List.foldl_cons, e1, e2], fun a x hx => ?_⟩
    rcases g a x hx with ⟨y, hy, hyx⟩ | ⟨ha, e, he, hex, hen⟩
    · rw [f a, List.mem_append] at hy
      rcases hy with hy | hy
      · by_cases hak : a = key
        · rw [if_pos hak] at hy
          obtain ⟨y0, hy0, h1, h2⟩ := Merge.mem_touchFirst n nd _ y hy
          refine Or.inl ⟨y0, hy0, ?_⟩
          rw [← hyx]
          simp [PCIDevice.ident, h1, h2]
        · rw [if_neg hak] at hy
          exact Or.inl ⟨y, hy, hyx⟩
      · by_cases hc : ((PCIDevices.bucket (some m) key).take n).any
            (fun oldDev => decide (nd.Name = oldDev.Name)) = false ∧ a = nd.PCIAddr
        · rw [if_pos hc] at hy
          have hynd : y = nd := List.mem_singleton.1 hy
          rw [hynd] at hyx
          refine Or.inr ⟨hc.2.trans hkey, nd, List.mem_cons_self _ _, hyx, ?_⟩
          intro hmem
          obtain ⟨z, hz, hzn⟩ := List.mem_map.1 hmem
          exact (List.any_eq_false.1 hc.1) z hz (by simp [hzn])
        · rw [if_neg hc] at hy
          simp at hy
    · refine Or.inr ⟨ha, e, List.mem_cons_of_mem _ he, hex, ?_⟩
      rw [← htake]
      exact hen

theorem Merge.bucketFold_origin (l : List (PCIAddress × List PCIDevice))
    (hwf : ∀ en ∈ l, ∀ x ∈ en.2, x.PCIAddr = en.1) (m : GoMap PCIAddress (List PCIDevice)) :
    ∃ m1, l.foldl Merge.bucketStep (some m) = some m1 ∧
      ∀ a x, x ∈ PCIDevices.bucket (some m1) a →
        (∃ y ∈ PCIDevices.bucket (some m) a, y.ident = x.ident) ∨
        (∃ en ∈ l, en.1 = a ∧ ∃ e ∈ en.2, e.ident = x.ident ∧
          e.Name ∉ (PCIDevices.bucket (some m) a).map PCIDevice.Name) := by
  induction l generalizing m with
  | nil => exact ⟨m, rfl, fun a x hx => Or.inl ⟨x, hx, rfl⟩⟩
  | cons e rest ih =>
    have hwf1 := hwf e (List.mem_cons_self _ _)
    obtain ⟨m1, e1, f⟩ := Merge.devFold_origin e.1 (PCIDevices.bucket (some m) e.1).length
      e.2 hwf1 m (le_refl _)
    obtain ⟨m1n, e1n, fn⟩ := Merge.devFold_names e.1 (PCIDevices.bucket (some m) e.1).length
      e.2 hwf1 m
    have hm : m1n = m1 := Option.some.inj (e1n.symm.trans e1)
    rw [hm] at fn
    obtain ⟨m2, e2, g⟩ := ih (fun y hy => hwf y (List.mem_cons_of_mem _ hy)) m1
    refine ⟨m2, by rw [List.foldl_cons, Merge.bucketStep, e1, e2], fun a x hx => ?_⟩
    rcases g a x hx with ⟨y, hy, hyx⟩ | ⟨en, hen, hea, e0, he0, hex, hname⟩
    · rcases f a y hy with ⟨y0, hy0, h0⟩ | ⟨hak, e0, he0, hex, hname⟩
      · exact Or.inl ⟨y0, hy0, h0.trans hyx⟩
      · refine Or.inr ⟨e, List.mem_cons_self _ _, hak.symm, e0, he0, hex.trans hyx, ?_⟩
        rw [List.take_length] at hname
        rw [hak]
        exact hname
    · exact Or.inr ⟨en, List.mem_cons_of_mem _ hen, hea, e0, he0, hex,
        fun hmem => hname ((fn a e0.Name).2 (Or.inl hmem))⟩

/-- Where a device of the flat index comes from after the device loop of `Merge`, for an
incoming index keyed by the device addresses: by name and address it was in that bucket
before, or it is an incoming device of that bucket whose name the receiver bucket did not
hold. -/
theorem Merge.devices_origin (m : GoMap PCIAddress (List PCIDevice)) (newDevices : PCIDevices)
    (hwf : PCIDevices.keyed newDevices) (a : PCIAddress) (x : PCIDevice)
    (hx : x ∈ PCIDevices.bucket (Merge.devices (some m) newDevices) a) :
    (∃ y ∈ PCIDevices.bucket (some m) a, y.ident = x.ident) ∨
      (∃ e ∈ PCIDevices.bucket newDevices a, e.ident = x.ident ∧
        e.Name ∉ (PCIDevices.bucket (some m) a).map PCIDevice.Name) := by
  cases newDevices with
  | none => exact Or.inl ⟨x, hx, rfl⟩
  | some mi =>
    obtain ⟨m1, e1, f⟩ := Merge.bucketFold_origin mi.entries
      (fun en hen x hx => hwf en.1 x (by rw [bucket_mem_entries mi en hen]; exact hx)) m
    simp only [Merge.devices, rangeOf] at hx
    rw [e1] at hx
    rcases f a x hx with h | ⟨en, hen, hea, e0, he0, hex, hname⟩
    · exact Or.inl h
    · refine Or.inr ⟨e0, ?_, hex, hname⟩
      rw [← hea, bucket_mem_entries mi en hen]
      exact he0

theorem Merge.firstBusIndexed_node (current node : NUMANode) (hc : current.firstBusIndexed)
    (hn : node.firstBusIndexed) (hk : PCIDevices.keyed node.PCIDevices)
    (hok : current.acceptsMerge node) : (Merge.node current node).firstBusIndexed := by
  intro a x hx b hb
  rw [Merge.node_PCIBuses, List.find?_append] at hb
  rw [Merge.node_PCIDevices] at hx
  have happ : ∀ bus ∈ Spec.appendedBuses current.PCIBuses [] node.PCIBuses,
      current.acceptsBus bus := by
    intro bus hbus
    rcases Spec.appendedBuses_sound current.PCIBuses node.PCIBuses [] bus hbus with h | h
    · simp at h
    · exact hok.1 bus h.1 (fun o ho hs => h.2 o ho hs)
  have horigin : (∃ y ∈ current.PCIDevices.bucket a, y.ident = x.ident) ∨
      (∃ e ∈ node.PCIDevices.bucket a, e.ident = x.ident ∧
        e.Name ∉ (current.PCIDevices.bucket a).map PCIDevice.Name) := by
    cases hm : current.PCIDevices with
    | none =>
      rw [hm, Merge.devices_none] at hx
      simp [bucket_none] at hx
    | some m =>
      rw [hm] at hx
      exact Merge.devices_origin m _ hk a x hx
  rcases horigin with ⟨y, hy, hyx⟩ | ⟨e, he, hex, hname⟩
  · have hq : y.PCIAddr = x.PCIAddr := congrArg Prod.snd hyx
    cases hf : current.PCIBuses.find? (fun bus => PCIBus.Contains (some bus) x.PCIAddr) with
    | some b0 =>
      rw [hf] at hb
      have hb3 : b0 = b := by simpa [Option.or] using hb
      have h1 := hc a y hy b0 (by rw [hq]; exact hf)
      rw [hq, hyx, hb3] at h1
      exact h1
    | none =>
      rw [hf] at hb
      have hb3 : (Spec.appendedBuses current.PCIBuses [] node.PCIBuses).find?
          (fun bus => PCIBus.Contains (some bus) x.PCIAddr) = some b := by
        simpa [Option.or] using hb
      have h1 := happ b (List.mem_of_find?_eq_some hb3) a y hy
        (by rw [hq]; exact (PCIBus.find_eq_none _ _).1 hf)
      have h2 : PCIBus.Contains (some b) x.PCIAddr = true :=
        List.find?_some (p := fun bus => PCIBus.Contains (some bus) x.PCIAddr) hb3
      rw [hq, h2] at h1
      exact absurd h1 (by simp)
  · have hq : e.PCIAddr = x.PCIAddr := congrArg Prod.snd hex
    have hno : PCIBus.noneContains current.PCIBuses x.PCIAddr := by
      rw [← hq]
      exact hok.2 a e he hname
    rw [(PCIBus.find_eq_none _ _).2 hno] at hb
    have hb3 : (Spec.appendedBuses current.PCIBuses [] node.PCIBuses).find?
        (fun bus => PCIBus.Contains (some bus) x.PCIAddr) = some b := by
      simpa [Option.or] using hb
    rw [Spec.find_appendedBuses _ _ hno _ [] (fun o ho => by simp at ho)] at hb3
    have h1 := hn a e he b (by rw [hq]; exact hb3)
    rw [hq, hex] at h1
    exact h1

theorem NUMANode.addDeviceCore_flat_keyed (n : NUMANode) (dev : PCIDevice)
    (h : PCIDevices.keyed n.PCIDevices) :
    PCIDevices.keyed (NUMANode.addDeviceCore n dev).PCIDevices := by
  simp only [NUMANode.addDeviceCore]
  cases hd : n.PCIDevices with
  | none => exact PCIDevices.Add_keyed (some GoMap.empty) dev PCIDevices.keyed_empty
  | some m =>
    rw [hd] at h
    exact PCIDevices.Add_keyed (some m) dev h

theorem NUMANode.acceptsBus_of_flat (n : NUMANode) (bus : PCIBus)
    (h : ∀ x ∈ n.flatDevices, PCIBus.noneContains n.PCIBuses x.PCIAddr →
      PCIBus.Contains (some bus) x.PCIAddr = false) : n.acceptsBus bus :=
  fun a x hx => h x ((NUMANode.mem_node_flatDevices n x).2 ⟨a, hx⟩)

theorem NUMANode.acceptsMerge_of_flat (current node : NUMANode)
    (hk : PCIDevices.keyed node.PCIDevices)
    (h1 : ∀ bus ∈ node.PCIBuses, (∀ o ∈ current.PCIBuses, ¬ (o.LowAddress = bus.LowAddress ∧
      o.HighAddress = bus.HighAddress)) → ∀ x ∈ current.flatDevices,
      PCIBus.noneContains current.PCIBuses x.PCIAddr →
        PCIBus.Contains (some bus) x.PCIAddr = false)
    (h2 : ∀ x ∈ node.flatDevices,
      x.Name ∉ (current.PCIDevices.bucket x.PCIAddr).map PCIDevice.Name →
      PCIBus.noneContains current.PCIBuses x.PCIAddr) : current.acceptsMerge node := by
  refine ⟨fun bus hbus hno => NUMANode.acceptsBus_of_flat current bus (h1 bus hbus hno),
    fun a x hx hname => ?_⟩
  have ha : x.PCIAddr = a := hk a x hx
  apply h2 x ((NUMANode.mem_node_flatDevices node x).2 ⟨a, hx⟩)
  rw [ha]
  exact hname

/-- C12, amended: in every topology reachable from the empty topology by `AddDevice`, by
`AddCore`, by `AddPCIBus` of a bus that contains the address of no device of the node's flat
index that no bus of the node contains so far, and by `Merge` of another such topology where,
for every node ID common to both, the appended incoming buses satisfy that same condition on
the receiver node and every incoming device that `Merge` adds (its name is not in the
receiver bucket at its address) has an address that no receiver bus contains, every device of
a node's flat index whose address is contained in one of the buses of the node is, by name
and address, in the device index of the first such bus in the node's bus order. -/
theorem built_first_bus_indexed (t : Topology) (h : Topology.Built t) (id : Nat) (n : NUMANode)
    (hn : Topology.nodeAt (some t) id = some n) : n.firstBusIndexed := by
  have inv : ∀ id n, Topology.nodeAt (some t) id = some n →
      n.firstBusIndexed ∧ PCIDevices.keyed n.PCIDevices := by
    clear hn
    induction h with
    | empty =>
      intro id n hn
      simp [Topology.nodeAt, lookupOf] at hn
    | addDevice t t1 numaID dev _ heq ih =>
      intro id n hn
      rw [← heq] at hn
      by_cases hid : id = numaID
      · subst hid
        rw [nodeAt_AddDevice] at hn
        rw [← Option.some.inj hn]
        cases hold : Topology.nodeAt (some t) id with
        | none =>
          exact ⟨NUMANode.firstBusIndexed_addDeviceCore _ dev (NUMANode.firstBusIndexed_fresh id),
            NUMANode.addDeviceCore_flat_keyed _ dev PCIDevices.keyed_empty⟩
        | some old =>
          exact ⟨NUMANode.firstBusIndexed_addDeviceCore old dev (ih id old hold).1,
            NUMANode.addDeviceCore_flat_keyed old dev (ih id old hold).2⟩
      · rw [nodeAt_AddDevice_other t numaID id dev hid] at hn
        exact ih id n hn
    | addPCIBus t t1 numaID old bus _ hold hnew heq ih =>
      intro id n hn
      rw [← heq, nodeAt_putNode t numaID id old _ hold] at hn
      by_cases hid : id = numaID
      · rw [if_pos hid] at hn
        rw [← Option.some.inj hn]
        exact ⟨NUMANode.firstBusIndexed_addPCIBusCore old bus hnew (ih numaID old hold).1,
          (ih numaID old hold).2⟩
      · rw [if_neg hid] at hn
        exact ih id n hn
    | addCore t t1 numaID old core _ hold heq ih =>
      intro id n hn
      rw [← heq, nodeAt_putNode t numaID id old _ hold] at hn
      by_cases hid : id = numaID
      · rw [if_pos hid] at hn
        rw [← Option.some.inj hn]
        exact ih numaID old hold
      · rw [if_neg hid] at hn
        exact ih id n hn
    | merge t incoming t1 _ _ hok heq ih1 ih2 =>
      intro id n hn
      rw [← heq, nodeAt_Merge] at hn
      cases hnode : Topology.nodeAt (some incoming) id with
      | none =>
        rw [hnode] at hn
        exact ih1 id n hn
      | some node =>
        rw [hnode] at hn
        cases hcur : Topology.nodeAt (some t) id with
        | none =>
          rw [hcur] at hn
          rw [← Option.some.inj hn]
          exact ih2 id node hnode
        | some cur =>
          rw [hcur] at hn
          rw [← Option.some.inj hn]
          refine ⟨Merge.firstBusIndexed_node cur node (ih1 id cur hcur).1 (ih2 id node hnode).1
            (ih2 id node hnode).2 (hok id cur node hcur hnode), ?_⟩
          rw [Merge.node_PCIDevices]
          exact Merge.keyed_devices _ _ (ih1 id cur hcur).2
  exact (inv id n hn).1

/-- C12, amended, on two built topologies and their merge.  The receiver: node 0 built by
`AddDevice` of a device at `0000:30:00.0`, `AddPCIBus` of `[0000:00:00.0, 0000:05:00.0]` and
of `[0000:00:00.0, 0000:06:00.0]`, then `AddDevice` of a device at `0000:01:00.0`.  The
incoming topology: node 0 built by `AddDevice` of the device at `0000:30:00.0`, `AddPCIBus`
of `[0000:0f:00.0, 0000:20:00.0]`, then `AddDevice` of a device at `0000:10:00.0`.  The merge
appends the third bus, which indexes the added device. -/
theorem built_first_bus_indexed_witness :
    Topology.Built (Sample.single 0 Sample.overlapNode) ∧
    Topology.Built (Sample.single 0 Sample.midNode) ∧
    ∃ t1, Topology.Merge (some (Sample.single 0 Sample.overlapNode))
        (some (Sample.single 0 Sample.midNode)) = some t1 ∧
      Topology.Built t1 ∧
      (Topology.nodeAt (some t1) 0).map
        (fun n => (n.busRanges.length, n.deviceNames (Sample.addr 16 0 0))) =
          some (3, ["mid0"]) ∧
      ∀ id n, Topology.nodeAt (some t1) id = some n → n.firstBusIndexed := by
  have hFar : Topology.Built (Sample.single 0 Sample.farNode) :=
    Topology.Built.addDevice _ _ 0 Sample.devFar Topology.Built.empty (by decide)
  have hFarBus : Topology.Built (Sample.single 0 Sample.farBusNode) :=
    Topology.Built.addPCIBus _ _ 0 Sample.farNode Sample.bus05 hFar (by decide)
      (NUMANode.acceptsBus_of_flat _ _ (by decide)) (by decide)
  have hTwo : Topology.Built (Sample.single 0 Sample.farTwoBusNode) :=
    Topology.Built.addPCIBus _ _ 0 Sample.farBusNode Sample.bus06 hFarBus (by decide)
      (NUMANode.acceptsBus_of_flat _ _ (by decide)) (by decide)
  have hAll : Topology.Built (Sample.single 0 Sample.overlapNode) :=
    Topology.Built.addDevice _ _ 0 Sample.devIn hTwo (by decide)
  have hFar0f : Topology.Built (Sample.single 0 Sample.farBus0fNode) :=
    Topology.Built.addPCIBus _ _ 0 Sample.farNode Sample.bus0f hFar (by decide)
      (NUMANode.acceptsBus_of_flat _ _ (by decide)) (by decide)
  have hMid : Topology.Built (Sample.single 0 Sample.midNode) :=
    Topology.Built.addDevice _ _ 0 Sample.devMid hFar0f (by decide)
  have hok : ∀ id current node,
      Topology.nodeAt (some (Sample.single 0 Sample.overlapNode)) id = some current →
      Topology.nodeAt (some (Sample.single 0 Sample.midNode)) id = some node →
      current.acceptsMerge node := by
    intro id current node h1 h2
    rw [Sample.nodeAt_single 0 id _ current h1, Sample.nodeAt_single 0 id _ node h2]
    exact NUMANode.acceptsMerge_of_flat _ _ (Sample.index_keyed _).2 (by decide) (by decide)
  have hMerged := Topology.Built.merge _ _ _ hAll hMid hok rfl
  exact ⟨hAll, hMid, _, rfl, hMerged, by decide,
    fun id n hn => built_first_bus_indexed _ hMerged id n hn⟩

end Hardware
